import Mathlib

/-!
# SvcMerger controller: a shallow embedding of `Reconcile`

Source: `src/controllerProj/prev_working.go`.

The controller keeps its merge state in five package-level variables and talks
to the cluster through the controller-runtime client.  The embedding makes both
explicit: `Globals` holds the package-level variables, `Store` holds the
cluster objects of the request's namespace, and every function threads a `Sys`
(globals, store, and the log of the write calls issued so far).

Go maps are association lists; the order in which `range` visits a map is not
specified by Go and is a parameter (`MapOrder`) of `Reconcile`.  A call of
`Reconcile` ends by returning `(ctrl.Result{}, err)` or by panicking at
`Spec.Ports[0]` on a service without ports; `time.Sleep` has no effect on the
state.  All objects live in the namespace of the request.
-/

namespace SvcMerger

/-! ## Go maps -/

/-- Go `map[string]α`, as an association list.  The first entry for a key is the
one that counts; the operations below never create a second one. -/
abbrev GoMap (α : Type) := List (String × α)

/-- The keys of a map. -/
def mapKeys {α : Type} (m : GoMap α) : List String := m.map Prod.fst

/-- Go `_, ok := m[k]`. -/
def mapHas {α : Type} (m : GoMap α) (k : String) : Bool := decide (k ∈ mapKeys m)

/-- Go `m[k]`: the stored value, or the zero value of the element type. -/
def mapGet {α : Type} : GoMap α → String → α → α
  | [], _, zero => zero
  | (k, v) :: m, x, zero => if x = k then v else mapGet m x zero

/-- Go `delete(m, k)`. -/
def mapDelete {α : Type} (m : GoMap α) (k : String) : GoMap α :=
  m.filter (fun e => decide (e.1 ≠ k))

/-- Go `m[k] = v`. -/
def mapSet {α : Type} (m : GoMap α) (k : String) (v : α) : GoMap α :=
  mapDelete m k ++ [(k, v)]

/-- The order in which one `range` statement visits the keys of a map: some
rearrangement of the keys. -/
structure MapOrder where
  visit : List String → List String
  visit_perm : ∀ l, (visit l).Perm l

/-- The order that visits the keys as they are stored. -/
def MapOrder.stored : MapOrder := ⟨fun l => l, fun l => List.Perm.refl l⟩

/-! ## Cluster objects -/

/-- The fields of `corev1.ServicePort` that the controller sets or reads. -/
structure ServicePort where
  name : String
  port : Int
  protocol : String
  targetPort : Int
deriving DecidableEq, Repr

/-- The fields of `corev1.Service` that the controller sets or reads. -/
structure Service where
  name : String
  selector : GoMap String
  ports : List ServicePort
deriving DecidableEq, Repr

/-- An entry of `OwnerReferences`. -/
structure OwnerReference where
  kind : String
  name : String
deriving DecidableEq, Repr

/-- The fields of `corev1.Pod` that the controller reads. -/
structure Pod where
  name : String
  labels : GoMap String
  ownerReferences : List OwnerReference
deriving DecidableEq, Repr

/-- The fields of `appsv1.ReplicaSet` that the controller reads. -/
structure ReplicaSet where
  name : String
  ownerReferences : List OwnerReference
deriving DecidableEq, Repr

/-- The fields of `appsv1.Deployment` that the controller reads or sets;
`labels` is `Spec.Template.Labels`, never a nil map (apps/v1 requires the
template labels to match the selector). -/
structure Deployment where
  name : String
  labels : GoMap String
deriving DecidableEq, Repr

/-- The errors the object store reports in this model: a missing object, and a
create of an object that is already there.  Failures of the store itself and
write conflicts are not modelled. -/
inductive Err where
  | NotFound
  | AlreadyExists
deriving DecidableEq, Repr

/-- Modelled from the spec: the cluster object store of section 6 (the
controller-runtime client and the API server behind it are not part of the
repository).  It holds the objects of the request's namespace: the managing
`SvcMergerObj` (its `Spec.Services`, or `none` once it is deleted), the
services, the pods, the replica sets and the deployments.  As in section 6, a
get fails only with `NotFound` and a list does not fail; a create fails with
`AlreadyExists`, a delete or an update of a missing object with `NotFound`.
The store changes only through the controller's own writes; the cluster's
workload restart is not modelled (spec section 4.2). -/
structure Store where
  svcMergerObj : Option (List String)
  services : List Service
  pods : List Pod
  replicaSets : List ReplicaSet
  deployments : List Deployment
deriving DecidableEq, Repr

/-- Modelled from the spec: `get` of the managing resource, `NotFound` when it
is gone. -/
def Store.getSvcMergerObj (st : Store) : Except Err (List String) :=
  match st.svcMergerObj with
  | some services => .ok services
  | none => .error .NotFound

/-- Modelled from the spec: `get(Service, namespace, name) → object | NotFound`. -/
def Store.getService (st : Store) (name : String) : Except Err Service :=
  match st.services.find? (fun s => decide (s.name = name)) with
  | some s => .ok s
  | none => .error .NotFound

/-- Modelled from the spec: `get(Pod, namespace, name) → object | NotFound`. -/
def Store.getPod (st : Store) (name : String) : Except Err Pod :=
  match st.pods.find? (fun p => decide (p.name = name)) with
  | some p => .ok p
  | none => .error .NotFound

/-- Modelled from the spec: `get(ReplicaSet, namespace, name) → object | NotFound`. -/
def Store.getReplicaSet (st : Store) (name : String) : Except Err ReplicaSet :=
  match st.replicaSets.find? (fun r => decide (r.name = name)) with
  | some r => .ok r
  | none => .error .NotFound

/-- Modelled from the spec: `get(Deployment, namespace, name) → object | NotFound`. -/
def Store.getDeployment (st : Store) (name : String) : Except Err Deployment :=
  match st.deployments.find? (fun d => decide (d.name = name)) with
  | some d => .ok d
  | none => .error .NotFound

/-- `client.MatchingLabels`: every entry of the selector is a label of the
object. -/
def matchingLabels (selector : GoMap String) (labels : GoMap String) : Bool :=
  selector.all (fun e => decide (List.lookup e.1 labels = some e.2))

/-- Modelled from the spec: `list(Pod, namespace, labelSelector) → sequence of
object`. -/
def Store.listPods (st : Store) (selector : GoMap String) : Except Err (List Pod) :=
  .ok (st.pods.filter (fun p => matchingLabels selector p.labels))

/-- Modelled from the spec: `create(object) → object | AlreadyExists`. -/
def Store.createService (st : Store) (svc : Service) : Except Err Store :=
  match st.getService svc.name with
  | .ok _ => .error .AlreadyExists
  | .error _ => .ok { st with services := st.services ++ [svc] }

/-- Modelled from the spec: `delete(Service, namespace, name) → () | NotFound`. -/
def Store.deleteService (st : Store) (svc : Service) : Except Err Store :=
  match st.getService svc.name with
  | .ok _ => .ok { st with services := st.services.filter (fun s => decide (s.name ≠ svc.name)) }
  | .error e => .error e

/-- Modelled from the spec: `update(object) → object | error`; the stored
deployment of that name is replaced. -/
def Store.updateDeployment (st : Store) (d : Deployment) : Except Err Store :=
  match st.getDeployment d.name with
  | .ok _ =>
    .ok { st with deployments := st.deployments.map (fun x => if x.name = d.name then d else x) }
  | .error e => .error e

/-! ## Controller state -/

/-- The package-level variables of the controller (lines 46-58). -/
structure Globals where
  merged_service_exists : Bool
  cur_mrgd_svcs_map : GoMap Int
  merged_pods : List String
  global_merged_svc_name : String
  svc_port_map : GoMap Int
deriving DecidableEq, Repr

/-- The values the package-level variables have when the process starts. -/
def Globals.initial : Globals :=
  { merged_service_exists := false, cur_mrgd_svcs_map := [], merged_pods := [],
    global_merged_svc_name := "", svc_port_map := [] }

/-- A write call issued through the client, with the object passed to it. -/
inductive Write where
  | createService (svc : Service)
  | deleteService (svc : Service)
  | updateDeployment (d : Deployment)
deriving DecidableEq, Repr

/-- Everything a run of `Reconcile` reads and changes: the package-level
variables, the cluster, and the write calls issued so far (oldest first). -/
structure Sys where
  g : Globals
  store : Store
  writes : List Write
deriving DecidableEq, Repr

/-- How a call of `Reconcile` ends: it returns `(ctrl.Result{}, err)`, or it
panics (an index out of range at `Spec.Ports[0]`). -/
inductive Outcome where
  | returned (err : Option Err)
  | panicked
deriving DecidableEq, Repr

/-- The result of a block inside `Reconcile`: control goes on (with the block's
local value), or the function is left. -/
inductive Flow (β : Type) where
  | next (b : β) (s : Sys)
  | exit (o : Outcome) (s : Sys)

/-- A Go `for _, x := range xs` loop over a slice; `b` is the local state the
body carries from one round to the next. -/
def forLoop {α β : Type} (body : α → β → Sys → Flow β) : List α → β → Sys → Flow β
  | [], b, s => .next b s
  | x :: xs, b, s =>
    match body x b s with
    | .next b1 s1 => forLoop body xs b1 s1
    | .exit o s1 => .exit o s1

/-- The state a block leaves behind, whichever way it ends. -/
def Flow.sys {β : Type} : Flow β → Sys
  | .next _ s => s
  | .exit _ s => s

/-- `r.Create(ctx, svc)`: logs the call and applies it to the store. -/
def Sys.Create (s : Sys) (svc : Service) : Option Err × Sys :=
  match s.store.createService svc with
  | .ok st => (none, { s with store := st, writes := s.writes ++ [Write.createService svc] })
  | .error e => (some e, { s with writes := s.writes ++ [Write.createService svc] })

/-- `r.Delete(ctx, svc)`: logs the call and applies it to the store. -/
def Sys.Delete (s : Sys) (svc : Service) : Option Err × Sys :=
  match s.store.deleteService svc with
  | .ok st => (none, { s with store := st, writes := s.writes ++ [Write.deleteService svc] })
  | .error e => (some e, { s with writes := s.writes ++ [Write.deleteService svc] })

/-- `r.Update(ctx, deployment)`: logs the call and applies it to the store. -/
def Sys.Update (s : Sys) (d : Deployment) : Option Err × Sys :=
  match s.store.updateDeployment d with
  | .ok st => (none, { s with store := st, writes := s.writes ++ [Write.updateDeployment d] })
  | .error e => (some e, { s with writes := s.writes ++ [Write.updateDeployment d] })

/-! ## `getPodNames` and `getDeploymentName` -/

/-- The pair of a pod name and the service it was listed for (lines 60-63). -/
structure string_pair where
  pod : String
  service : String
deriving DecidableEq, Repr

/-- `getPodNames` (lines 66-100): for each service, fetch it and list the pods
that match its selector. -/
def getPodNames (st : Store) : List String → Except Err (List string_pair)
  | [] => .ok []
  | svc :: rest =>
    match st.getService svc with
    | .error e => .error e
    | .ok service =>
      match st.listPods service.selector with
      | .error e => .error e
      | .ok pod_list =>
        match getPodNames st rest with
        | .error e => .error e
        | .ok pods => .ok (pod_list.map (fun pod => { pod := pod.name, service := svc }) ++ pods)

/-- The inner loop of `getDeploymentName` (lines 123-127): the first owner of
kind `Deployment`. -/
def deploymentOwner : List OwnerReference → Option String
  | [] => none
  | owner2 :: rest => if owner2.kind = "Deployment" then some owner2.name else deploymentOwner rest

/-- The outer loop of `getDeploymentName` (lines 109-131). -/
def getDeploymentNameLoop (st : Store) : List OwnerReference → String × Option Err
  | [] => ("", none)
  | owner :: rest =>
    if owner.kind = "ReplicaSet" then
      match st.getReplicaSet owner.name with
      | .error e => ("", some e)
      | .ok replica_set_obj =>
        match deploymentOwner replica_set_obj.ownerReferences with
        | some name => (name, none)
        | none => getDeploymentNameLoop st rest
    else getDeploymentNameLoop st rest

/-- `getDeploymentName` (lines 103-132): the deployment that owns the pod
through a replica set; the empty name with no error when there is none. -/
def getDeploymentName (st : Store) (pod_obj : Pod) : String × Option Err :=
  getDeploymentNameLoop st pod_obj.ownerReferences

/-! ## Activate: the branch `merged_service_exists == false` (lines 150-317) -/

/-- The body of the loop at lines 168-180: fetch the service, remember its name
and its first port. -/
def captureBody (svc : String) (_ : Unit) (s : Sys) : Flow Unit :=
  match s.store.getService svc with
  | .error e => .exit (.returned (some e)) s
  | .ok service =>
    let s1 : Sys := { s with g := { s.g with cur_mrgd_svcs_map := mapSet s.g.cur_mrgd_svcs_map svc 1 } }
    match service.ports with
    | [] => .exit .panicked s1
    | p :: _ =>
      .next () { s1 with g := { s1.g with svc_port_map := mapSet s1.g.svc_port_map svc p.port } }

/-- The body of the loop at lines 198-256; `deployment_map` is the local map of
the deployments already handled. -/
def mergeBody (pod : string_pair) (deployment_map : GoMap Bool) (s : Sys) : Flow (GoMap Bool) :=
  match s.store.getPod pod.pod with
  | .error _ => .next deployment_map s
  | .ok pod_obj =>
    match getDeploymentName s.store pod_obj with
    | (deployment_name, err) =>
      if deployment_name = "" then .exit (.returned err) s
      else if err ≠ none then .exit (.returned err) s
      else if mapGet deployment_map deployment_name false = false then
        match s.store.getDeployment deployment_name with
        | .error e => .exit (.returned (some e)) s
        | .ok deployment_obj =>
          let pod_template_labels := deployment_obj.labels
          if mapGet pod_template_labels "merge" "" ≠ "true" then
            let pod_template_labels := mapSet pod_template_labels "merge" "true"
            let pod_template_labels := mapSet pod_template_labels "name" pod.service
            match s.Update { deployment_obj with labels := pod_template_labels } with
            | (some e, s1) => .exit (.returned (some e)) s1
            | (none, s1) => .next (mapSet deployment_map deployment_name true) s1
          else .next (mapSet deployment_map deployment_name true) s
      else .next deployment_map s

/-- The body of the loops at lines 300-315 and 504-519: fetch the service and
delete it. -/
def deleteBody (svc : String) (_ : Unit) (s : Sys) : Flow Unit :=
  match s.store.getService svc with
  | .error e => .exit (.returned (some e)) s
  | .ok service =>
    match s.Delete service with
    | (some e, s1) => .exit (.returned (some e)) s1
    | (none, s1) => .next () s1

/-- The merged service built at lines 279-293. -/
def merged_svc : Service :=
  { name := "merged-service",
    selector := [("merge", "true")],
    ports := [{ name := "merged-service-port", port := 89, protocol := "TCP", targetPort := 8080 }] }

/-- The branch `merged_service_exists == false` of `Reconcile` (lines 150-317). -/
def Activate (s0 : Sys) : Outcome × Sys :=
  let s : Sys := { s0 with g := { s0.g with cur_mrgd_svcs_map := [], svc_port_map := [] } }
  match s.store.getSvcMergerObj with
  | .error e => (.returned (some e), s)
  | .ok services =>
    match forLoop captureBody services () s with
    | .exit o s1 => (o, s1)
    | .next _ s1 =>
      match getPodNames s1.store services with
      | .error e => (.returned (some e), s1)
      | .ok pods =>
        match forLoop mergeBody pods [] s1 with
        | .exit o s2 => (o, s2)
        | .next _ s2 =>
          -- time.Sleep(20 * time.Second)
          match getPodNames s2.store services with
          | .error e => (.returned (some e), s2)
          | .ok pods =>
            let s3 : Sys :=
              { s2 with g := { s2.g with merged_pods := pods.map (fun pod => pod.pod),
                                         global_merged_svc_name := merged_svc.name } }
            match s3.Create merged_svc with
            | (some e, s4) => (.returned (some e), s4)
            | (none, s4) =>
              match forLoop deleteBody services () s4 with
              | .exit o s5 => (o, s5)
              | .next _ s5 =>
                (.returned none, { s5 with g := { s5.g with merged_service_exists := true } })

/-! ## Update: the managing resource is still there (lines 327-520) -/

/-- The map built at lines 330-333. -/
def new_service_map : List String → GoMap Int → GoMap Int
  | [], m => m
  | svc :: rest, m => new_service_map rest (mapSet m svc 1)

/-- The slice built at lines 339-345: the keys of the old map, then the keys of
the new one, each in the order its `range` visits them. -/
def all_services (ord : MapOrder) (cur new : GoMap Int) : List String :=
  ord.visit (mapKeys cur) ++ ord.visit (mapKeys new)

/-- The loop at lines 347-358, with `to_delete` and `to_add` as accumulators. -/
def diffLoop (cur new : GoMap Int) : List String → List String → List String →
    List String × List String
  | [], to_delete, to_add => (to_delete, to_add)
  | svc :: rest, to_delete, to_add =>
    let is_old := mapHas cur svc
    let is_new := mapHas new svc
    if is_old && is_new then diffLoop cur new rest to_delete to_add
    else if is_old then diffLoop cur new rest (to_delete ++ [svc]) to_add
    else diffLoop cur new rest to_delete (to_add ++ [svc])

/-- Lines 330-358: the pair `(to_delete, to_add)` for the remembered map and the
declared services. -/
def diff (ord : MapOrder) (cur : GoMap Int) (services : List String) : List String × List String :=
  let new := new_service_map services []
  diffLoop cur new (all_services ord cur new) [] []

/-- The block at lines 404-425 (and, word for word, 548-569): unless the
deployment was handled already, fetch it, drop its `merge` label, update it. -/
def unmergeDeployment (deployment_name : String) (deployment_map : GoMap Bool) (s : Sys) :
    Flow (GoMap Bool) :=
  if mapGet deployment_map deployment_name false = false then
    match s.store.getDeployment deployment_name with
    | .error e => .exit (.returned (some e)) s
    | .ok deployment_obj =>
      let pod_template_labels := mapDelete deployment_obj.labels "merge"
      match s.Update { deployment_obj with labels := pod_template_labels } with
      | (some e, s1) => .exit (.returned (some e)) s1
      | (none, s1) => .next (mapSet deployment_map deployment_name true) s1
  else .next deployment_map s

/-- The body of the loop at lines 398-426. -/
def releasePodBody (pod : Pod) (deployment_map : GoMap Bool) (s : Sys) : Flow (GoMap Bool) :=
  match getDeploymentName s.store pod with
  | (_, some e) => .exit (.returned (some e)) s
  | (deployment_name, none) => unmergeDeployment deployment_name deployment_map s

/-- The service that the release path and the rollback create for `svc` (lines
364-377 and 590-604): selector `name = svc`, one port, the one remembered in
`svc_port_map`. -/
def restored_svc (g : Globals) (svc : String) : Service :=
  { name := svc,
    selector := [("name", svc)],
    ports := [{ name := "merged-service-port", port := mapGet g.svc_port_map svc 0,
                protocol := "TCP", targetPort := 8080 }] }

/-- The body of the loop at lines 361-432.  The service is created with the
selector `temp` as it is at line 378; `merge = true` is added to `temp` only
afterwards (line 388), for the pod listing. -/
def releaseBody (svc : String) (_ : Unit) (s : Sys) : Flow Unit :=
  let temp : GoMap String := mapSet [] "name" svc
  let new_svc : Service := { restored_svc s.g svc with selector := temp }
  match s.Create new_svc with
  | (some e, s1) => .exit (.returned (some e)) s1
  | (none, s1) =>
    let temp := mapSet temp "merge" "true"
    match s1.store.listPods temp with
    | .error e => .exit (.returned (some e)) s1
    | .ok pod_list =>
      match forLoop releasePodBody pod_list [] s1 with
      | .exit o s2 => .exit o s2
      | .next _ s2 =>
        .next () { s2 with g := { s2.g with cur_mrgd_svcs_map := mapDelete s2.g.cur_mrgd_svcs_map svc,
                                            svc_port_map := mapDelete s2.g.svc_port_map svc } }

/-- The body of the loop at lines 458-486, for the service `svc` being added. -/
def absorbPodBody (svc : String) (pod : Pod) (deployment_map : GoMap Bool) (s : Sys) :
    Flow (GoMap Bool) :=
  match getDeploymentName s.store pod with
  | (_, some e) => .exit (.returned (some e)) s
  | (deployment_name, none) =>
    if mapGet deployment_map deployment_name false = false then
      match s.store.getDeployment deployment_name with
      | .error e => .exit (.returned (some e)) s
      | .ok deployment_obj =>
        let pod_template_labels := mapSet deployment_obj.labels "merge" "true"
        let pod_template_labels := mapSet pod_template_labels "name" svc
        match s.Update { deployment_obj with labels := pod_template_labels } with
        | (some e, s1) => .exit (.returned (some e)) s1
        | (none, s1) => .next (mapSet deployment_map deployment_name true) s1
    else .next deployment_map s

/-- The body of the loop at lines 435-487. -/
def absorbBody (svc : String) (_ : Unit) (s : Sys) : Flow Unit :=
  match s.store.getService svc with
  | .error e => .exit (.returned (some e)) s
  | .ok svc_obj =>
    let s1 : Sys := { s with g := { s.g with cur_mrgd_svcs_map := mapSet s.g.cur_mrgd_svcs_map svc 1 } }
    match svc_obj.ports with
    | [] => .exit .panicked s1
    | p :: _ =>
      let s2 : Sys := { s1 with g := { s1.g with svc_port_map := mapSet s1.g.svc_port_map svc p.port } }
      match s2.store.listPods svc_obj.selector with
      | .error e => .exit (.returned (some e)) s2
      | .ok pod_list =>
        match forLoop (absorbPodBody svc) pod_list [] s2 with
        | .exit o s3 => .exit o s3
        | .next _ s3 => .next () s3

/-- The branch of `Reconcile` taken when the managing resource is fetched while
the merge is active (lines 327-520); `services` is its `Spec.Services`. -/
def Update (ord : MapOrder) (services : List String) (s : Sys) : Outcome × Sys :=
  match diff ord s.g.cur_mrgd_svcs_map services with
  | (to_delete, to_add) =>
    match forLoop releaseBody to_delete () s with
    | .exit o s1 => (o, s1)
    | .next _ s1 =>
      match forLoop absorbBody to_add () s1 with
      | .exit o s2 => (o, s2)
      | .next _ s2 =>
        -- time.Sleep(20 * time.Second)
        let s3 : Sys := { s2 with g := { s2.g with merged_pods := [] } }
        match s3.store.listPods [("merge", "true")] with
        | .error e => (.returned (some e), s3)
        | .ok merged_pod_list =>
          let s4 : Sys := { s3 with g := { s3.g with merged_pods := merged_pod_list.map (fun pod => pod.name) } }
          match forLoop deleteBody to_add () s4 with
          | .exit o s5 => (o, s5)
          | .next _ s5 => (.returned none, s5)

/-! ## Rollback: the managing resource cannot be fetched (lines 523-622) -/

/-- The body of the loop at lines 529-571. -/
def rollbackPodBody (pod : String) (deployment_map : GoMap Bool) (s : Sys) : Flow (GoMap Bool) :=
  match s.store.getPod pod with
  | .error _ => .next deployment_map s
  | .ok pod_obj =>
    match getDeploymentName s.store pod_obj with
    | (_, some e) => .exit (.returned (some e)) s
    | (deployment_name, none) => unmergeDeployment deployment_name deployment_map s

/-- The body of the loop at lines 588-610. -/
def recreateBody (svc_name : String) (_ : Unit) (s : Sys) : Flow Unit :=
  match s.Create (restored_svc s.g svc_name) with
  | (some e, s1) => .exit (.returned (some e)) s1
  | (none, s1) => .next () s1

/-- The loops at lines 615-617 and 619-621: delete every key the `range`
visits. -/
def clearMap (ord : MapOrder) (m : GoMap Int) : GoMap Int :=
  (ord.visit (mapKeys m)).foldl mapDelete m

/-- The branch of `Reconcile` taken when the managing resource cannot be
fetched while the merge is active (lines 523-622). -/
def Rollback (ord : MapOrder) (s : Sys) : Outcome × Sys :=
  match forLoop rollbackPodBody s.g.merged_pods [] s with
  | .exit o s1 => (o, s1)
  | .next _ s1 =>
    match s1.store.getService s1.g.global_merged_svc_name with
    | .error e => (.returned (some e), s1)
    | .ok merged_svc_obj =>
      match s1.Delete merged_svc_obj with
      | (some e, s2) => (.returned (some e), s2)
      | (none, s2) =>
        match forLoop recreateBody (ord.visit (mapKeys s2.g.cur_mrgd_svcs_map)) () s2 with
        | .exit o s3 => (o, s3)
        | .next _ s3 =>
          (.returned none,
            { s3 with g := { merged_service_exists := false,
                             merged_pods := [],
                             global_merged_svc_name := "",
                             cur_mrgd_svcs_map := clearMap ord s3.g.cur_mrgd_svcs_map,
                             svc_port_map := clearMap ord s3.g.svc_port_map } })

/-! ## `Reconcile` -/

/-- `Reconcile` (lines 147-625). -/
def Reconcile (ord : MapOrder) (s : Sys) : Outcome × Sys :=
  if s.g.merged_service_exists = false then Activate s
  else
    match s.store.getSvcMergerObj with
    | .ok services => Update ord services s
    | .error _ => Rollback ord s

/-- One call of `Reconcile` on the given package-level variables and cluster,
with an empty write log. -/
def run (ord : MapOrder) (g : Globals) (st : Store) : Outcome × Sys :=
  Reconcile ord { g := g, store := st, writes := [] }

/-! ## Predicates used in the statements -/

/-- An outcome that reports an error. -/
def IsError (o : Outcome) : Prop := ∃ e, o = .returned (some e)

/-- The updates issued when a deployment is merged: the `merge` label is `true`. -/
def IsMergeWrite (w : Write) : Prop :=
  ∃ d, w = .updateDeployment d ∧ mapGet d.labels "merge" "" = "true"

/-- The updates issued when a deployment is released: the `merge` label is gone. -/
def IsUnmergeWrite (w : Write) : Prop := ∃ d, w = .updateDeployment d ∧ "merge" ∉ mapKeys d.labels

/-- Between `s0` and `s1` only deployments were written: the package-level
variables, the managing resource, the services, the pods and the replica sets
are the same, and every write call added to the log satisfies `Q`. -/
def OnlyDeployments (Q : Write → Prop) (s0 s1 : Sys) : Prop :=
  s1.g = s0.g ∧ s1.store.svcMergerObj = s0.store.svcMergerObj ∧
  s1.store.services = s0.store.services ∧ s1.store.pods = s0.store.pods ∧
  s1.store.replicaSets = s0.store.replicaSets ∧
  ∃ ws, s1.writes = s0.writes ++ ws ∧ ∀ w ∈ ws, Q w

/-- The state in which the Activate branch starts its work: the two maps are
made afresh (lines 153-154). -/
def Sys.fresh (s0 : Sys) : Sys :=
  { s0 with g := { s0.g with cur_mrgd_svcs_map := [], svc_port_map := [] } }

/-- The names of the pods the store lists for `merge = true` (lines 493-501). -/
def Store.mergedPodNames (st : Store) : List String :=
  (st.pods.filter (fun p => matchingLabels [("merge", "true")] p.labels)).map (fun pod => pod.name)

/-- The two maps hold the same names. -/
def KeysAgree (g : Globals) : Prop :=
  ∀ x, x ∈ mapKeys g.svc_port_map ↔ x ∈ mapKeys g.cur_mrgd_svcs_map

/-- The values the package-level variables can take: the initial ones, and
those left by a call of `Reconcile` that did not panic, on any cluster and with
any map iteration order.  (A panic ends the process, and the next process
starts from the initial values.) -/
inductive Reachable : Globals → Prop where
  | initial : Reachable Globals.initial
  | step (ord : MapOrder) (g : Globals) (st : Store) (o : Outcome) (s' : Sys) :
      Reachable g → run ord g st = (o, s') → o ≠ .panicked → Reachable s'.g

/-- Every service the store hands out has at least one port. -/
def PortsOk (st : Store) : Prop := ∀ n o, st.getService n = .ok o → o.ports ≠ []

/-- The values the package-level variables can take when every call of
`Reconcile`, whether it ends well or not, runs on a cluster in which every
fetched service has at least one port: the initial values, and those left by
such a call, with any map iteration order. -/
inductive ReachableServed : Globals → Prop where
  | initial : ReachableServed Globals.initial
  | step (ord : MapOrder) (g : Globals) (st : Store) :
      ReachableServed g → PortsOk st → ReachableServed (run ord g st).2.g

/-- No deployment in the store has the empty name (the API server does not
accept one). -/
def NoEmptyDeployment (st : Store) : Prop := ∀ d ∈ st.deployments, d.name ≠ ""

/-! ## What the loops establish -/

/-- What the capture loop has established after the services `pre`. -/
def CaptureInv (s0 : Sys) (pre : List String) (s : Sys) : Prop :=
  s.store = s0.store ∧ s.writes = s0.writes ∧
  s.g.merged_service_exists = s0.g.merged_service_exists ∧
  s.g.merged_pods = s0.g.merged_pods ∧
  s.g.global_merged_svc_name = s0.g.global_merged_svc_name ∧
  (∀ x, x ∈ mapKeys s.g.cur_mrgd_svcs_map ↔ x ∈ pre ∨ x ∈ mapKeys s0.g.cur_mrgd_svcs_map) ∧
  (∀ x, x ∈ mapKeys s.g.svc_port_map ↔ x ∈ pre ∨ x ∈ mapKeys s0.g.svc_port_map) ∧
  (∀ n ∈ pre, ∃ o p ps, s0.store.getService n = .ok o ∧ o.ports = p :: ps ∧
    mapGet s.g.svc_port_map n 0 = p.port) ∧
  (∀ n, n ∉ pre → mapGet s.g.svc_port_map n 0 = mapGet s0.g.svc_port_map n 0)

/-- What the deletion loop has established after the services `pre`: they are
gone from the store, and one delete call was issued for each, with the object
that was fetched. -/
def DeleteInv (s0 : Sys) (pre : List String) (s : Sys) : Prop :=
  s.g = s0.g ∧
  s.store = { s0.store with
                services := s0.store.services.filter (fun x => decide (x.name ∉ pre)) } ∧
  ∃ objs, List.Forall₂ (fun n o => s0.store.getService n = .ok o) pre objs ∧
    s.writes = s0.writes ++ objs.map Write.deleteService

/-- What the release loop has established after the services `pre`: they are
gone from both maps, a service was created for each, and apart from that only
deployments were written. -/
def ReleaseInv (s0 : Sys) (pre : List String) (s : Sys) : Prop :=
  s.g = { s0.g with cur_mrgd_svcs_map := pre.foldl mapDelete s0.g.cur_mrgd_svcs_map,
                    svc_port_map := pre.foldl mapDelete s0.g.svc_port_map } ∧
  pre.Nodup ∧ (∀ n ∈ pre, s0.store.getService n = .error .NotFound) ∧
  s.store.svcMergerObj = s0.store.svcMergerObj ∧ s.store.pods = s0.store.pods ∧
  s.store.replicaSets = s0.store.replicaSets ∧
  s.store.services = s0.store.services ++ pre.map (restored_svc s0.g) ∧
  ∃ ws, s.writes = s0.writes ++ ws ∧
    (∀ n ∈ pre, Write.createService (restored_svc s0.g n) ∈ ws) ∧
    (∀ w ∈ ws, (∃ n ∈ pre, w = .createService (restored_svc s0.g n)) ∨ IsUnmergeWrite w)

/-- What the absorb loop has established after the services `pre`: they are in
both maps, with their first port, and only deployments were written. -/
def AbsorbInv (s0 : Sys) (pre : List String) (s : Sys) : Prop :=
  s.g.merged_service_exists = s0.g.merged_service_exists ∧
  s.g.merged_pods = s0.g.merged_pods ∧
  s.g.global_merged_svc_name = s0.g.global_merged_svc_name ∧
  (∀ x, x ∈ mapKeys s.g.cur_mrgd_svcs_map ↔ x ∈ pre ∨ x ∈ mapKeys s0.g.cur_mrgd_svcs_map) ∧
  (∀ x, x ∈ mapKeys s.g.svc_port_map ↔ x ∈ pre ∨ x ∈ mapKeys s0.g.svc_port_map) ∧
  (∀ n ∈ pre, ∃ o p ps, s0.store.getService n = .ok o ∧ o.ports = p :: ps ∧
    mapGet s.g.svc_port_map n 0 = p.port) ∧
  (∀ n z, n ∉ pre → mapGet s.g.svc_port_map n z = mapGet s0.g.svc_port_map n z) ∧
  s.store.svcMergerObj = s0.store.svcMergerObj ∧ s.store.services = s0.store.services ∧
  s.store.pods = s0.store.pods ∧ s.store.replicaSets = s0.store.replicaSets ∧
  ∃ ws, s.writes = s0.writes ++ ws ∧ ∀ w ∈ ws, IsMergeWrite w

/-- How a loop that updates deployments has changed them since `st0`, given the
local map `dm` of the deployments handled: each stored deployment is the image
of the one it replaced, with the same name, and one whose name is not in `dm` is
untouched. -/
def DeploymentsVia (st0 : Store) (dm : GoMap Bool) (s : Sys) (f : Deployment → Deployment) : Prop :=
  s.store.deployments = st0.deployments.map f ∧ (∀ d, (f d).name = d.name) ∧
  (∀ d, mapGet dm d.name false = false → f d = d)

/-- What the labelling loop of Activate has established after the pods `pre`. -/
def MergeDepInv (st0 : Store) (pre : List string_pair) (dm : GoMap Bool) (s : Sys) : Prop :=
  s.store.pods = st0.pods ∧ s.store.replicaSets = st0.replicaSets ∧
  (∃ f, DeploymentsVia st0 dm s f) ∧
  (∀ k, mapGet dm k false = true → ∃ pod ∈ pre, ∃ pod_obj,
    st0.getPod pod.pod = .ok pod_obj ∧ getDeploymentName st0 pod_obj = (k, none))

/-- What the release loop of Rollback has established after the pods `pre`. -/
def RollbackDepInv (st0 : Store) (pre : List String) (dm : GoMap Bool) (s : Sys) : Prop :=
  s.store.pods = st0.pods ∧ s.store.replicaSets = st0.replicaSets ∧
  (∃ f, DeploymentsVia st0 dm s f ∧
    ∀ d, mapGet dm d.name false = true → "merge" ∉ mapKeys (f d).labels) ∧
  (∀ pod ∈ pre, ∀ pod_obj, st0.getPod pod = .ok pod_obj →
    ∃ n, getDeploymentName st0 pod_obj = (n, none) ∧ mapGet dm n false = true)

/-! ## The scenario of spec section 8 -/

/-- A service `n` on port `p` that selects the pods labelled `app = n`. -/
def Scenario.service (n : String) (p : Int) : Service :=
  { name := n, selector := [("app", n)],
    ports := [{ name := "http", port := p, protocol := "TCP", targetPort := 8080 }] }

/-- The pod behind service `n`, owned by the replica set `rs-n`. -/
def Scenario.pod (n : String) : Pod :=
  { name := "pod-" ++ n, labels := [("app", n)],
    ownerReferences := [{ kind := "ReplicaSet", name := "rs-" ++ n }] }

/-- The replica set `rs-n`, owned by the deployment `dep-n`. -/
def Scenario.replicaSet (n : String) : ReplicaSet :=
  { name := "rs-" ++ n, ownerReferences := [{ kind := "Deployment", name := "dep-" ++ n }] }

/-- The deployment `dep-n`. -/
def Scenario.deployment (n : String) : Deployment :=
  { name := "dep-" ++ n, labels := [("app", n)] }

/-- Services A, B, C, D on ports 80-83, one pod each on its own deployment; the
managing resource declares A, B, C. -/
def Scenario.cluster : Store :=
  { svcMergerObj := some ["A", "B", "C"],
    services := [Scenario.service "A" 80, Scenario.service "B" 81, Scenario.service "C" 82,
                 Scenario.service "D" 83],
    pods := ["A", "B", "C", "D"].map Scenario.pod,
    replicaSets := ["A", "B", "C", "D"].map Scenario.replicaSet,
    deployments := ["A", "B", "C", "D"].map Scenario.deployment }

/-- The system after the first `Reconcile` on the scenario cluster. -/
def Scenario.merged : Sys := (run MapOrder.stored Globals.initial Scenario.cluster).2

/-- The scenario cluster after the merge, with the declared services changed to
B, C, D. -/
def Scenario.updated : Store :=
  { Scenario.merged.store with svcMergerObj := some ["B", "C", "D"] }

/-- The scenario cluster after the merge, with D added to the declared services
while the deployment behind D already carries `merge = true` (left by an
earlier merge under the name X). -/
def Scenario.extended : Store :=
  { Scenario.merged.store with
      svcMergerObj := some ["A", "B", "C", "D"],
      deployments := (["A", "B", "C"].map fun n =>
          ({ name := "dep-" ++ n, labels := [("app", n), ("merge", "true"), ("name", n)] } :
            Deployment)) ++
        [{ name := "dep-D", labels := [("app", "D"), ("merge", "true"), ("name", "X")] }] }

/-- The scenario cluster with a declared service, Z, that does not exist. -/
def Scenario.missing : Store :=
  { Scenario.cluster with svcMergerObj := some ["A", "Z"] }

/-- The scenario cluster after the merge, with the declared services changed to
B, C and a service Z that does not exist. -/
def Scenario.updatedMissing : Store :=
  { Scenario.merged.store with svcMergerObj := some ["B", "C", "Z"] }

/-- The scenario cluster after the merge, with the managing resource deleted
and service A already back in the store (a rollback entered a second time). -/
def Scenario.reentered : Store :=
  { Scenario.merged.store with
      svcMergerObj := none,
      services := Scenario.merged.store.services ++ [Scenario.service "A" 80] }

/-- A pod behind service `n` with no owner at all. -/
def Scenario.orphanPod (n : String) : Pod :=
  { name := "pod-" ++ n, labels := [("app", n)], ownerReferences := [] }

/-- The scenario cluster with the pod behind B replaced by one with no owner. -/
def Scenario.orphan : Store :=
  { Scenario.cluster with
      pods := [Scenario.pod "A", Scenario.orphanPod "B", Scenario.pod "C", Scenario.pod "D"] }

/-- The scenario cluster after the merge, with the managing resource deleted and
the pod behind B replaced by one with no owner. -/
def Scenario.rollbackOrphan : Store :=
  { Scenario.merged.store with
      svcMergerObj := none,
      pods := [Scenario.pod "A", Scenario.orphanPod "B", Scenario.pod "C", Scenario.pod "D"] }

/-- The scenario cluster after the merge, with D added to the declared services
and the pod behind D replaced by one with no owner. -/
def Scenario.extendedOrphan : Store :=
  { Scenario.merged.store with
      svcMergerObj := some ["A", "B", "C", "D"],
      pods := [Scenario.pod "A", Scenario.pod "B", Scenario.pod "C", Scenario.orphanPod "D"] }

/-- The scenario cluster with one more deployment, `dep-X`, that owns no pod
and whose pod template already carries `merge = true`. -/
def Scenario.labelled : Store :=
  { Scenario.cluster with
      deployments := Scenario.cluster.deployments ++
        [{ name := "dep-X", labels := [("app", "X"), ("merge", "true")] }] }

/-- The system after the first `Reconcile` on that cluster. -/
def Scenario.labelledMerged : Sys := (run MapOrder.stored Globals.initial Scenario.labelled).2

/-! ## Facts about Go maps -/

theorem mem_mapKeys_mapDelete {α : Type} (m : GoMap α) (k x : String) :
    x ∈ mapKeys (mapDelete m k) ↔ x ∈ mapKeys m ∧ x ≠ k := by
  simp only [mapKeys, mapDelete, List.mem_map, List.mem_filter, decide_eq_true_eq]
  constructor
  · rintro ⟨e, ⟨he, hk⟩, rfl⟩
    exact ⟨⟨e, he, rfl⟩, hk⟩
  · rintro ⟨⟨e, he, rfl⟩, hk⟩
    exact ⟨e, ⟨he, hk⟩, rfl⟩

theorem mem_mapKeys_mapSet {α : Type} (m : GoMap α) (k x : String) (v : α) :
    x ∈ mapKeys (mapSet m k v) ↔ x = k ∨ x ∈ mapKeys m := by
  have h := mem_mapKeys_mapDelete m k x
  simp only [mapKeys] at h
  simp only [mapSet, mapKeys, List.map_append, List.mem_append, h, List.map_cons, List.map_nil,
    List.mem_singleton]
  by_cases hx : x = k <;> simp [hx]

theorem mapHas_iff {α : Type} (m : GoMap α) (k : String) : mapHas m k = true ↔ k ∈ mapKeys m := by
  simp [mapHas]

theorem mapGet_mapDelete_ne {α : Type} (m : GoMap α) (k x : String) (z : α) (h : x ≠ k) :
    mapGet (mapDelete m k) x z = mapGet m x z := by
  induction m with
  | nil => rfl
  | cons e m ih =>
    obtain ⟨a, b⟩ := e
    unfold mapDelete at ih ⊢
    by_cases hak : a = k
    · subst hak
      rw [List.filter_cons_of_neg (by simp), ih]
      simp [mapGet, h]
    · rw [List.filter_cons_of_pos (by simpa using hak)]
      simp only [mapGet, ih]

theorem mapGet_append_of_mem {α : Type} (m n : GoMap α) (x : String) (z : α) (h : x ∈ mapKeys m) :
    mapGet (m ++ n) x z = mapGet m x z := by
  induction m with
  | nil => simp [mapKeys] at h
  | cons e m ih =>
    obtain ⟨a, b⟩ := e
    by_cases hxa : x = a
    · simp [mapGet, hxa]
    · have : x ∈ mapKeys m := by
        simp only [mapKeys, List.map_cons, List.mem_cons] at h ⊢
        rcases h with h | h
        · exact absurd h hxa
        · exact h
      simp [mapGet, hxa, ih this]

theorem mapGet_append_of_not_mem {α : Type} (m n : GoMap α) (x : String) (z : α)
    (h : x ∉ mapKeys m) : mapGet (m ++ n) x z = mapGet n x z := by
  induction m with
  | nil => rfl
  | cons e m ih =>
    obtain ⟨a, b⟩ := e
    simp only [mapKeys, List.map_cons, List.mem_cons, not_or] at h
    have h2 : x ∉ mapKeys m := h.2
    simp [mapGet, h.1, ih h2]

theorem mapGet_mapSet_same {α : Type} (m : GoMap α) (k : String) (v z : α) :
    mapGet (mapSet m k v) k z = v := by
  have h : k ∉ mapKeys (mapDelete m k) := by
    rw [mem_mapKeys_mapDelete]; simp
  rw [mapSet, mapGet_append_of_not_mem _ _ _ _ h]
  simp [mapGet]

theorem mapGet_mapSet_ne {α : Type} (m : GoMap α) (k x : String) (v z : α) (h : x ≠ k) :
    mapGet (mapSet m k v) x z = mapGet m x z := by
  by_cases hx : x ∈ mapKeys (mapDelete m k)
  · rw [mapSet, mapGet_append_of_mem _ _ _ _ hx, mapGet_mapDelete_ne _ _ _ _ h]
  · rw [mapSet, mapGet_append_of_not_mem _ _ _ _ hx]
    have hx2 : x ∉ mapKeys m := fun hm => hx ((mem_mapKeys_mapDelete m k x).2 ⟨hm, h⟩)
    have : mapGet m x z = z := by
      clear hx
      induction m with
      | nil => rfl
      | cons e m ih =>
        obtain ⟨a, b⟩ := e
        simp only [mapKeys, List.map_cons, List.mem_cons, not_or] at hx2
        have h3 : x ∉ mapKeys m := hx2.2
        simp [mapGet, hx2.1, ih h3]
    simp [mapGet, h, this]

theorem mem_visit (ord : MapOrder) (l : List String) (x : String) : x ∈ ord.visit l ↔ x ∈ l :=
  (ord.visit_perm l).mem_iff

/-! ## The diff step -/

theorem mem_mapKeys_new_service_map (services : List String) (m : GoMap Int) (x : String) :
    x ∈ mapKeys (new_service_map services m) ↔ x ∈ services ∨ x ∈ mapKeys m := by
  induction services generalizing m with
  | nil => simp [new_service_map]
  | cons svc rest ih =>
    simp only [new_service_map, ih, mem_mapKeys_mapSet, List.mem_cons]
    tauto

theorem diffLoop_eq (cur new : GoMap Int) (l to_delete to_add : List String) :
    diffLoop cur new l to_delete to_add =
      (to_delete ++ l.filter (fun svc => mapHas cur svc && !mapHas new svc),
       to_add ++ l.filter (fun svc => !mapHas cur svc)) := by
  induction l generalizing to_delete to_add with
  | nil => simp [diffLoop]
  | cons svc rest ih =>
    simp only [diffLoop]
    cases ho : mapHas cur svc <;> cases hn : mapHas new svc <;>
      simp [ih, List.filter, ho, hn]

theorem mem_to_delete (ord : MapOrder) (cur : GoMap Int) (services : List String) (x : String) :
    x ∈ (diff ord cur services).1 ↔ x ∈ mapKeys cur ∧ x ∉ services := by
  simp only [diff, diffLoop_eq, all_services, List.nil_append, List.mem_filter, List.mem_append,
    mem_visit, Bool.and_eq_true, mapHas_iff, Bool.not_eq_true', mem_mapKeys_new_service_map]
  simp only [← Bool.not_eq_true, mapHas_iff, mem_mapKeys_new_service_map]
  simp [mapKeys]
  tauto

theorem mem_to_add (ord : MapOrder) (cur : GoMap Int) (services : List String) (x : String) :
    x ∈ (diff ord cur services).2 ↔ x ∈ services ∧ x ∉ mapKeys cur := by
  simp only [diff, diffLoop_eq, all_services, List.nil_append, List.mem_filter, List.mem_append,
    mem_visit, Bool.and_eq_true, mapHas_iff, Bool.not_eq_true', mem_mapKeys_new_service_map]
  simp only [← Bool.not_eq_true, mapHas_iff, mem_mapKeys_new_service_map]
  simp [mapKeys]
  tauto

/-- C1. The diff step of Update (lines 330-358): a name is in `to_delete` iff it
is a key of `cur_mrgd_svcs_map` and not a declared service, a name is in `to_add`
iff it is a declared service and not a key of `cur_mrgd_svcs_map`, a name that is
both is in neither list, and when the two hold the same names both lists are
empty.  This holds for every order in which the two maps are visited. -/
theorem diff_spec (ord : MapOrder) (cur : GoMap Int) (services : List String) :
    (∀ x, x ∈ (diff ord cur services).1 ↔ x ∈ mapKeys cur ∧ x ∉ services) ∧
    (∀ x, x ∈ (diff ord cur services).2 ↔ x ∈ services ∧ x ∉ mapKeys cur) ∧
    (∀ x, x ∈ mapKeys cur ∧ x ∈ services →
      x ∉ (diff ord cur services).1 ∧ x ∉ (diff ord cur services).2) ∧
    ((∀ x, x ∈ mapKeys cur ↔ x ∈ services) → diff ord cur services = ([], [])) := by
  refine ⟨mem_to_delete ord cur services, mem_to_add ord cur services, ?_, ?_⟩
  · intro x hx
    rw [mem_to_delete, mem_to_add]
    exact ⟨fun h => h.2 hx.2, fun h => h.2 hx.1⟩
  · intro h
    have h1 : (diff ord cur services).1 = [] := by
      apply List.eq_nil_iff_forall_not_mem.2
      intro x hx
      rw [mem_to_delete] at hx
      exact hx.2 ((h x).1 hx.1)
    have h2 : (diff ord cur services).2 = [] := by
      apply List.eq_nil_iff_forall_not_mem.2
      intro x hx
      rw [mem_to_add] at hx
      exact hx.2 ((h x).2 hx.1)
    exact Prod.ext h1 h2

/-! ## Loops and client calls -/

theorem forLoop_rel {α β : Type} (R : Sys → Sys → Prop) (hrefl : ∀ s, R s s)
    (htrans : ∀ a b c, R a b → R b c → R a c) (body : α → β → Sys → Flow β)
    (hb : ∀ x b s, R s (body x b s).sys) (l : List α) (b : β) (s : Sys) :
    R s (forLoop body l b s).sys := by
  induction l generalizing b s with
  | nil => exact hrefl s
  | cons x xs ih =>
    have h1 := hb x b s
    simp only [forLoop]
    cases hbody : body x b s with
    | next b1 s1 =>
      rw [hbody] at h1
      exact htrans _ _ _ h1 (ih b1 s1)
    | exit o s1 =>
      rw [hbody] at h1
      exact h1

theorem OnlyDeployments.refl (Q : Write → Prop) (s : Sys) : OnlyDeployments Q s s :=
  ⟨rfl, rfl, rfl, rfl, rfl, [], by simp, by simp⟩

theorem OnlyDeployments.trans (Q : Write → Prop) (a b c : Sys) (h1 : OnlyDeployments Q a b)
    (h2 : OnlyDeployments Q b c) : OnlyDeployments Q a c := by
  obtain ⟨g1, c1, sv1, p1, r1, ws1, hw1, hq1⟩ := h1
  obtain ⟨g2, c2, sv2, p2, r2, ws2, hw2, hq2⟩ := h2
  refine ⟨g2.trans g1, c2.trans c1, sv2.trans sv1, p2.trans p1, r2.trans r1, ws1 ++ ws2, ?_, ?_⟩
  · rw [hw2, hw1, List.append_assoc]
  · intro w hw
    rcases List.mem_append.1 hw with h | h
    · exact hq1 w h
    · exact hq2 w h

theorem Store.updateDeployment_ok {st st1 : Store} {d : Deployment}
    (h : st.updateDeployment d = .ok st1) :
    st1 = { st with deployments := st.deployments.map (fun x => if x.name = d.name then d else x) } := by
  unfold Store.updateDeployment at h
  split at h
  · simpa using h.symm
  · simp at h

theorem Sys.Update_rel (Q : Write → Prop) (s : Sys) (d : Deployment) (hq : Q (.updateDeployment d)) :
    OnlyDeployments Q s (s.Update d).2 := by
  unfold Sys.Update
  cases h : s.store.updateDeployment d with
  | error e => exact ⟨rfl, rfl, rfl, rfl, rfl, [.updateDeployment d], rfl, by simpa using hq⟩
  | ok st1 =>
    have := Store.updateDeployment_ok h
    subst this
    exact ⟨rfl, rfl, rfl, rfl, rfl, [.updateDeployment d], rfl, by simpa using hq⟩

theorem unmergeDeployment_rel (name : String) (dm : GoMap Bool) (s : Sys) :
    OnlyDeployments IsUnmergeWrite s (unmergeDeployment name dm s).sys := by
  unfold unmergeDeployment
  split
  · split
    · exact OnlyDeployments.refl _ s
    · rename_i dobj _
      have h := Sys.Update_rel IsUnmergeWrite s { dobj with labels := mapDelete dobj.labels "merge" }
        ⟨_, rfl, by simp [mem_mapKeys_mapDelete]⟩
      dsimp only
      generalize s.Update _ = r at h ⊢
      obtain ⟨e, s1⟩ := r
      cases e <;> exact h
  · exact OnlyDeployments.refl _ s

theorem rollbackPodBody_rel (pod : String) (dm : GoMap Bool) (s : Sys) :
    OnlyDeployments IsUnmergeWrite s (rollbackPodBody pod dm s).sys := by
  unfold rollbackPodBody
  split
  · exact OnlyDeployments.refl _ s
  · split
    · exact OnlyDeployments.refl _ s
    · exact unmergeDeployment_rel _ _ _


/-! ## Services in the store -/

theorem getService_append_of_ok {st : Store} {n : String} {o : Service} (l : List Service)
    (h : st.getService n = .ok o) :
    Store.getService { st with services := st.services ++ l } n = .ok o := by
  unfold Store.getService at h ⊢
  cases hf : st.services.find? (fun s => decide (s.name = n)) with
  | none => simp [hf] at h
  | some x =>
    simp only [hf, Except.ok.injEq] at h
    subst h
    simp [List.find?_append, hf]

theorem getService_append_of_error {st : Store} {n : String} {e : Err} (l : List Service)
    (h : st.getService n = .error e) :
    Store.getService { st with services := st.services ++ l } n =
      Store.getService { st with services := l } n := by
  unfold Store.getService at h ⊢
  cases hf : st.services.find? (fun s => decide (s.name = n)) with
  | none => simp [List.find?_append, hf]
  | some x => simp [hf] at h

theorem getService_error_eq {st : Store} {n : String} {e : Err} (h : st.getService n = .error e) :
    e = .NotFound := by
  unfold Store.getService at h
  split at h <;> simp at h
  exact h.symm

theorem getService_ok_name {st : Store} {n : String} {o : Service} (h : st.getService n = .ok o) :
    o.name = n ∧ o ∈ st.services := by
  unfold Store.getService at h
  split at h
  · rename_i x hf
    simp only [Except.ok.injEq] at h
    subst h
    exact ⟨by simpa using List.find?_some hf, List.mem_of_find?_eq_some hf⟩
  · simp at h

theorem Sys.Create_none {s s1 : Sys} {svc : Service} (h : s.Create svc = (none, s1)) :
    s.store.getService svc.name = .error .NotFound ∧
    s1 = { s with store := { s.store with services := s.store.services ++ [svc] },
                  writes := s.writes ++ [.createService svc] } := by
  unfold Sys.Create Store.createService at h
  cases hg : s.store.getService svc.name with
  | ok o => simp [hg] at h
  | error e =>
    have := getService_error_eq hg
    subst this
    simp only [hg, Prod.mk.injEq, true_and] at h
    exact ⟨rfl, h.symm⟩

theorem Sys.Create_some {s s1 : Sys} {svc : Service} {e : Err} (h : s.Create svc = (some e, s1)) :
    e = .AlreadyExists ∧ (∃ o, s.store.getService svc.name = .ok o) ∧
    s1 = { s with writes := s.writes ++ [.createService svc] } := by
  unfold Sys.Create Store.createService at h
  cases hg : s.store.getService svc.name with
  | ok o =>
    simp only [hg, Prod.mk.injEq, Option.some.injEq] at h
    exact ⟨h.1.symm, ⟨o, rfl⟩, h.2.symm⟩
  | error e => simp [hg] at h

theorem Sys.Delete_none {s s1 : Sys} {svc : Service} (h : s.Delete svc = (none, s1)) :
    (∃ o, s.store.getService svc.name = .ok o) ∧
    s1 = { s with store := { s.store with
                               services := s.store.services.filter (fun x => decide (x.name ≠ svc.name)) },
                  writes := s.writes ++ [.deleteService svc] } := by
  unfold Sys.Delete Store.deleteService at h
  cases hg : s.store.getService svc.name with
  | ok o =>
    simp only [hg, Prod.mk.injEq, true_and] at h
    exact ⟨⟨o, rfl⟩, h.symm⟩
  | error e => simp [hg] at h

theorem Sys.Delete_some {s s1 : Sys} {svc : Service} {e : Err} (h : s.Delete svc = (some e, s1)) :
    s1 = { s with writes := s.writes ++ [.deleteService svc] } := by
  unfold Sys.Delete Store.deleteService at h
  cases hg : s.store.getService svc.name with
  | ok o => simp [hg] at h
  | error e =>
    simp only [hg, Prod.mk.injEq, Option.some.injEq] at h
    exact h.2.symm

/-! ## Rollback -/

theorem recreate_next (l : List String) (s s1 : Sys) (u : Unit)
    (h : forLoop recreateBody l () s = .next u s1) :
    s1 = { s with store := { s.store with services := s.store.services ++ l.map (restored_svc s.g) },
                  writes := s.writes ++ l.map (fun n => .createService (restored_svc s.g n)) } := by
  induction l generalizing s with
  | nil =>
    simp only [forLoop, Flow.next.injEq, true_and] at h
    subst h
    simp
  | cons x xs ih =>
    simp only [forLoop, recreateBody] at h
    rcases hc : s.Create (restored_svc s.g x) with ⟨_ | e, s2⟩
    · rw [hc] at h
      have h2 := (Sys.Create_none hc).2
      have := ih s2 h
      rw [this, h2]
      simp
    · rw [hc] at h
      simp at h

theorem recreate_exit (l : List String) (s s1 : Sys) (o : Outcome)
    (h : forLoop recreateBody l () s = .exit o s1) :
    o = .returned (some .AlreadyExists) ∧ s1.g = s.g := by
  induction l generalizing s with
  | nil => simp [forLoop] at h
  | cons x xs ih =>
    simp only [forLoop, recreateBody] at h
    rcases hc : s.Create (restored_svc s.g x) with ⟨_ | e, s2⟩
    · rw [hc] at h
      have h2 := (Sys.Create_none hc).2
      have := ih s2 h
      rw [h2] at this
      exact this
    · rw [hc] at h
      simp only [Flow.exit.injEq] at h
      obtain ⟨he, _, h3⟩ := Sys.Create_some hc
      subst he
      rw [← h.2, h3]
      exact ⟨h.1.symm, rfl⟩

theorem recreate_fails (l : List String) (s : Sys) (n : String) (o : Service) (hn : n ∈ l)
    (ho : s.store.getService n = .ok o) :
    ∃ s1, forLoop recreateBody l () s = .exit (.returned (some .AlreadyExists)) s1 := by
  induction l generalizing s with
  | nil => simp at hn
  | cons x xs ih =>
    simp only [forLoop, recreateBody]
    rcases hc : s.Create (restored_svc s.g x) with ⟨_ | e, s2⟩
    · obtain ⟨h1, h2⟩ := Sys.Create_none hc
      have hx : n ≠ x := by
        rintro rfl
        simp only [restored_svc] at h1
        rw [ho] at h1
        simp at h1
      have hn2 : n ∈ xs := by
        rcases List.mem_cons.1 hn with h | h
        · exact absurd h hx
        · exact h
      have ho2 : s2.store.getService n = .ok o := by
        rw [h2]
        exact getService_append_of_ok _ ho
      exact ih s2 hn2 ho2
    · obtain ⟨he, _, _⟩ := Sys.Create_some hc
      subst he
      exact ⟨s2, rfl⟩

theorem getService_error_iff (st : Store) (n : String) :
    st.getService n = .error .NotFound ↔ ∀ x ∈ st.services, x.name ≠ n := by
  unfold Store.getService
  cases hf : st.services.find? (fun s => decide (s.name = n)) with
  | none =>
    simp only [true_iff]
    intro x hx
    have := List.find?_eq_none.1 hf x hx
    simpa using this
  | some y =>
    have hy : y.name = n := by simpa using List.find?_some hf
    constructor
    · intro h
      simp at h
    · intro h
      exact absurd hy (h y (List.mem_of_find?_eq_some hf))

theorem recreate_next_fresh (l : List String) (s s1 : Sys) (u : Unit)
    (h : forLoop recreateBody l () s = .next u s1) :
    ∀ n ∈ l, ∀ x ∈ s.store.services, x.name ≠ n := by
  induction l generalizing s with
  | nil => simp
  | cons x xs ih =>
    simp only [forLoop, recreateBody] at h
    rcases hc : s.Create (restored_svc s.g x) with ⟨_ | e, s2⟩
    · rw [hc] at h
      obtain ⟨h1, h2⟩ := Sys.Create_none hc
      intro n hn y hy
      rcases List.mem_cons.1 hn with rfl | hn
      · exact (getService_error_iff _ _).1 h1 y hy
      · have := ih s2 h n hn y
        rw [h2] at this
        exact this (List.mem_append_left _ hy)
    · rw [hc] at h
      simp at h

theorem mem_mapKeys_foldl_mapDelete {α : Type} (l : List String) (m : GoMap α) (x : String) :
    x ∈ mapKeys (l.foldl mapDelete m) ↔ x ∈ mapKeys m ∧ x ∉ l := by
  induction l generalizing m with
  | nil => simp
  | cons k ks ih =>
    simp only [List.foldl_cons, ih, mem_mapKeys_mapDelete, List.mem_cons, not_or]
    tauto

theorem clearMap_eq (ord : MapOrder) (m : GoMap Int) : clearMap ord m = [] := by
  apply List.eq_nil_iff_forall_not_mem.2
  intro e he
  have h1 : e.1 ∈ mapKeys (clearMap ord m) := List.mem_map_of_mem _ he
  unfold clearMap at h1
  rw [mem_mapKeys_foldl_mapDelete, mem_visit] at h1
  exact h1.2 h1.1


theorem forLoop_exit {α β : Type} (Q : Outcome → Prop) (body : α → β → Sys → Flow β)
    (hb : ∀ x b s s1 o, body x b s = .exit o s1 → Q o) (l : List α) (b : β) (s s1 : Sys)
    (o : Outcome) (h : forLoop body l b s = .exit o s1) : Q o := by
  induction l generalizing b s with
  | nil => simp [forLoop] at h
  | cons x xs ih =>
    simp only [forLoop] at h
    cases hbody : body x b s with
    | next b1 s2 =>
      rw [hbody] at h
      exact ih b1 s2 h
    | exit o2 s2 =>
      rw [hbody] at h
      simp only [Flow.exit.injEq] at h
      rw [← h.1]
      exact hb x b s s2 o2 hbody

theorem unmergeDeployment_exit (name : String) (dm : GoMap Bool) (s s1 : Sys) (o : Outcome)
    (h : unmergeDeployment name dm s = .exit o s1) : IsError o := by
  unfold unmergeDeployment at h
  split at h
  · split at h
    · simp only [Flow.exit.injEq] at h
      exact ⟨_, h.1.symm⟩
    · dsimp only at h
      generalize s.Update _ = r at h
      obtain ⟨e, s2⟩ := r
      cases e with
      | none => simp at h
      | some e =>
        simp only [Flow.exit.injEq] at h
        exact ⟨_, h.1.symm⟩
  · simp at h

theorem rollbackPodBody_exit (pod : String) (dm : GoMap Bool) (s s1 : Sys) (o : Outcome)
    (h : rollbackPodBody pod dm s = .exit o s1) : IsError o := by
  unfold rollbackPodBody at h
  split at h
  · simp at h
  · split at h
    · simp only [Flow.exit.injEq] at h
      exact ⟨_, h.1.symm⟩
    · exact unmergeDeployment_exit _ _ _ _ _ h

theorem Rollback_ok (ord : MapOrder) (s s' : Sys) (h : Rollback ord s = (.returned none, s')) :
    ∃ dm s1 mobj, forLoop rollbackPodBody s.g.merged_pods [] s = .next dm s1 ∧
      OnlyDeployments IsUnmergeWrite s s1 ∧
      s1.store.getService s.g.global_merged_svc_name = .ok mobj ∧
      (∀ n ∈ ord.visit (mapKeys s.g.cur_mrgd_svcs_map),
        ∀ x ∈ s1.store.services.filter (fun x => decide (x.name ≠ mobj.name)), x.name ≠ n) ∧
      s' = { g := Globals.initial,
             store := { s1.store with
               services := s1.store.services.filter (fun x => decide (x.name ≠ mobj.name)) ++
                 (ord.visit (mapKeys s.g.cur_mrgd_svcs_map)).map (restored_svc s.g) },
             writes := s1.writes ++ [.deleteService mobj] ++
               (ord.visit (mapKeys s.g.cur_mrgd_svcs_map)).map
                 (fun n => .createService (restored_svc s.g n)) } := by
  unfold Rollback at h
  have hrel := forLoop_rel _ (OnlyDeployments.refl IsUnmergeWrite)
    (OnlyDeployments.trans IsUnmergeWrite) rollbackPodBody rollbackPodBody_rel s.g.merged_pods [] s
  cases h1 : forLoop rollbackPodBody s.g.merged_pods [] s with
  | exit o s1 =>
    have := forLoop_exit IsError _ rollbackPodBody_exit _ _ _ _ _ h1
    obtain ⟨e, he⟩ := this
    simp [h1, he] at h
  | next dm s1 =>
    rw [h1] at hrel
    simp only [Flow.sys] at hrel
    have hg : s1.g = s.g := hrel.1
    simp only [h1] at h
    cases h2 : s1.store.getService s1.g.global_merged_svc_name with
    | error e => simp [h2] at h
    | ok mobj =>
      simp only [h2] at h
      rcases h3 : s1.Delete mobj with ⟨_ | e, s2⟩
      · simp only [h3] at h
        have hs2 := (Sys.Delete_none h3).2
        have hg2 : s2.g = s.g := by rw [hs2]; exact hg
        cases h4 : forLoop recreateBody (ord.visit (mapKeys s2.g.cur_mrgd_svcs_map)) () s2 with
        | exit o s3 =>
          have := (recreate_exit _ _ _ _ h4).1
          simp [h4, this] at h
        | next u s3 =>
          simp only [h4, Prod.mk.injEq, true_and] at h
          have hs3 := recreate_next _ _ _ _ h4
          have hfresh := recreate_next_fresh _ _ _ _ h4
          rw [hg2] at hfresh
          rw [hs2] at hfresh
          refine ⟨dm, s1, mobj, rfl, hrel, by rw [← hg]; exact h2, hfresh, ?_⟩
          rw [← h, hs3, hg2, hs2]
          simp [clearMap_eq, Globals.initial]
      · simp [h3] at h

theorem Rollback_error (ord : MapOrder) (s s' : Sys) (o : Outcome) (h : Rollback ord s = (o, s'))
    (ho : o ≠ .returned none) : IsError o ∧ s'.g = s.g := by
  unfold Rollback at h
  have hrel := forLoop_rel _ (OnlyDeployments.refl IsUnmergeWrite)
    (OnlyDeployments.trans IsUnmergeWrite) rollbackPodBody rollbackPodBody_rel s.g.merged_pods [] s
  cases h1 : forLoop rollbackPodBody s.g.merged_pods [] s with
  | exit o1 s1 =>
    have := forLoop_exit IsError _ rollbackPodBody_exit _ _ _ _ _ h1
    rw [h1] at hrel
    simp only [h1, Prod.mk.injEq] at h
    rw [← h.1, ← h.2]
    exact ⟨this, hrel.1⟩
  | next dm s1 =>
    rw [h1] at hrel
    simp only [Flow.sys] at hrel
    have hg : s1.g = s.g := hrel.1
    simp only [h1] at h
    cases h2 : s1.store.getService s1.g.global_merged_svc_name with
    | error e =>
      simp only [h2, Prod.mk.injEq] at h
      rw [← h.1, ← h.2]
      exact ⟨⟨e, rfl⟩, hg⟩
    | ok mobj =>
      simp only [h2] at h
      rcases h3 : s1.Delete mobj with ⟨_ | e, s2⟩
      · simp only [h3] at h
        have hs2 := (Sys.Delete_none h3).2
        have hg2 : s2.g = s.g := by rw [hs2]; exact hg
        cases h4 : forLoop recreateBody (ord.visit (mapKeys s2.g.cur_mrgd_svcs_map)) () s2 with
        | exit o3 s3 =>
          have h5 := recreate_exit _ _ _ _ h4
          simp only [h4, Prod.mk.injEq] at h
          rw [← h.1, ← h.2]
          exact ⟨⟨_, h5.1⟩, h5.2.trans hg2⟩
        | next u s3 =>
          simp only [h4, Prod.mk.injEq] at h
          exact absurd h.1.symm ho
      · simp only [h3, Prod.mk.injEq] at h
        have hs2 := Sys.Delete_some h3
        rw [← h.1, ← h.2, hs2]
        exact ⟨⟨e, rfl⟩, hg⟩


theorem getService_restored (st : Store) (g : Globals) (pre : List Service) (l : List String)
    (n : String) (hn : n ∈ l) (hpre : ∀ x ∈ pre, x.name ≠ n) :
    Store.getService { st with services := pre ++ l.map (restored_svc g) } n =
      .ok (restored_svc g n) := by
  have h1 : pre.find? (fun s => decide (s.name = n)) = none := by
    apply List.find?_eq_none.2
    intro x hx
    simpa using hpre x hx
  have h2 : (l.map (restored_svc g)).find? (fun s => decide (s.name = n)) =
      some (restored_svc g n) := by
    induction l with
    | nil => simp at hn
    | cons y ys ih =>
      by_cases hy : y = n
      · subst hy
        simp [restored_svc]
      · have hn2 : n ∈ ys := by
          rcases List.mem_cons.1 hn with h | h
          · exact absurd h.symm hy
          · exact h
        rw [List.map_cons, List.find?_cons_of_neg _ (by simpa [restored_svc] using hy)]
        exact ih hn2
  simp [Store.getService, List.find?_append, h1, h2]

/-! ## Rollback: the claims -/

theorem run_rollback (ord : MapOrder) (g : Globals) (st : Store)
    (hactive : g.merged_service_exists = true) (hgone : st.svcMergerObj = none) :
    run ord g st = Rollback ord { g := g, store := st, writes := [] } := by
  simp [run, Reconcile, hactive, Store.getSvcMergerObj, hgone]

/-- C4. Rollback (lines 523-622): from an active state, when the managing
resource can no longer be fetched and `Reconcile` returns no error, the write
calls issued are label removals on deployments, then the deletion of the merged
service, then one creation per remembered service; for every remembered service
the created object has that name, the selector `name = svc` alone and the port
remembered in `svc_port_map`, and it is the service of that name in the store
afterwards; the merged service is gone; and every package-level variable is
back to its empty value. -/
theorem rollback_spec (ord : MapOrder) (g : Globals) (st : Store) (s' : Sys)
    (hactive : g.merged_service_exists = true) (hgone : st.svcMergerObj = none)
    (hok : run ord g st = (.returned none, s')) :
    (∃ updates merged_svc_obj,
      st.getService g.global_merged_svc_name = .ok merged_svc_obj ∧
      (∀ w ∈ updates, ∃ d, w = .updateDeployment d ∧ "merge" ∉ mapKeys d.labels) ∧
      s'.writes = updates ++ [.deleteService merged_svc_obj] ++
        (ord.visit (mapKeys g.cur_mrgd_svcs_map)).map (fun n => .createService (restored_svc g n))) ∧
    (∀ svc ∈ mapKeys g.cur_mrgd_svcs_map,
      Write.createService
        { name := svc, selector := [("name", svc)],
          ports := [{ name := "merged-service-port", port := mapGet g.svc_port_map svc 0,
                      protocol := "TCP", targetPort := 8080 }] } ∈ s'.writes ∧
      s'.store.getService svc = .ok
        { name := svc, selector := [("name", svc)],
          ports := [{ name := "merged-service-port", port := mapGet g.svc_port_map svc 0,
                      protocol := "TCP", targetPort := 8080 }] }) ∧
    (g.global_merged_svc_name ∉ mapKeys g.cur_mrgd_svcs_map →
      s'.store.getService g.global_merged_svc_name = .error .NotFound) ∧
    s'.g = { merged_service_exists := false, cur_mrgd_svcs_map := [], merged_pods := [],
             global_merged_svc_name := "", svc_port_map := [] } := by
  rw [run_rollback ord g st hactive hgone] at hok
  obtain ⟨dm, s1, mobj, hloop, hrel, hget, hfresh, hs'⟩ := Rollback_ok ord _ s' hok
  obtain ⟨hg1, -, hsv1, -, -, ws, hws, hq⟩ := hrel
  simp only at hg1 hsv1 hws hget hfresh
  have hmobj := getService_ok_name hget
  refine ⟨⟨ws, mobj, ?_, hq, ?_⟩, ?_, ?_, ?_⟩
  · unfold Store.getService at hget ⊢
    rw [← hsv1]
    exact hget
  · rw [hs', hws]
    simp
  · intro svc hsvc
    have hmem : svc ∈ ord.visit (mapKeys g.cur_mrgd_svcs_map) := (mem_visit ord _ _).2 hsvc
    constructor
    · rw [hs']
      simp only [List.mem_append, List.mem_map]
      exact Or.inr ⟨svc, hmem, rfl⟩
    · rw [hs']
      exact getService_restored _ g _ _ svc hmem (hfresh svc hmem)
  · intro hnot
    rw [hs', getService_error_iff]
    intro x hx
    simp only [List.mem_append, List.mem_filter, List.mem_map, decide_eq_true_eq] at hx
    rcases hx with ⟨_, hx⟩ | ⟨n, hn, rfl⟩
    · rw [hmobj.1] at hx
      exact hx
    · simp only [restored_svc]
      intro h
      exact hnot ((mem_visit ord _ _).1 (h ▸ hn))
  · rw [hs']
    rfl

theorem rollback_spec_witness :
    (run MapOrder.stored Scenario.merged.g { Scenario.merged.store with svcMergerObj := none }).2.g =
      { merged_service_exists := false, cur_mrgd_svcs_map := [], merged_pods := [],
        global_merged_svc_name := "", svc_port_map := [] } :=
  (rollback_spec MapOrder.stored Scenario.merged.g
    { Scenario.merged.store with svcMergerObj := none } _ (by decide) (by decide)
    (Prod.ext (by decide) rfl)).2.2.2

/-- C10 as stated fails: with service A already back in the store, the rollback
of the merged scenario does not skip A; `Create` reports `AlreadyExists`,
`Reconcile` returns that error, and the package-level variables are not cleared
(the merge is still recorded as active with A, B, C remembered). -/
theorem rollback_reentry_counterexample :
    "A" ∈ mapKeys Scenario.merged.g.cur_mrgd_svcs_map ∧
    Scenario.reentered.getService "A" = .ok (Scenario.service "A" 80) ∧
    (run MapOrder.stored Scenario.merged.g Scenario.reentered).1 =
      .returned (some .AlreadyExists) ∧
    (run MapOrder.stored Scenario.merged.g Scenario.reentered).2.g.merged_service_exists = true ∧
    mapKeys (run MapOrder.stored Scenario.merged.g Scenario.reentered).2.g.cur_mrgd_svcs_map =
      ["A", "B", "C"] :=
  ⟨by decide, rfl, by decide, by decide, by decide⟩

/-- C10, amended. Rollback (lines 588-610) creates every remembered service
unconditionally: from an active state with the managing resource gone, if the
store already holds a service named after a remembered service (other than the
merged service, which the rollback deletes first), `Reconcile` returns an error
and leaves every package-level variable as it was; nothing is cleared. -/
theorem rollback_reentry_fails (ord : MapOrder) (g : Globals) (st : Store) (n : String)
    (o : Service) (hactive : g.merged_service_exists = true) (hgone : st.svcMergerObj = none)
    (hn : n ∈ mapKeys g.cur_mrgd_svcs_map) (hne : n ≠ g.global_merged_svc_name)
    (hex : st.getService n = .ok o) :
    (∃ e, (run ord g st).1 = .returned (some e)) ∧ (run ord g st).2.g = g := by
  rw [run_rollback ord g st hactive hgone]
  have hnot : (Rollback ord { g := g, store := st, writes := [] }).1 ≠ .returned none := by
    intro h
    obtain ⟨dm, s1, mobj, -, hrel, hget, hfresh, -⟩ :=
      Rollback_ok ord _ (Rollback ord { g := g, store := st, writes := [] }).2 (Prod.ext h rfl)
    obtain ⟨-, -, hsv1, -⟩ := hrel
    simp only at hsv1 hget hfresh
    have ho := getService_ok_name hex
    have hm := getService_ok_name hget
    refine hfresh n ((mem_visit ord _ _).2 hn) o ?_ ho.1
    rw [hsv1]
    simp only [List.mem_filter, decide_eq_true_eq]
    refine ⟨ho.2, ?_⟩
    rw [ho.1, hm.1]
    exact hne
  exact Rollback_error ord _ _ _ rfl hnot

theorem rollback_reentry_fails_witness :
    (∃ e, (run MapOrder.stored Scenario.merged.g Scenario.reentered).1 = .returned (some e)) ∧
    (run MapOrder.stored Scenario.merged.g Scenario.reentered).2.g = Scenario.merged.g :=
  rollback_reentry_fails MapOrder.stored Scenario.merged.g Scenario.reentered "A"
    (Scenario.service "A" 80) (by decide) (by decide) (by decide) (by decide) rfl

/-! ## Loops that run to their end -/

theorem forLoop_next_ind {α β : Type} (J : List α → β → Sys → Prop) (body : α → β → Sys → Flow β)
    (hstep : ∀ pre x b s b1 s1, J pre b s → body x b s = .next b1 s1 → J (pre ++ [x]) b1 s1)
    (l pre : List α) (b b1 : β) (s s1 : Sys) (h0 : J pre b s)
    (h : forLoop body l b s = .next b1 s1) : J (pre ++ l) b1 s1 := by
  induction l generalizing pre b s with
  | nil =>
    simp only [forLoop, Flow.next.injEq] at h
    rw [← h.1, ← h.2]
    simpa using h0
  | cons x xs ih =>
    simp only [forLoop] at h
    cases hbody : body x b s with
    | next b2 s2 =>
      rw [hbody] at h
      have := ih (pre ++ [x]) b2 s2 (hstep pre x b s b2 s2 h0 hbody) h
      simpa using this
    | exit o s2 =>
      rw [hbody] at h
      simp at h

/-! ## Activate: the capture loop -/

theorem captureBody_next (svc : String) (u u1 : Unit) (s s1 : Sys)
    (h : captureBody svc u s = .next u1 s1) :
    ∃ o p ps, s.store.getService svc = .ok o ∧ o.ports = p :: ps ∧
      s1 = { s with g := { s.g with cur_mrgd_svcs_map := mapSet s.g.cur_mrgd_svcs_map svc 1,
                                    svc_port_map := mapSet s.g.svc_port_map svc p.port } } := by
  unfold captureBody at h
  cases hg : s.store.getService svc with
  | error e => simp [hg] at h
  | ok o =>
    simp only [hg] at h
    cases hp : o.ports with
    | nil => simp [hp] at h
    | cons p ps =>
      simp only [hp, Flow.next.injEq, true_and] at h
      exact ⟨o, p, ps, rfl, hp, h.symm⟩

theorem capture_next (l : List String) (u : Unit) (s0 s1 : Sys)
    (h : forLoop captureBody l () s0 = .next u s1) : CaptureInv s0 l s1 := by
  have := forLoop_next_ind (fun pre _ s => CaptureInv s0 pre s) captureBody ?_ l [] () u s0 s1
    ?_ h
  · simpa using this
  · intro pre x b s b1 s2 hJ hb
    obtain ⟨o, p, ps, hget, hports, hs2⟩ := captureBody_next x b b1 s s2 hb
    obtain ⟨hst, hw, hf, hmp, hnm, hk, hpk, hport, hother⟩ := hJ
    subst hs2
    refine ⟨hst, hw, hf, hmp, hnm, ?_, ?_, ?_, ?_⟩
    · intro y
      simp only [mem_mapKeys_mapSet, hk, List.mem_append, List.mem_singleton]
      tauto
    · intro y
      simp only [mem_mapKeys_mapSet, hpk, List.mem_append, List.mem_singleton]
      tauto
    · intro n hn
      by_cases hnx : n = x
      · subst hnx
        refine ⟨o, p, ps, ?_, hports, ?_⟩
        · rw [← hst]; exact hget
        · simp [mapGet_mapSet_same]
      · have hn' : n ∈ pre := by
          rcases List.mem_append.1 hn with h | h
          · exact h
          · simp at h; exact absurd h hnx
        obtain ⟨o', p', ps', h1, h2, h3⟩ := hport n hn'
        refine ⟨o', p', ps', h1, h2, ?_⟩
        simp only [mapGet_mapSet_ne _ _ _ _ _ hnx]
        exact h3
    · intro n hn
      have hnx : n ≠ x := fun h => hn (by simp [h])
      have hn' : n ∉ pre := fun h => hn (by simp [h])
      simp only [mapGet_mapSet_ne _ _ _ _ _ hnx]
      exact hother n hn'
  · exact ⟨rfl, rfl, rfl, rfl, rfl, by simp, by simp, by simp, by simp⟩

/-! ## Reads depend only on the objects they read -/

theorem getPod_congr {st st1 : Store} (h : st1.pods = st.pods) (n : String) :
    st1.getPod n = st.getPod n := by
  simp [Store.getPod, h]

theorem getService_congr {st st1 : Store} (h : st1.services = st.services) (n : String) :
    st1.getService n = st.getService n := by
  simp [Store.getService, h]

theorem getDeployment_congr {st st1 : Store} (h : st1.deployments = st.deployments) (n : String) :
    st1.getDeployment n = st.getDeployment n := by
  simp [Store.getDeployment, h]

theorem listPods_congr {st st1 : Store} (h : st1.pods = st.pods) (sel : GoMap String) :
    st1.listPods sel = st.listPods sel := by
  simp [Store.listPods, h]

theorem getDeploymentNameLoop_congr {st st1 : Store} (h : st1.replicaSets = st.replicaSets)
    (l : List OwnerReference) : getDeploymentNameLoop st1 l = getDeploymentNameLoop st l := by
  induction l with
  | nil => rfl
  | cons o os ih => simp [getDeploymentNameLoop, Store.getReplicaSet, h, ih]

theorem getDeploymentName_congr {st st1 : Store} (h : st1.replicaSets = st.replicaSets)
    (p : Pod) : getDeploymentName st1 p = getDeploymentName st p :=
  getDeploymentNameLoop_congr h p.ownerReferences

theorem getPodNames_congr {st st1 : Store} (hs : st1.services = st.services)
    (hp : st1.pods = st.pods) (l : List String) : getPodNames st1 l = getPodNames st l := by
  induction l with
  | nil => rfl
  | cons x xs ih => simp [getPodNames, getService_congr hs, listPods_congr hp, ih]

/-! ## Activate: the labelling loop -/

theorem mergeBody_rel (pod : string_pair) (dm : GoMap Bool) (s : Sys) :
    OnlyDeployments IsMergeWrite s (mergeBody pod dm s).sys := by
  unfold mergeBody
  split
  · exact OnlyDeployments.refl _ s
  · split
    rename_i deployment_name err hdn
    split
    · exact OnlyDeployments.refl _ s
    · split
      · exact OnlyDeployments.refl _ s
      · split
        · split
          · exact OnlyDeployments.refl _ s
          · rename_i dobj _
            dsimp only
            split
            · have h := Sys.Update_rel IsMergeWrite s
                { dobj with labels := mapSet (mapSet dobj.labels "merge" "true") "name" pod.service }
                ⟨_, rfl, by
                  rw [mapGet_mapSet_ne _ _ _ _ _ (by decide), mapGet_mapSet_same]⟩
              generalize s.Update _ = r at h ⊢
              obtain ⟨e, s1⟩ := r
              cases e <;> exact h
            · exact OnlyDeployments.refl _ s
        · exact OnlyDeployments.refl _ s

theorem mergeBody_exit (pod : string_pair) (dm : GoMap Bool) (s s1 : Sys) (o : Outcome)
    (h : mergeBody pod dm s = .exit o s1) :
    IsError o ∨ (o = .returned none ∧ ∃ pod_obj, s.store.getPod pod.pod = .ok pod_obj ∧
      (getDeploymentName s.store pod_obj).1 = "") := by
  unfold mergeBody at h
  split at h
  · simp at h
  · rename_i pod_obj hpod
    split at h
    rename_i deployment_name err hdn
    split at h
    · rename_i hempty
      simp only [Flow.exit.injEq] at h
      cases err with
      | none => exact Or.inr ⟨h.1.symm, pod_obj, hpod, by rw [hdn]; exact hempty⟩
      | some e => exact Or.inl ⟨e, h.1.symm⟩
    · split at h
      · rename_i herr
        simp only [Flow.exit.injEq] at h
        cases err with
        | none => exact absurd rfl herr
        | some e => exact Or.inl ⟨e, h.1.symm⟩
      · split at h
        · split at h
          · simp only [Flow.exit.injEq] at h
            exact Or.inl ⟨_, h.1.symm⟩
          · dsimp only at h
            split at h
            · generalize s.Update _ = r at h
              obtain ⟨e, s2⟩ := r
              cases e with
              | none => simp at h
              | some e =>
                simp only [Flow.exit.injEq] at h
                exact Or.inl ⟨_, h.1.symm⟩
            · simp at h
        · simp at h

theorem merge_loop_rel (l : List string_pair) (dm : GoMap Bool) (s : Sys) :
    OnlyDeployments IsMergeWrite s (forLoop mergeBody l dm s).sys :=
  forLoop_rel _ (OnlyDeployments.refl IsMergeWrite) (OnlyDeployments.trans IsMergeWrite)
    mergeBody mergeBody_rel l dm s

theorem merge_loop_exit (l : List string_pair) (dm : GoMap Bool) (s s1 : Sys) (o : Outcome)
    (h : forLoop mergeBody l dm s = .exit o s1) :
    IsError o ∨ (o = .returned none ∧ ∃ pod ∈ l, ∃ pod_obj,
      s.store.getPod pod.pod = .ok pod_obj ∧ (getDeploymentName s.store pod_obj).1 = "") := by
  induction l generalizing dm s with
  | nil => simp [forLoop] at h
  | cons x xs ih =>
    simp only [forLoop] at h
    have hrel := mergeBody_rel x dm s
    cases hbody : mergeBody x dm s with
    | next dm2 s2 =>
      rw [hbody] at h hrel
      simp only [Flow.sys] at hrel
      rcases ih dm2 s2 h with h1 | ⟨h1, pod, hpod, pod_obj, h2, h3⟩
      · exact Or.inl h1
      · refine Or.inr ⟨h1, pod, List.mem_cons_of_mem _ hpod, pod_obj, ?_, ?_⟩
        · rw [← getPod_congr hrel.2.2.2.1]; exact h2
        · rw [← getDeploymentName_congr hrel.2.2.2.2.1]; exact h3
    | exit o2 s2 =>
      rw [hbody] at h
      simp only [Flow.exit.injEq] at h
      rcases mergeBody_exit x dm s s2 o2 hbody with h1 | ⟨h1, pod_obj, h2, h3⟩
      · exact Or.inl (h.1 ▸ h1)
      · exact Or.inr ⟨h.1 ▸ h1, x, List.mem_cons_self _ _, pod_obj, h2, h3⟩

/-! ## The deletion loop -/

theorem find?_filter_of_imp {α : Type} (p q : α → Bool) (l : List α)
    (h : ∀ a ∈ l, p a = true → q a = true) : (l.filter q).find? p = l.find? p := by
  induction l with
  | nil => rfl
  | cons a as ih =>
    have ih' := ih (fun b hb => h b (List.mem_cons_of_mem _ hb))
    by_cases hq : q a = true
    · rw [List.filter_cons_of_pos hq]
      by_cases hp : p a = true
      · simp [List.find?_cons, hp]
      · simp [List.find?_cons, hp, ih']
    · rw [List.filter_cons_of_neg hq]
      have hp : ¬ p a = true := fun hp => hq (h a (List.mem_cons_self _ _) hp)
      simp [List.find?_cons, hp, ih']

theorem deleteBody_next (svc : String) (u u1 : Unit) (s s1 : Sys)
    (h : deleteBody svc u s = .next u1 s1) :
    ∃ o, s.store.getService svc = .ok o ∧
      s1 = { s with store := { s.store with
                                 services := s.store.services.filter (fun x => decide (x.name ≠ svc)) },
                    writes := s.writes ++ [.deleteService o] } := by
  unfold deleteBody at h
  cases hg : s.store.getService svc with
  | error e => simp [hg] at h
  | ok o =>
    simp only [hg] at h
    rcases hd : s.Delete o with ⟨_ | e, s2⟩
    · simp only [hd, Flow.next.injEq, true_and] at h
      have := (Sys.Delete_none hd).2
      rw [(getService_ok_name hg).1] at this
      exact ⟨o, rfl, by rw [← h, this]⟩
    · simp [hd] at h

theorem deleteBody_exit (svc : String) (u : Unit) (s s1 : Sys) (o : Outcome)
    (h : deleteBody svc u s = .exit o s1) : IsError o ∧ s1.g = s.g := by
  unfold deleteBody at h
  cases hg : s.store.getService svc with
  | error e =>
    simp only [hg, Flow.exit.injEq] at h
    exact ⟨⟨e, h.1.symm⟩, by rw [← h.2]⟩
  | ok obj =>
    simp only [hg] at h
    rcases hd : s.Delete obj with ⟨_ | e, s2⟩
    · simp [hd] at h
    · simp only [hd, Flow.exit.injEq] at h
      have := Sys.Delete_some hd
      exact ⟨⟨e, h.1.symm⟩, by rw [← h.2, this]⟩

theorem delete_next (l : List String) (u : Unit) (s0 s1 : Sys)
    (h : forLoop deleteBody l () s0 = .next u s1) : DeleteInv s0 l s1 := by
  have := forLoop_next_ind (fun pre _ s => DeleteInv s0 pre s) deleteBody ?_ l [] () u s0 s1
    ?_ h
  · simpa using this
  · intro pre x b s b1 s2 hJ hb
    obtain ⟨o, hget, hs2⟩ := deleteBody_next x b b1 s s2 hb
    obtain ⟨hg, hst, objs, hobjs, hw⟩ := hJ
    have hon := getService_ok_name hget
    have hx : x ∉ pre := by
      have := hon.2
      rw [hst] at this
      simp only [List.mem_filter, decide_eq_true_eq] at this
      rw [hon.1] at this
      exact this.2
    have hget0 : s0.store.getService x = .ok o := by
      rw [hst] at hget
      unfold Store.getService at hget ⊢
      simp only at hget
      rw [find?_filter_of_imp] at hget
      · exact hget
      · intro a _ ha
        simp only [decide_eq_true_eq] at ha ⊢
        rw [ha]
        exact hx
    subst hs2
    refine ⟨hg, ?_, objs ++ [o], ?_, ?_⟩
    · rw [hst]
      simp only [List.filter_filter, List.mem_append, List.mem_singleton, Store.mk.injEq, true_and,
        and_true]
      apply List.filter_congr
      intro a _
      by_cases h1 : a.name = x <;> by_cases h2 : a.name ∈ pre <;> simp [h1, h2]
    · exact List.rel_append hobjs (List.Forall₂.cons hget0 List.Forall₂.nil)
    · simp [hw]
  · exact ⟨rfl, by simp, [], List.Forall₂.nil, by simp⟩

theorem delete_exit (l : List String) (u : Unit) (s s1 : Sys) (o : Outcome)
    (h : forLoop deleteBody l u s = .exit o s1) : IsError o ∧ s1.g = s.g := by
  induction l generalizing s with
  | nil => simp [forLoop] at h
  | cons x xs ih =>
    simp only [forLoop] at h
    cases hbody : deleteBody x u s with
    | next u2 s2 =>
      rw [hbody] at h
      obtain ⟨_, _, hs2⟩ := deleteBody_next x u u2 s s2 hbody
      have := ih s2 h
      rw [hs2] at this
      exact this
    | exit o2 s2 =>
      rw [hbody] at h
      simp only [Flow.exit.injEq] at h
      rw [← h.1, ← h.2]
      exact deleteBody_exit x u s s2 o2 hbody

/-! ## Activate as a whole -/

theorem forall₂_imp_of_mem {α β : Type} {R S : α → β → Prop} {l1 : List α} {l2 : List β}
    (h : List.Forall₂ R l1 l2) (himp : ∀ a ∈ l1, ∀ b, R a b → S a b) : List.Forall₂ S l1 l2 := by
  induction h with
  | nil => exact List.Forall₂.nil
  | cons hab _ ih =>
    exact List.Forall₂.cons (himp _ (List.mem_cons_self _ _) _ hab)
      (ih (fun a ha b hr => himp a (List.mem_cons_of_mem _ ha) b hr))

theorem Activate_ok (s0 s' : Sys) (h : Activate s0 = (.returned none, s'))
    (hflag0 : s0.g.merged_service_exists = false) (hflag : s'.g.merged_service_exists = true) :
    ∃ services pods dm s1 s2 objs,
      s0.store.svcMergerObj = some services ∧
      forLoop captureBody services () s0.fresh = .next () s1 ∧
      getPodNames s0.store services = .ok pods ∧
      forLoop mergeBody pods [] s1 = .next dm s2 ∧
      List.Forall₂ (fun n o => s0.store.getService n = .ok o) services objs ∧
      s0.store.getService merged_svc.name = .error .NotFound ∧
      s' = { g := { s1.g with merged_pods := pods.map (fun pod => pod.pod),
                              global_merged_svc_name := merged_svc.name,
                              merged_service_exists := true },
             store := { s2.store with
               services := (s0.store.services ++ [merged_svc]).filter
                 (fun x => decide (x.name ∉ services)) },
             writes := s2.writes ++ [.createService merged_svc] ++ objs.map Write.deleteService } := by
  unfold Activate at h
  dsimp only at h
  change (match s0.fresh.store.getSvcMergerObj with
    | .error e => _
    | .ok services => _) = _ at h
  have hfs : s0.fresh.store = s0.store := rfl
  cases hcr : s0.store.svcMergerObj with
  | none =>
    simp [Store.getSvcMergerObj, hfs, hcr] at h
  | some services =>
    simp only [Store.getSvcMergerObj, hfs, hcr] at h
    change (match forLoop captureBody services () s0.fresh with
      | .exit o s1 => _
      | .next _ s1 => _) = _ at h
    cases hcap : forLoop captureBody services () s0.fresh with
    | exit o s1 =>
      simp only [hcap, Prod.mk.injEq] at h
      have hfl := forLoop_rel (fun a b => b.g.merged_service_exists = a.g.merged_service_exists)
        (fun _ => rfl) (fun _ _ _ h1 h2 => h2.trans h1) captureBody
        (by
          intro x b s
          unfold captureBody
          split
          · rfl
          · split <;> rfl) services () s0.fresh
      rw [hcap] at hfl
      simp only [Flow.sys] at hfl
      rw [h.2] at hfl
      rw [hflag] at hfl
      exact absurd (hfl.trans hflag0) (by decide)
    | next u s1 =>
      simp only [hcap] at h
      have hinv := capture_next services u s0.fresh s1 hcap
      obtain ⟨hst1, hw1, hf1, -, -, -, -, hports, -⟩ := hinv
      rw [hst1, hfs] at h
      cases hpods : getPodNames s0.store services with
      | error e => simp [hpods] at h
      | ok pods =>
        simp only [hpods] at h
        have hrel := merge_loop_rel pods [] s1
        cases hml : forLoop mergeBody pods [] s1 with
        | exit o s2 =>
          rw [hml] at hrel
          simp only [Flow.sys] at hrel
          simp only [hml, Prod.mk.injEq] at h
          have : s2.g.merged_service_exists = false := by
            rw [hrel.1, hf1]; exact hflag0
          rw [h.2, hflag] at this
          exact absurd this (by decide)
        | next dm s2 =>
          rw [hml] at hrel
          simp only [Flow.sys] at hrel
          obtain ⟨hg2, hcr2, hsv2, hp2, hr2, ws, hws, hq⟩ := hrel
          simp only [hml] at h
          have hst1s : s1.store.services = s0.store.services := by rw [hst1, hfs]
          have hst1p : s1.store.pods = s0.store.pods := by rw [hst1, hfs]
          rw [getPodNames_congr (hsv2.trans hst1s) (hp2.trans hst1p), hpods] at h
          simp only at h
          rcases hc : Sys.Create
              { s2 with g := { s2.g with merged_pods := pods.map (fun pod => pod.pod),
                                         global_merged_svc_name := merged_svc.name } }
              merged_svc with ⟨_ | e, s4⟩
          · simp only [hc] at h
            obtain ⟨hfree, hs4⟩ := Sys.Create_none hc
            simp only at hfree
            cases hdel : forLoop deleteBody services () s4 with
            | exit o s5 =>
              have := (delete_exit _ _ _ _ _ hdel).1
              obtain ⟨e, he⟩ := this
              simp [hdel, he] at h
            | next u5 s5 =>
              simp only [hdel, Prod.mk.injEq, true_and] at h
              obtain ⟨hg5, hst5, objs, hobjs, hw5⟩ := delete_next _ _ _ _ hdel
              have hobjs0 : List.Forall₂ (fun n o => s0.store.getService n = .ok o) services objs := by
                refine forall₂_imp_of_mem hobjs ?_
                intro n hn o ho
                obtain ⟨o0, -, -, h0, -, -⟩ := hports n hn
                rw [hfs] at h0
                have h4 : s4.store.getService n = .ok o0 := by
                  rw [hs4]
                  have h2 : s2.store.getService n = .ok o0 := by
                    rw [getService_congr (hsv2.trans hst1s)]; exact h0
                  exact getService_append_of_ok _ h2
                rw [h4] at ho
                simp only [Except.ok.injEq] at ho
                rw [← ho]
                exact h0
              refine ⟨services, pods, dm, s1, s2, objs, rfl, hcap, hpods, hml, hobjs0, ?_, ?_⟩
              · rw [← getService_congr (hsv2.trans hst1s)]
                exact hfree
              · have hs5 : s5 = { g := s5.g, store := s5.store, writes := s5.writes } := rfl
                rw [← h, hs5, hg5, hst5, hw5, hs4]
                simp only [hg2, hsv2, hst1s]
          · simp [hc] at h

theorem captureBody_exit (svc : String) (u : Unit) (s s1 : Sys) (o : Outcome)
    (h : captureBody svc u s = .exit o s1) : o ≠ .returned none := by
  unfold captureBody at h
  split at h
  · simp only [Flow.exit.injEq] at h
    rw [← h.1]
    simp
  · dsimp only at h
    split at h
    · simp only [Flow.exit.injEq] at h
      rw [← h.1]
      simp
    · simp at h

theorem IsError.ne_none {o : Outcome} (h : IsError o) : o ≠ .returned none := by
  obtain ⟨e, rfl⟩ := h
  simp

theorem Activate_none (s0 s' : Sys) (h : Activate s0 = (.returned none, s')) :
    s'.g.merged_service_exists = true ∨
    ∃ services pods, s0.store.svcMergerObj = some services ∧
      getPodNames s0.store services = .ok pods ∧
      ∃ pod ∈ pods, ∃ pod_obj, s0.store.getPod pod.pod = .ok pod_obj ∧
        (getDeploymentName s0.store pod_obj).1 = "" := by
  unfold Activate at h
  dsimp only at h
  change (match s0.fresh.store.getSvcMergerObj with
    | .error e => _
    | .ok services => _) = _ at h
  have hfs : s0.fresh.store = s0.store := rfl
  cases hcr : s0.store.svcMergerObj with
  | none =>
    simp [Store.getSvcMergerObj, hfs, hcr] at h
  | some services =>
    simp only [Store.getSvcMergerObj, hfs, hcr] at h
    change (match forLoop captureBody services () s0.fresh with
      | .exit o s1 => _
      | .next _ s1 => _) = _ at h
    cases hcap : forLoop captureBody services () s0.fresh with
    | exit o s1 =>
      simp only [hcap, Prod.mk.injEq] at h
      exact absurd h.1 (forLoop_exit (fun o => o ≠ .returned none) captureBody captureBody_exit
        _ _ _ _ _ hcap)
    | next u s1 =>
      simp only [hcap] at h
      obtain ⟨hst1, -⟩ := capture_next services u s0.fresh s1 hcap
      rw [hst1, hfs] at h
      cases hpods : getPodNames s0.store services with
      | error e => simp [hpods] at h
      | ok pods =>
        simp only [hpods] at h
        have hrel := merge_loop_rel pods [] s1
        cases hml : forLoop mergeBody pods [] s1 with
        | exit o s2 =>
          simp only [hml, Prod.mk.injEq] at h
          rcases merge_loop_exit _ _ _ _ _ hml with h1 | ⟨-, pod, hpod, pod_obj, h2, h3⟩
          · exact absurd h.1 h1.ne_none
          · rw [hst1, hfs] at h2 h3
            exact Or.inr ⟨services, pods, rfl, hpods, pod, hpod, pod_obj, h2, h3⟩
        | next dm s2 =>
          rw [hml] at hrel
          simp only [Flow.sys] at hrel
          obtain ⟨-, -, hsv2, hp2, -⟩ := hrel
          simp only [hml] at h
          have hst1s : s1.store.services = s0.store.services := by rw [hst1, hfs]
          have hst1p : s1.store.pods = s0.store.pods := by rw [hst1, hfs]
          rw [getPodNames_congr (hsv2.trans hst1s) (hp2.trans hst1p), hpods] at h
          simp only at h
          rcases hc : Sys.Create
              { s2 with g := { s2.g with merged_pods := pods.map (fun pod => pod.pod),
                                         global_merged_svc_name := merged_svc.name } }
              merged_svc with ⟨_ | e, s4⟩
          · simp only [hc] at h
            cases hdel : forLoop deleteBody services () s4 with
            | exit o s5 =>
              simp only [hdel, Prod.mk.injEq] at h
              exact absurd h.1 (delete_exit _ _ _ _ _ hdel).1.ne_none
            | next u5 s5 =>
              simp only [hdel, Prod.mk.injEq, true_and] at h
              rw [← h]
              exact Or.inl rfl
          · simp [hc] at h

/-! ## Activate: the claim -/

/-- C2. Activate (lines 150-317): from the inactive state, when `Reconcile`
returns no error and every pod behind the declared services resolves to a
deployment, the write calls issued are label updates on deployments, then
exactly one creation, of the service `merged-service` with selector
`merge = true` and the single port 89 (target port 8080), then one deletion per
declared service, of the object fetched for it; afterwards the store holds the
merged service and none of the declared services, the merge is recorded as
active, the remembered services are the declared ones, and the port remembered
for each is the first port of its service. -/
theorem activate_spec (ord : MapOrder) (g : Globals) (st : Store) (S : List String) (s' : Sys)
    (hinactive : g.merged_service_exists = false) (hintent : st.svcMergerObj = some S)
    (hresolve : ∀ pods, getPodNames st S = .ok pods → ∀ pod ∈ pods, ∀ pod_obj,
      st.getPod pod.pod = .ok pod_obj → (getDeploymentName st pod_obj).1 ≠ "")
    (hok : run ord g st = (.returned none, s')) :
    (∃ updates objs,
      (∀ w ∈ updates, ∃ d, w = .updateDeployment d) ∧
      List.Forall₂ (fun n o => st.getService n = .ok o) S objs ∧
      s'.writes = updates ++
        [.createService
          { name := "merged-service", selector := [("merge", "true")],
            ports := [{ name := "merged-service-port", port := 89, protocol := "TCP",
                        targetPort := 8080 }] }] ++
        objs.map Write.deleteService) ∧
    s'.store.getService "merged-service" = .ok
      { name := "merged-service", selector := [("merge", "true")],
        ports := [{ name := "merged-service-port", port := 89, protocol := "TCP",
                    targetPort := 8080 }] } ∧
    (∀ n ∈ S, s'.store.getService n = .error .NotFound) ∧
    s'.g.merged_service_exists = true ∧
    s'.g.global_merged_svc_name = "merged-service" ∧
    (∀ x, x ∈ mapKeys s'.g.cur_mrgd_svcs_map ↔ x ∈ S) ∧
    (∀ x, x ∈ mapKeys s'.g.svc_port_map ↔ x ∈ S) ∧
    (∀ n ∈ S, ∃ o p ps, st.getService n = .ok o ∧ o.ports = p :: ps ∧
      mapGet s'.g.svc_port_map n 0 = p.port) := by
  have hrun : run ord g st = Activate { g := g, store := st, writes := [] } := by
    simp [run, Reconcile, hinactive]
  rw [hrun] at hok
  have hflag : s'.g.merged_service_exists = true := by
    rcases Activate_none _ _ hok with h | ⟨services, pods, h1, h2, pod, hpod, pod_obj, h3, h4⟩
    · exact h
    · simp only at h1 h2 h3 h4
      rw [hintent] at h1
      simp only [Option.some.injEq] at h1
      subst h1
      exact absurd h4 (hresolve pods h2 pod hpod pod_obj h3)
  obtain ⟨services, pods, dm, s1, s2, objs, hcr, hcap, hpods, hml, hobjs, hfree, hs'⟩ :=
    Activate_ok _ _ hok hinactive hflag
  simp only at hcr hpods hobjs hfree
  rw [hintent] at hcr
  simp only [Option.some.injEq] at hcr
  subst hcr
  obtain ⟨hst1, hw1, -, -, -, hk, hpk, hports, -⟩ := capture_next _ _ _ _ hcap
  have hrel := merge_loop_rel pods [] s1
  rw [hml] at hrel
  obtain ⟨-, -, -, -, -, ws, hws, hq⟩ := hrel
  simp only [Flow.sys] at hws
  have hw1' : s1.writes = [] := hw1
  have hnotin : merged_svc.name ∉ S := by
    intro hin
    obtain ⟨o, -, -, h0, -⟩ := hports _ hin
    have : st.getService merged_svc.name = .ok o := h0
    rw [hfree] at this
    simp at this
  refine ⟨⟨ws, objs, ?_, hobjs, ?_⟩, ?_, ?_, ?_, ?_, ?_, ?_, ?_⟩
  · intro w hw
    obtain ⟨d, hd, -⟩ := hq w hw
    exact ⟨d, hd⟩
  · rw [hs']
    simp only [hws, hw1', List.nil_append]
    rfl
  · rw [hs']
    unfold Store.getService
    simp only
    rw [find?_filter_of_imp]
    · have h1 : st.services.find? (fun s => decide (s.name = "merged-service")) = none := by
        apply List.find?_eq_none.2
        intro x hx
        have := (getService_error_iff st merged_svc.name).1 hfree x hx
        simpa [merged_svc] using this
      rw [List.find?_append, h1]
      rfl
    · intro a _ ha
      simp only [decide_eq_true_eq] at ha ⊢
      rw [ha]
      exact hnotin
  · intro n hn
    rw [hs', getService_error_iff]
    intro x hx
    simp only [List.mem_filter, decide_eq_true_eq] at hx
    intro hxn
    exact hx.2 (hxn ▸ hn)
  · exact hflag
  · rw [hs']
    rfl
  · intro x
    rw [hs']
    simpa [Sys.fresh, mapKeys] using hk x
  · intro x
    rw [hs']
    simpa [Sys.fresh, mapKeys] using hpk x
  · intro n hn
    obtain ⟨o, p, ps, h0, h1, h2⟩ := hports n hn
    refine ⟨o, p, ps, h0, h1, ?_⟩
    rw [hs']
    exact h2

theorem activate_spec_witness :
    (run MapOrder.stored Globals.initial Scenario.cluster).2.g.merged_service_exists = true ∧
    (∀ x, x ∈ mapKeys (run MapOrder.stored Globals.initial Scenario.cluster).2.g.cur_mrgd_svcs_map ↔
      x ∈ ["A", "B", "C"]) :=
  have h := activate_spec MapOrder.stored Globals.initial Scenario.cluster ["A", "B", "C"] _
    (by decide) (by decide)
    (by
      intro pods hpods
      have hp : pods =
          [⟨"pod-A", "A"⟩, ⟨"pod-B", "B"⟩, ⟨"pod-C", "C"⟩] := by
        have h2 : getPodNames Scenario.cluster ["A", "B", "C"] =
            .ok [⟨"pod-A", "A"⟩, ⟨"pod-B", "B"⟩, ⟨"pod-C", "C"⟩] := rfl
        rw [h2] at hpods
        simp only [Except.ok.injEq] at hpods
        exact hpods.symm
      subst hp
      intro pod hpod pod_obj hget
      simp only [List.mem_cons, List.mem_singleton, List.not_mem_nil, or_false] at hpod
      rcases hpod with rfl | rfl | rfl
      · have h3 : Scenario.cluster.getPod "pod-A" = .ok (Scenario.pod "A") := rfl
        rw [h3] at hget
        simp only [Except.ok.injEq] at hget
        subst hget
        decide
      · have h3 : Scenario.cluster.getPod "pod-B" = .ok (Scenario.pod "B") := rfl
        rw [h3] at hget
        simp only [Except.ok.injEq] at hget
        subst hget
        decide
      · have h3 : Scenario.cluster.getPod "pod-C" = .ok (Scenario.pod "C") := rfl
        rw [h3] at hget
        simp only [Except.ok.injEq] at hget
        subst hget
        decide)
    (Prod.ext (by decide) rfl)
  ⟨h.2.2.2.1, h.2.2.2.2.2.1⟩

/-! ## Update: the release loop -/

theorem releasePodBody_rel (pod : Pod) (dm : GoMap Bool) (s : Sys) :
    OnlyDeployments IsUnmergeWrite s (releasePodBody pod dm s).sys := by
  unfold releasePodBody
  split
  · exact OnlyDeployments.refl _ s
  · exact unmergeDeployment_rel _ _ _

theorem releasePodBody_exit (pod : Pod) (dm : GoMap Bool) (s s1 : Sys) (o : Outcome)
    (h : releasePodBody pod dm s = .exit o s1) : IsError o := by
  unfold releasePodBody at h
  split at h
  · simp only [Flow.exit.injEq] at h
    exact ⟨_, h.1.symm⟩
  · exact unmergeDeployment_exit _ _ _ _ _ h

theorem releaseBody_next (svc : String) (u u1 : Unit) (s s1 : Sys)
    (h : releaseBody svc u s = .next u1 s1) :
    ∃ s2, s.store.getService svc = .error .NotFound ∧
      OnlyDeployments IsUnmergeWrite
        { s with store := { s.store with services := s.store.services ++ [restored_svc s.g svc] },
                 writes := s.writes ++ [.createService (restored_svc s.g svc)] } s2 ∧
      s1 = { s2 with g := { s2.g with
               cur_mrgd_svcs_map := mapDelete s2.g.cur_mrgd_svcs_map svc,
               svc_port_map := mapDelete s2.g.svc_port_map svc } } := by
  unfold releaseBody at h
  dsimp only at h
  have hsvc : ({ restored_svc s.g svc with selector := mapSet [] "name" svc } : Service) =
      restored_svc s.g svc := rfl
  rw [hsvc] at h
  rcases hc : s.Create (restored_svc s.g svc) with ⟨_ | e, s3⟩
  · simp only [hc] at h
    obtain ⟨hfree, hs3⟩ := Sys.Create_none hc
    cases hl : s3.store.listPods (mapSet (mapSet [] "name" svc) "merge" "true") with
    | error e => simp [hl] at h
    | ok pod_list =>
      simp only [hl] at h
      have hrel := forLoop_rel _ (OnlyDeployments.refl IsUnmergeWrite)
        (OnlyDeployments.trans IsUnmergeWrite) releasePodBody releasePodBody_rel pod_list [] s3
      cases hloop : forLoop releasePodBody pod_list [] s3 with
      | exit o s2 => simp [hloop] at h
      | next dm s2 =>
        rw [hloop] at hrel
        simp only [Flow.sys] at hrel
        simp only [hloop, Flow.next.injEq, true_and] at h
        rw [hs3] at hrel
        exact ⟨s2, hfree, hrel, h.symm⟩
  · simp [hc] at h

theorem releaseBody_all (svc : String) (u : Unit) (s : Sys) :
    (releaseBody svc u s).sys.g.merged_service_exists = s.g.merged_service_exists ∧
    ∀ o s1, releaseBody svc u s = .exit o s1 → IsError o := by
  unfold releaseBody
  dsimp only
  rcases hc : s.Create { restored_svc s.g svc with selector := mapSet [] "name" svc }
    with ⟨_ | e, s3⟩
  · have hs3 := (Sys.Create_none hc).2
    simp only
    cases hl : s3.store.listPods (mapSet (mapSet [] "name" svc) "merge" "true") with
    | error e =>
      simp only [Flow.sys, Flow.exit.injEq, and_imp]
      refine ⟨by rw [hs3], ?_⟩
      intro o s1 ho _
      exact ⟨e, ho.symm⟩
    | ok pod_list =>
      have hrel := forLoop_rel _ (OnlyDeployments.refl IsUnmergeWrite)
        (OnlyDeployments.trans IsUnmergeWrite) releasePodBody releasePodBody_rel pod_list [] s3
      simp only
      cases hloop : forLoop releasePodBody pod_list [] s3 with
      | exit o s2 =>
        rw [hloop] at hrel
        simp only [Flow.sys] at hrel
        simp only [Flow.sys, Flow.exit.injEq, and_imp]
        refine ⟨by rw [hrel.1, hs3], ?_⟩
        intro o1 s1 ho _
        rw [← ho]
        exact forLoop_exit IsError _ releasePodBody_exit _ _ _ _ _ hloop
      | next dm s2 =>
        rw [hloop] at hrel
        simp only [Flow.sys] at hrel
        simp only [Flow.sys]
        refine ⟨by rw [hrel.1, hs3], ?_⟩
        intro o1 s1 ho
        simp at ho
  · have hs3 := (Sys.Create_some hc).2.2
    simp only [Flow.sys, Flow.exit.injEq, and_imp]
    refine ⟨by rw [hs3], ?_⟩
    intro o s1 ho _
    exact ⟨e, ho.symm⟩

theorem mapGet_foldl_mapDelete {α : Type} (l : List String) (m : GoMap α) (x : String) (z : α)
    (hx : x ∉ l) : mapGet (l.foldl mapDelete m) x z = mapGet m x z := by
  induction l generalizing m with
  | nil => rfl
  | cons k ks ih =>
    simp only [List.mem_cons, not_or] at hx
    rw [List.foldl_cons, ih _ hx.2, mapGet_mapDelete_ne _ _ _ _ hx.1]

theorem release_next (l : List String) (u : Unit) (s0 s1 : Sys)
    (h : forLoop releaseBody l () s0 = .next u s1) : ReleaseInv s0 l s1 := by
  have := forLoop_next_ind (fun pre _ s => ReleaseInv s0 pre s) releaseBody ?_ l [] () u s0 s1
    ?_ h
  · simpa using this
  · intro pre x b s b1 s2 hJ hb
    obtain ⟨s3, hfree, hrel, hs2⟩ := releaseBody_next x b b1 s s2 hb
    obtain ⟨hg, hnd, hfr, hcr, hp, hr, hsv, ws, hws, hcre, hall⟩ := hJ
    obtain ⟨hg3, hcr3, hsv3, hp3, hr3, ws3, hws3, hq3⟩ := hrel
    simp only at hg3 hcr3 hsv3 hp3 hr3 hws3
    have hx : x ∉ pre := by
      intro hin
      have := (getService_error_iff _ _).1 hfree (restored_svc s0.g x)
        (by rw [hsv]; exact List.mem_append_right _ (List.mem_map_of_mem _ hin))
      exact this rfl
    have hport : restored_svc s.g x = restored_svc s0.g x := by
      simp only [restored_svc, hg]
      rw [mapGet_foldl_mapDelete _ _ _ _ hx]
    subst hs2
    have hfree0 : s0.store.getService x = .error .NotFound := by
      rw [getService_error_iff] at hfree ⊢
      intro y hy
      exact hfree y (by rw [hsv]; exact List.mem_append_left _ hy)
    refine ⟨?_, ?_, ?_, hcr3.trans hcr, hp3.trans hp, hr3.trans hr, ?_,
      ws ++ [.createService (restored_svc s0.g x)] ++ ws3, ?_, ?_, ?_⟩
    · simp only [hg3, hg, List.foldl_append, List.foldl_cons, List.foldl_nil]
    · exact List.nodup_append.2 ⟨hnd, List.nodup_singleton x, by
        intro a ha hb
        simp only [List.mem_singleton] at hb
        exact hx (hb ▸ ha)⟩
    · intro n hn
      rcases List.mem_append.1 hn with h1 | h1
      · exact hfr n h1
      · simp only [List.mem_singleton] at h1
        rw [h1]
        exact hfree0
    · simp only [hsv3, hsv, hport, List.map_append, List.map_cons, List.map_nil,
        List.append_assoc]
    · simp only [hws3, hws, hport, List.append_assoc]
    · intro n hn
      rcases List.mem_append.1 hn with h1 | h1
      · exact List.mem_append_left _ (List.mem_append_left _ (hcre n h1))
      · simp only [List.mem_singleton] at h1
        subst h1
        simp
    · intro w hw
      rcases List.mem_append.1 hw with h1 | h1
      · rcases List.mem_append.1 h1 with h2 | h2
        · rcases hall w h2 with ⟨n, hn, hw2⟩ | h3
          · exact Or.inl ⟨n, List.mem_append_left _ hn, hw2⟩
          · exact Or.inr h3
        · simp only [List.mem_singleton] at h2
          exact Or.inl ⟨x, by simp, h2⟩
      · exact Or.inr (hq3 w h1)
  · exact ⟨rfl, List.nodup_nil, by simp, rfl, rfl, rfl, by simp, [], by simp, by simp, by simp⟩

/-! ## Update: the absorb loop -/

theorem absorbPodBody_rel (svc : String) (pod : Pod) (dm : GoMap Bool) (s : Sys) :
    OnlyDeployments IsMergeWrite s (absorbPodBody svc pod dm s).sys := by
  unfold absorbPodBody
  split
  · exact OnlyDeployments.refl _ s
  · split
    · split
      · exact OnlyDeployments.refl _ s
      · rename_i dobj _
        dsimp only
        have h := Sys.Update_rel IsMergeWrite s
          { dobj with labels := mapSet (mapSet dobj.labels "merge" "true") "name" svc }
          ⟨_, rfl, by rw [mapGet_mapSet_ne _ _ _ _ _ (by decide), mapGet_mapSet_same]⟩
        generalize s.Update _ = r at h ⊢
        obtain ⟨e, s1⟩ := r
        cases e <;> exact h
    · exact OnlyDeployments.refl _ s

theorem absorbPodBody_exit (svc : String) (pod : Pod) (dm : GoMap Bool) (s s1 : Sys)
    (o : Outcome) (h : absorbPodBody svc pod dm s = .exit o s1) : IsError o := by
  unfold absorbPodBody at h
  split at h
  · simp only [Flow.exit.injEq] at h
    exact ⟨_, h.1.symm⟩
  · split at h
    · split at h
      · simp only [Flow.exit.injEq] at h
        exact ⟨_, h.1.symm⟩
      · dsimp only at h
        generalize s.Update _ = r at h
        obtain ⟨e, s2⟩ := r
        cases e with
        | none => simp at h
        | some e =>
          simp only [Flow.exit.injEq] at h
          exact ⟨_, h.1.symm⟩
    · simp at h

theorem absorbBody_next (svc : String) (u u1 : Unit) (s s1 : Sys)
    (h : absorbBody svc u s = .next u1 s1) :
    ∃ o p ps, s.store.getService svc = .ok o ∧ o.ports = p :: ps ∧
      OnlyDeployments IsMergeWrite
        { s with g := { s.g with cur_mrgd_svcs_map := mapSet s.g.cur_mrgd_svcs_map svc 1,
                                 svc_port_map := mapSet s.g.svc_port_map svc p.port } } s1 := by
  unfold absorbBody at h
  cases hg : s.store.getService svc with
  | error e => simp [hg] at h
  | ok obj =>
    simp only [hg] at h
    cases hp : obj.ports with
    | nil => simp [hp] at h
    | cons p ps =>
      simp only [hp] at h
      split at h
      · simp at h
      · rename_i pod_list _
        have hrel := forLoop_rel _ (OnlyDeployments.refl IsMergeWrite)
          (OnlyDeployments.trans IsMergeWrite) (absorbPodBody svc) (absorbPodBody_rel svc)
          pod_list []
          { s with g := { s.g with cur_mrgd_svcs_map := mapSet s.g.cur_mrgd_svcs_map svc 1,
                                   svc_port_map := mapSet s.g.svc_port_map svc p.port } }
        split at h
        · simp at h
        · rename_i dm s3 hloop
          simp only [Flow.next.injEq, true_and] at h
          rw [hloop] at hrel
          simp only [Flow.sys] at hrel
          rw [h] at hrel
          exact ⟨obj, p, ps, rfl, hp, hrel⟩

theorem absorbBody_all (svc : String) (u : Unit) (s : Sys) :
    (absorbBody svc u s).sys.g.merged_service_exists = s.g.merged_service_exists ∧
    ∀ o s1, absorbBody svc u s = .exit o s1 → o ≠ .returned none := by
  unfold absorbBody
  cases hg : s.store.getService svc with
  | error e =>
    simp only [Flow.sys, Flow.exit.injEq, and_imp, true_and]
    intro o s1 ho _
    rw [← ho]
    simp
  | ok obj =>
    simp only
    cases hp : obj.ports with
    | nil =>
      simp only [Flow.sys, Flow.exit.injEq, and_imp, true_and]
      intro o s1 ho _
      rw [← ho]
      simp
    | cons p ps =>
      simp only
      split
      · simp only [Flow.sys, Flow.exit.injEq, and_imp, true_and]
        intro o s1 ho _
        rw [← ho]
        simp
      · rename_i pod_list _
        have hrel := forLoop_rel _ (OnlyDeployments.refl IsMergeWrite)
          (OnlyDeployments.trans IsMergeWrite) (absorbPodBody svc) (absorbPodBody_rel svc)
          pod_list []
          { s with g := { s.g with cur_mrgd_svcs_map := mapSet s.g.cur_mrgd_svcs_map svc 1,
                                   svc_port_map := mapSet s.g.svc_port_map svc p.port } }
        split
        · rename_i o s3 hloop
          rw [hloop] at hrel
          simp only [Flow.sys] at hrel
          simp only [Flow.sys, Flow.exit.injEq, and_imp]
          refine ⟨by rw [hrel.1], ?_⟩
          intro o1 s1 ho _
          rw [← ho]
          exact (forLoop_exit IsError _ (absorbPodBody_exit svc) _ _ _ _ _ hloop).ne_none
        · rename_i dm s3 hloop
          rw [hloop] at hrel
          simp only [Flow.sys] at hrel
          simp only [Flow.sys]
          refine ⟨by rw [hrel.1], ?_⟩
          intro o1 s1 ho
          simp at ho

theorem absorb_next (l : List String) (u : Unit) (s0 s1 : Sys)
    (h : forLoop absorbBody l () s0 = .next u s1) : AbsorbInv s0 l s1 := by
  have := forLoop_next_ind (fun pre _ s => AbsorbInv s0 pre s) absorbBody ?_ l [] () u s0 s1
    ?_ h
  · simpa using this
  · intro pre x b s b1 s2 hJ hb
    obtain ⟨o, p, ps, hget, hports, hrel⟩ := absorbBody_next x b b1 s s2 hb
    obtain ⟨hf, hmp, hnm, hk, hpk, hport, hother, hcr, hsv, hp, hr, ws, hws, hq⟩ := hJ
    obtain ⟨hg2, hcr2, hsv2, hp2, hr2, ws2, hws2, hq2⟩ := hrel
    simp only at hg2 hcr2 hsv2 hp2 hr2 hws2
    refine ⟨?_, ?_, ?_, ?_, ?_, ?_, ?_, hcr2.trans hcr, hsv2.trans hsv, hp2.trans hp,
      hr2.trans hr, ws ++ ws2, ?_, ?_⟩
    · rw [hg2]; exact hf
    · rw [hg2]; exact hmp
    · rw [hg2]; exact hnm
    · intro y
      rw [hg2]
      simp only [mem_mapKeys_mapSet, hk, List.mem_append, List.mem_singleton]
      tauto
    · intro y
      rw [hg2]
      simp only [mem_mapKeys_mapSet, hpk, List.mem_append, List.mem_singleton]
      tauto
    · intro n hn
      rw [hg2]
      by_cases hnx : n = x
      · subst hnx
        refine ⟨o, p, ps, ?_, hports, ?_⟩
        · rw [← getService_congr hsv]; exact hget
        · simp [mapGet_mapSet_same]
      · have hn' : n ∈ pre := by
          rcases List.mem_append.1 hn with h | h
          · exact h
          · simp at h; exact absurd h hnx
        obtain ⟨o', p', ps', h1, h2, h3⟩ := hport n hn'
        refine ⟨o', p', ps', h1, h2, ?_⟩
        simp only [mapGet_mapSet_ne _ _ _ _ _ hnx]
        exact h3
    · intro n z hn
      rw [hg2]
      have hnx : n ≠ x := fun h => hn (by simp [h])
      have hn' : n ∉ pre := fun h => hn (by simp [h])
      simp only [mapGet_mapSet_ne _ _ _ _ _ hnx]
      exact hother n z hn'
    · rw [hws2, hws, List.append_assoc]
    · intro w hw
      rcases List.mem_append.1 hw with h1 | h1
      · exact hq w h1
      · exact hq2 w h1
  · exact ⟨rfl, rfl, rfl, by simp, by simp, by simp, by simp, rfl, rfl, rfl, rfl, [], by simp,
      by simp⟩

/-! ## Update as a whole -/

theorem Update_ok (ord : MapOrder) (services : List String) (s s' : Sys)
    (h : Update ord services s = (.returned none, s')) :
    ∃ s1 s2,
      ReleaseInv s (diff ord s.g.cur_mrgd_svcs_map services).1 s1 ∧
      AbsorbInv s1 (diff ord s.g.cur_mrgd_svcs_map services).2 s2 ∧
      DeleteInv { s2 with g := { s2.g with merged_pods := s2.store.mergedPodNames } }
        (diff ord s.g.cur_mrgd_svcs_map services).2 s' := by
  unfold Update at h
  rcases hd : diff ord s.g.cur_mrgd_svcs_map services with ⟨to_delete, to_add⟩
  simp only [hd] at h ⊢
  cases h1 : forLoop releaseBody to_delete () s with
  | exit o s1 =>
    simp only [h1, Prod.mk.injEq] at h
    have := forLoop_exit IsError releaseBody (fun x b s s1 o => (releaseBody_all x b s).2 o s1)
      _ _ _ _ _ h1
    exact absurd h.1 this.ne_none
  | next u1 s1 =>
    simp only [h1] at h
    cases h2 : forLoop absorbBody to_add () s1 with
    | exit o s2 =>
      simp only [h2, Prod.mk.injEq] at h
      have := forLoop_exit (fun o => o ≠ .returned none) absorbBody
        (fun x b s s1 o => (absorbBody_all x b s).2 o s1) _ _ _ _ _ h2
      exact absurd h.1 this
    | next u2 s2 =>
      simp only [h2, Store.listPods] at h
      cases h3 : forLoop deleteBody to_add ()
          { s2 with g := { s2.g with merged_pods := s2.store.mergedPodNames } } with
      | exit o s3 =>
        have := (delete_exit _ _ _ _ _ h3).1
        simp only [Store.mergedPodNames] at h3
        simp only [h3, Prod.mk.injEq] at h
        exact absurd h.1 this.ne_none
      | next u3 s3 =>
        have hinv := delete_next _ _ _ _ h3
        simp only [Store.mergedPodNames] at h3
        simp only [h3, Prod.mk.injEq, true_and] at h
        rw [← h]
        exact ⟨s1, s2, release_next _ _ _ _ h1, absorb_next _ _ _ _ h2, hinv⟩

theorem deleteBody_g (svc : String) (u : Unit) (s : Sys) : (deleteBody svc u s).sys.g = s.g := by
  cases h : deleteBody svc u s with
  | next u1 s1 =>
    obtain ⟨o, -, hs1⟩ := deleteBody_next _ _ _ _ _ h
    rw [hs1]
    rfl
  | exit o s1 => exact (deleteBody_exit _ _ _ _ _ h).2

theorem Update_flag (ord : MapOrder) (services : List String) (s : Sys) :
    (Update ord services s).2.g.merged_service_exists = s.g.merged_service_exists := by
  unfold Update
  rcases hd : diff ord s.g.cur_mrgd_svcs_map services with ⟨to_delete, to_add⟩
  simp only
  have hr1 := forLoop_rel (fun a b => b.g.merged_service_exists = a.g.merged_service_exists)
    (fun _ => rfl) (fun _ _ _ h1 h2 => h2.trans h1) releaseBody
    (fun x b s => (releaseBody_all x b s).1) to_delete () s
  cases h1 : forLoop releaseBody to_delete () s with
  | exit o s1 =>
    rw [h1] at hr1
    exact hr1
  | next u1 s1 =>
    rw [h1] at hr1
    simp only [Flow.sys] at hr1
    simp only
    have hr2 := forLoop_rel (fun a b => b.g.merged_service_exists = a.g.merged_service_exists)
      (fun _ => rfl) (fun _ _ _ h1 h2 => h2.trans h1) absorbBody
      (fun x b s => (absorbBody_all x b s).1) to_add () s1
    cases h2 : forLoop absorbBody to_add () s1 with
    | exit o s2 =>
      rw [h2] at hr2
      exact hr2.trans hr1
    | next u2 s2 =>
      rw [h2] at hr2
      simp only [Flow.sys] at hr2
      simp only [Store.listPods]
      have hr3 := forLoop_rel (fun a b => b.g.merged_service_exists = a.g.merged_service_exists)
        (fun _ => rfl) (fun _ _ _ h1 h2 => h2.trans h1) deleteBody
        (fun x b s => congrArg Globals.merged_service_exists (deleteBody_g x b s)) to_add ()
        { s2 with g := { s2.g with merged_pods := s2.store.mergedPodNames } }
      simp only [Store.mergedPodNames] at hr3
      split
      · rename_i o s3 h3
        rw [h3] at hr3
        exact hr3.trans (hr2.trans hr1)
      · rename_i u3 s3 h3
        rw [h3] at hr3
        exact hr3.trans (hr2.trans hr1)

theorem run_update (ord : MapOrder) (g : Globals) (st : Store) (services : List String)
    (hactive : g.merged_service_exists = true) (hintent : st.svcMergerObj = some services) :
    run ord g st = Update ord services { g := g, store := st, writes := [] } := by
  simp [run, Reconcile, hactive, Store.getSvcMergerObj, hintent]

/-! ## Update: the claims -/

/-- C6 as stated fails: when the scenario's declared services change from
A, B, C to B, C, D, the service that Update creates for the released A has the
selector `name = A` alone, with no `merge` entry; no service with the selector
`name = A, merge = true` is created. -/
theorem release_selector_counterexample :
    "A" ∈ (diff MapOrder.stored Scenario.merged.g.cur_mrgd_svcs_map ["B", "C", "D"]).1 ∧
    Write.createService
      { name := "A", selector := [("name", "A")],
        ports := [{ name := "merged-service-port", port := 80, protocol := "TCP",
                    targetPort := 8080 }] } ∈
      (run MapOrder.stored Scenario.merged.g Scenario.updated).2.writes ∧
    (∀ w ∈ (run MapOrder.stored Scenario.merged.g Scenario.updated).2.writes,
      ∀ svc, w = .createService svc → List.lookup "merge" svc.selector = none) ∧
    (run MapOrder.stored Scenario.merged.g Scenario.updated).1 = .returned none := by
  refine ⟨by decide, by decide, ?_, by decide⟩
  have hw : (run MapOrder.stored Scenario.merged.g Scenario.updated).2.writes =
      [.createService
        { name := "A", selector := [("name", "A")],
          ports := [{ name := "merged-service-port", port := 80, protocol := "TCP",
                      targetPort := 8080 }] },
       .updateDeployment { name := "dep-D", labels := [("app", "D"), ("merge", "true"), ("name", "D")] },
       .deleteService (Scenario.service "D" 83)] := by decide
  rw [hw]
  intro w hw svc hsvc
  simp only [List.mem_cons, List.mem_singleton, List.not_mem_nil, or_false] at hw
  rcases hw with rfl | rfl | rfl
  · simp only [Write.createService.injEq] at hsvc
    subst hsvc
    rfl
  · simp at hsvc
  · simp at hsvc

/-- C6, amended. Release in Update (lines 361-432): when `Reconcile` returns no
error, then for every service `svc` to release (remembered and no longer
declared) Update has created a service named `svc` whose port is the one
remembered for `svc` in `svc_port_map` and whose selector is `name = svc` alone;
that object is the service of that name in the store afterwards, and every
service Update creates is of this form.  The selector `name = svc, merge = true`
is used only to list the pods (line 391). -/
theorem release_creates (ord : MapOrder) (g : Globals) (st : Store) (B : List String) (s' : Sys)
    (hactive : g.merged_service_exists = true) (hintent : st.svcMergerObj = some B)
    (hok : run ord g st = (.returned none, s')) :
    (∀ svc ∈ (diff ord g.cur_mrgd_svcs_map B).1,
      Write.createService
        { name := svc, selector := [("name", svc)],
          ports := [{ name := "merged-service-port", port := mapGet g.svc_port_map svc 0,
                      protocol := "TCP", targetPort := 8080 }] } ∈ s'.writes ∧
      s'.store.getService svc = .ok
        { name := svc, selector := [("name", svc)],
          ports := [{ name := "merged-service-port", port := mapGet g.svc_port_map svc 0,
                      protocol := "TCP", targetPort := 8080 }] }) ∧
    (∀ created, Write.createService created ∈ s'.writes →
      ∃ svc ∈ (diff ord g.cur_mrgd_svcs_map B).1,
        created =
          { name := svc, selector := [("name", svc)],
            ports := [{ name := "merged-service-port", port := mapGet g.svc_port_map svc 0,
                        protocol := "TCP", targetPort := 8080 }] }) := by
  rw [run_update ord g st B hactive hintent] at hok
  obtain ⟨s1, s2, hrel, habs, hdel⟩ := Update_ok ord B _ s' hok
  obtain ⟨-, -, hfresh, -, -, -, hsv1, ws1, hws1, hcre, hall⟩ := hrel
  obtain ⟨-, -, -, -, -, -, -, -, hsv2, -, -, ws2, hws2, hq2⟩ := habs
  obtain ⟨-, hst', objs, -, hw'⟩ := hdel
  simp only at hsv1 hws1 hcre hall hw' hst' hfresh
  have hwrites : s'.writes = ws1 ++ ws2 ++ objs.map Write.deleteService := by
    rw [hw', hws2, hws1]
    simp
  constructor
  · intro svc hsvc
    constructor
    · rw [hwrites]
      exact List.mem_append_left _ (List.mem_append_left _ (hcre svc hsvc))
    · have hnot : svc ∉ (diff ord g.cur_mrgd_svcs_map B).2 := by
        rw [mem_to_delete] at hsvc
        rw [mem_to_add]
        exact fun h => h.2 hsvc.1
      rw [hst']
      have hsv : s2.store.services =
          st.services ++ (diff ord g.cur_mrgd_svcs_map B).1.map (restored_svc g) := by
        rw [hsv2, hsv1]
      have hfr : ∀ x ∈ st.services, x.name ≠ svc :=
        (getService_error_iff st svc).1 (hfresh svc hsvc)
      have := getService_restored s2.store g st.services _ svc hsvc hfr
      unfold Store.getService at this ⊢
      simp only at this ⊢
      rw [hsv, find?_filter_of_imp]
      · exact this
      · intro a _ ha
        simp only [decide_eq_true_eq] at ha ⊢
        rw [ha]
        exact hnot
  · intro created hc
    rw [hwrites] at hc
    rcases List.mem_append.1 hc with h1 | h1
    · rcases List.mem_append.1 h1 with h2 | h2
      · rcases hall _ h2 with ⟨n, hn, hw⟩ | ⟨d, hd, -⟩
        · simp only [Write.createService.injEq] at hw
          exact ⟨n, hn, hw⟩
        · simp at hd
      · obtain ⟨d, hd, -⟩ := hq2 _ h2
        simp at hd
    · simp only [List.mem_map] at h1
      obtain ⟨o, -, ho⟩ := h1
      simp at ho

theorem release_creates_witness :
    Write.createService
      { name := "A", selector := [("name", "A")],
        ports := [{ name := "merged-service-port", port := mapGet Scenario.merged.g.svc_port_map "A" 0,
                    protocol := "TCP", targetPort := 8080 }] } ∈
      (run MapOrder.stored Scenario.merged.g Scenario.updated).2.writes :=
  ((release_creates MapOrder.stored Scenario.merged.g Scenario.updated ["B", "C", "D"] _
    (by decide) (by decide) (Prod.ext (by decide) rfl)).1 "A" (by decide)).1

/-! ## A second call with the same declared services -/

theorem diff_same (ord : MapOrder) (cur : GoMap Int) (services : List String)
    (h : ∀ x, x ∈ mapKeys cur ↔ x ∈ services) : diff ord cur services = ([], []) := by
  have h1 : (diff ord cur services).1 = [] := by
    apply List.eq_nil_iff_forall_not_mem.2
    intro x hx
    rw [mem_to_delete] at hx
    exact hx.2 ((h x).1 hx.1)
  have h2 : (diff ord cur services).2 = [] := by
    apply List.eq_nil_iff_forall_not_mem.2
    intro x hx
    rw [mem_to_add] at hx
    exact hx.2 ((h x).2 hx.1)
  exact Prod.ext h1 h2

theorem Activate_keys (s0 s' : Sys) (services : List String)
    (h : Activate s0 = (.returned none, s')) (hflag0 : s0.g.merged_service_exists = false)
    (hflag : s'.g.merged_service_exists = true) (hintent : s0.store.svcMergerObj = some services) :
    ∀ x, x ∈ mapKeys s'.g.cur_mrgd_svcs_map ↔ x ∈ services := by
  obtain ⟨services', pods, dm, s1, s2, objs, hcr, hcap, -, -, -, -, hs'⟩ :=
    Activate_ok _ _ h hflag0 hflag
  rw [hintent] at hcr
  simp only [Option.some.injEq] at hcr
  subst hcr
  obtain ⟨-, -, -, -, -, hk, -⟩ := capture_next _ _ _ _ hcap
  intro x
  rw [hs']
  simpa [Sys.fresh, mapKeys] using hk x

/-- C7. Repeated activation: after an Activate for the declared services `S`
that returned no error and set the active flag, a second `Reconcile` that still
reads `S` from the managing resource returns no error, issues no write call at
all (no create, update or delete), leaves the store as it is, and leaves every
package-level variable as it is except `merged_pods`, which is read again from
the store. -/
theorem reactivate_noop (ord : MapOrder) (g : Globals) (st st2 : Store) (S : List String)
    (s1 : Sys) (hinactive : g.merged_service_exists = false) (hintent : st.svcMergerObj = some S)
    (hfirst : run ord g st = (.returned none, s1)) (hactive : s1.g.merged_service_exists = true)
    (hsame : st2.svcMergerObj = some S) :
    run ord s1.g st2 =
      (.returned none,
        { g := { merged_service_exists := s1.g.merged_service_exists,
                 cur_mrgd_svcs_map := s1.g.cur_mrgd_svcs_map,
                 merged_pods := st2.mergedPodNames,
                 global_merged_svc_name := s1.g.global_merged_svc_name,
                 svc_port_map := s1.g.svc_port_map },
          store := st2,
          writes := [] }) := by
  have hrun : run ord g st = Activate { g := g, store := st, writes := [] } := by
    simp [run, Reconcile, hinactive]
  rw [hrun] at hfirst
  have hk := Activate_keys _ _ S hfirst hinactive hactive hintent
  rw [run_update ord s1.g st2 S hactive hsame]
  unfold Update
  simp only [diff_same ord s1.g.cur_mrgd_svcs_map S hk, forLoop, Store.listPods,
    Store.mergedPodNames]

theorem reactivate_noop_witness :
    run MapOrder.stored Scenario.merged.g Scenario.merged.store =
      (.returned none,
        { g := { merged_service_exists := Scenario.merged.g.merged_service_exists,
                 cur_mrgd_svcs_map := Scenario.merged.g.cur_mrgd_svcs_map,
                 merged_pods := Scenario.merged.store.mergedPodNames,
                 global_merged_svc_name := Scenario.merged.g.global_merged_svc_name,
                 svc_port_map := Scenario.merged.g.svc_port_map },
          store := Scenario.merged.store,
          writes := [] }) :=
  reactivate_noop MapOrder.stored Globals.initial Scenario.cluster Scenario.merged.store
    ["A", "B", "C"] Scenario.merged (by decide) (by decide) (Prod.ext (by decide) rfl)
    (by decide) (by decide)

/-! ## The guard on the `merge` label: present in Activate, absent in Update -/

/-- Activate (lines 242-251): a deployment whose pod template already has
`merge = true` is not written; the round only marks it as handled. -/
theorem mergeBody_skips_merged (pod : string_pair) (dm : GoMap Bool) (s : Sys) (pod_obj : Pod)
    (n : String) (d : Deployment) (hpod : s.store.getPod pod.pod = .ok pod_obj)
    (hname : getDeploymentName s.store pod_obj = (n, none)) (hn : n ≠ "")
    (hdm : mapGet dm n false = false) (hdep : s.store.getDeployment n = .ok d)
    (hmerged : mapGet d.labels "merge" "" = "true") :
    mergeBody pod dm s = .next (mapSet dm n true) s := by
  unfold mergeBody
  simp [hpod, hname, hn, hdm, hdep, hmerged]

/-- Update, absorb path (lines 464-485): a deployment not yet handled in this
loop is written whatever its labels are. -/
theorem absorbPodBody_writes (svc : String) (pod : Pod) (dm : GoMap Bool) (s : Sys) (n : String)
    (d : Deployment) (hname : getDeploymentName s.store pod = (n, none))
    (hdm : mapGet dm n false = false) (hdep : s.store.getDeployment n = .ok d) :
    (absorbPodBody svc pod dm s).sys.writes = s.writes ++
      [.updateDeployment
        { d with labels := mapSet (mapSet d.labels "merge" "true") "name" svc }] := by
  unfold absorbPodBody
  simp only [hname, hdm, hdep, if_true]
  have hU : ∀ x, (s.Update x).2.writes = s.writes ++ [.updateDeployment x] := by
    intro x
    unfold Sys.Update
    split <;> rfl
  have := hU { d with labels := mapSet (mapSet d.labels "merge" "true") "name" svc }
  generalize s.Update _ = r at this ⊢
  obtain ⟨e, s1⟩ := r
  cases e <;> exact this

/-- C8 fails on the absorb path of Update (lines 475-479), which has no guard on
the `merge` label: with D added to the declared services while the deployment
behind D already carries `merge = true` (and `name = X`), Update still issues an
update write for that deployment and changes its labels (`name` becomes D). -/
theorem absorb_writes_merged_deployment :
    Scenario.extended.getDeployment "dep-D" =
      .ok { name := "dep-D", labels := [("app", "D"), ("merge", "true"), ("name", "X")] } ∧
    Write.updateDeployment
      { name := "dep-D", labels := [("app", "D"), ("merge", "true"), ("name", "D")] } ∈
      (run MapOrder.stored Scenario.merged.g Scenario.extended).2.writes ∧
    (run MapOrder.stored Scenario.merged.g Scenario.extended).2.store.getDeployment "dep-D" =
      .ok { name := "dep-D", labels := [("app", "D"), ("merge", "true"), ("name", "D")] } ∧
    (run MapOrder.stored Scenario.merged.g Scenario.extended).1 = .returned none :=
  ⟨rfl, by decide, rfl, by decide⟩

/-! ## What an error leaves behind -/

theorem captureBody_flag (svc : String) (u : Unit) (s : Sys) :
    (captureBody svc u s).sys.g.merged_service_exists = s.g.merged_service_exists := by
  unfold captureBody
  split
  · rfl
  · split <;> rfl

theorem Sys.Create_g (s : Sys) (svc : Service) : (s.Create svc).2.g = s.g := by
  unfold Sys.Create
  split <;> rfl

theorem Activate_flag (s0 s' : Sys) (o : Outcome) (h : Activate s0 = (o, s'))
    (ho : o ≠ .returned none) : s'.g.merged_service_exists = s0.g.merged_service_exists := by
  unfold Activate at h
  dsimp only at h
  change (match s0.fresh.store.getSvcMergerObj with
    | .error e => _
    | .ok services => _) = _ at h
  split at h
  · simp only [Prod.mk.injEq] at h
    rw [← h.2]
  · rename_i services _
    change (match forLoop captureBody services () s0.fresh with
      | .exit o s1 => _
      | .next _ s1 => _) = _ at h
    have hfl := forLoop_rel (fun a b => b.g.merged_service_exists = a.g.merged_service_exists)
      (fun _ => rfl) (fun _ _ _ h1 h2 => h2.trans h1) captureBody captureBody_flag services ()
      s0.fresh
    cases hcap : forLoop captureBody services () s0.fresh with
    | exit o1 s1 =>
      rw [hcap] at hfl
      simp only [hcap, Prod.mk.injEq] at h
      rw [← h.2]
      exact hfl
    | next u s1 =>
      rw [hcap] at hfl
      simp only [Flow.sys] at hfl
      have hf1 : s1.g.merged_service_exists = s0.g.merged_service_exists := hfl
      simp only [hcap] at h
      split at h
      · simp only [Prod.mk.injEq] at h
        rw [← h.2]
        exact hf1
      · rename_i pods _
        have hrel := merge_loop_rel pods [] s1
        cases hml : forLoop mergeBody pods [] s1 with
        | exit o2 s2 =>
          rw [hml] at hrel
          simp only [Flow.sys] at hrel
          simp only [hml, Prod.mk.injEq] at h
          rw [← h.2, hrel.1]
          exact hf1
        | next dm s2 =>
          rw [hml] at hrel
          simp only [Flow.sys] at hrel
          have hf2 : s2.g.merged_service_exists = s0.g.merged_service_exists := by
            rw [hrel.1]; exact hf1
          simp only [hml] at h
          split at h
          · simp only [Prod.mk.injEq] at h
            rw [← h.2]
            exact hf2
          · rename_i pods2 _
            have hcg := Sys.Create_g
              { s2 with g := { s2.g with merged_pods := pods2.map (fun pod => pod.pod),
                                         global_merged_svc_name := merged_svc.name } } merged_svc
            rcases hc : Sys.Create
                { s2 with g := { s2.g with merged_pods := pods2.map (fun pod => pod.pod),
                                           global_merged_svc_name := merged_svc.name } }
                merged_svc with ⟨_ | e, s4⟩
            · rw [hc] at hcg
              simp only [hc] at h
              have hf4 : s4.g.merged_service_exists = s0.g.merged_service_exists := by
                rw [hcg]; exact hf2
              cases hdel : forLoop deleteBody services () s4 with
              | exit o5 s5 =>
                simp only [hdel, Prod.mk.injEq] at h
                rw [← h.2, (delete_exit _ _ _ _ _ hdel).2]
                exact hf4
              | next u5 s5 =>
                simp only [hdel, Prod.mk.injEq] at h
                exact absurd h.1.symm ho
            · rw [hc] at hcg
              simp only [hc, Prod.mk.injEq] at h
              rw [← h.2, hcg]
              exact hf2

/-- C9 as stated fails.  Activate: with a declared service Z that does not
exist, `Reconcile` returns `NotFound` but has already remembered service A and
its port.  Update: with the declared services changed to B, C and a missing Z,
`Reconcile` returns `NotFound` but has already forgotten the released A. -/
theorem error_changes_state_counterexample :
    ((run MapOrder.stored Globals.initial Scenario.missing).1 = .returned (some .NotFound) ∧
      Globals.initial.cur_mrgd_svcs_map = [] ∧ Globals.initial.svc_port_map = [] ∧
      (run MapOrder.stored Globals.initial Scenario.missing).2.g.cur_mrgd_svcs_map = [("A", 1)] ∧
      (run MapOrder.stored Globals.initial Scenario.missing).2.g.svc_port_map = [("A", 80)]) ∧
    ((run MapOrder.stored Scenario.merged.g Scenario.updatedMissing).1 =
        .returned (some .NotFound) ∧
      mapKeys Scenario.merged.g.cur_mrgd_svcs_map = ["A", "B", "C"] ∧
      mapKeys (run MapOrder.stored Scenario.merged.g Scenario.updatedMissing).2.g.cur_mrgd_svcs_map =
        ["B", "C"]) := by
  decide

/-- C9, amended. When `Reconcile` returns an error, `merged_service_exists` is
what it was before the call; and when the failing call is a Rollback (the merge
was active and the managing resource could not be fetched), every package-level
variable is exactly what it was before the call. -/
theorem error_keeps_flag (ord : MapOrder) (g : Globals) (st : Store) (e : Err) (s' : Sys)
    (herr : run ord g st = (.returned (some e), s')) :
    s'.g.merged_service_exists = g.merged_service_exists ∧
    (g.merged_service_exists = true → st.svcMergerObj = none → s'.g = g) := by
  constructor
  · unfold run Reconcile at herr
    split at herr
    · exact Activate_flag _ _ _ herr (by simp)
    · split at herr
      · rename_i services _
        have := Update_flag ord services { g := g, store := st, writes := [] }
        rw [herr] at this
        exact this
      · exact congrArg Globals.merged_service_exists (Rollback_error ord _ _ _ herr (by simp)).2
  · intro hactive hgone
    rw [run_rollback ord g st hactive hgone] at herr
    exact (Rollback_error ord _ _ _ herr (by simp)).2

theorem error_keeps_flag_witness :
    (run MapOrder.stored Scenario.merged.g Scenario.reentered).2.g.merged_service_exists =
      Scenario.merged.g.merged_service_exists ∧
    (Scenario.merged.g.merged_service_exists = true → Scenario.reentered.svcMergerObj = none →
      (run MapOrder.stored Scenario.merged.g Scenario.reentered).2.g = Scenario.merged.g) :=
  error_keeps_flag MapOrder.stored Scenario.merged.g Scenario.reentered .AlreadyExists _
    (Prod.ext (by decide) rfl)

/-! ## Which deployments the loops touch -/

theorem Sys.Update_none {s s1 : Sys} {d : Deployment} (h : s.Update d = (none, s1)) :
    s1 = { s with store := { s.store with
             deployments := s.store.deployments.map (fun x => if x.name = d.name then d else x) },
                  writes := s.writes ++ [.updateDeployment d] } := by
  unfold Sys.Update at h
  cases hu : s.store.updateDeployment d with
  | error e => simp [hu] at h
  | ok st1 =>
    have := Store.updateDeployment_ok hu
    simp only [hu, Prod.mk.injEq, true_and] at h
    rw [← h, this]

theorem getDeployment_ok_name {st : Store} {n : String} {d : Deployment}
    (h : st.getDeployment n = .ok d) : d.name = n := by
  unfold Store.getDeployment at h
  split at h
  · rename_i x hf
    simp only [Except.ok.injEq] at h
    subst h
    simpa using List.find?_some hf
  · simp at h

/-- One round of a labelling loop, as far as the deployments go. -/
theorem mergeBody_next_dep (pod : string_pair) (dm dm1 : GoMap Bool) (s s1 : Sys)
    (h : mergeBody pod dm s = .next dm1 s1) :
    ∃ u : Deployment → Deployment,
      s1.store.deployments = s.store.deployments.map u ∧ (∀ d, (u d).name = d.name) ∧
      (∀ d, mapGet dm1 d.name false = false → u d = d) ∧
      (∀ k, mapGet dm1 k false = false → mapGet dm k false = false) ∧
      (∀ k, mapGet dm1 k false = true → mapGet dm k false = true ∨
        ∃ pod_obj, s.store.getPod pod.pod = .ok pod_obj ∧
          getDeploymentName s.store pod_obj = (k, none)) := by
  have hid : ∀ s : Sys, s.store.deployments = s.store.deployments.map (fun d => d) := by
    intro s; simp
  unfold mergeBody at h
  split at h
  · simp only [Flow.next.injEq] at h
    rw [← h.1, ← h.2]
    exact ⟨fun d => d, hid s, fun _ => rfl, fun _ _ => rfl, fun _ hk => hk, fun _ hk => Or.inl hk⟩
  · rename_i pod_obj hpod
    split at h
    rename_i n err hdn
    split at h
    · simp at h
    · split at h
      · simp at h
      · rename_i hne herr
        have herr' : err = none := by
          cases err with
          | none => rfl
          | some e => exact absurd (by simp) herr
        subst herr'
        have hset : ∀ k, mapGet (mapSet dm n true) k false = true →
            mapGet dm k false = true ∨
              ∃ pod_obj, s.store.getPod pod.pod = .ok pod_obj ∧
                getDeploymentName s.store pod_obj = (k, none) := by
          intro k hk
          by_cases hkn : k = n
          · subst hkn
            exact Or.inr ⟨pod_obj, hpod, hdn⟩
          · rw [mapGet_mapSet_ne _ _ _ _ _ hkn] at hk
            exact Or.inl hk
        have hmono : ∀ k, mapGet (mapSet dm n true) k false = false →
            mapGet dm k false = false := by
          intro k hk
          by_cases hkn : k = n
          · subst hkn
            rw [mapGet_mapSet_same] at hk
            simp at hk
          · rw [mapGet_mapSet_ne _ _ _ _ _ hkn] at hk
            exact hk
        split at h
        · rename_i hdm
          split at h
          · simp at h
          · rename_i dobj hdep
            have hname := getDeployment_ok_name hdep
            dsimp only at h
            split at h
            · rcases hU : s.Update
                  { dobj with labels := mapSet (mapSet dobj.labels "merge" "true") "name" pod.service }
                with ⟨_ | e, s2⟩
              · simp only [hU, Flow.next.injEq] at h
                have hs2 := Sys.Update_none hU
                rw [← h.1, ← h.2, hs2]
                refine ⟨fun x => if x.name = n then
                    { dobj with labels := mapSet (mapSet dobj.labels "merge" "true") "name" pod.service }
                  else x, ?_, ?_, ?_, hmono, hset⟩
                · simp only [hname]
                · intro d
                  by_cases hd : d.name = n
                  · simp [hd, hname]
                  · simp [hd]
                · intro d hd
                  have : d.name ≠ n := by
                    intro hdn'
                    rw [hdn', mapGet_mapSet_same] at hd
                    simp at hd
                  simp [this]
              · simp [hU] at h
            · simp only [Flow.next.injEq] at h
              rw [← h.1, ← h.2]
              exact ⟨fun d => d, hid s, fun _ => rfl, fun _ _ => rfl, hmono, hset⟩
        · rename_i hdm
          simp only [Flow.next.injEq] at h
          rw [← h.1, ← h.2]
          exact ⟨fun d => d, hid s, fun _ => rfl, fun _ _ => rfl, fun _ hk => hk,
            fun _ hk => Or.inl hk⟩

theorem merge_loop_dep (l : List string_pair) (dm : GoMap Bool) (s0 s1 : Sys)
    (h : forLoop mergeBody l [] s0 = .next dm s1) : MergeDepInv s0.store l dm s1 := by
  have := forLoop_next_ind (fun pre dm s => MergeDepInv s0.store pre dm s) mergeBody ?_ l []
    [] dm s0 s1 ?_ h
  · simpa using this
  · intro pre x b s b1 s2 hJ hb
    obtain ⟨hp, hr, ⟨f, hf, hfn, hfid⟩, hdm⟩ := hJ
    have hrel := mergeBody_rel x b s
    rw [hb] at hrel
    obtain ⟨-, -, -, hp2, hr2, -⟩ := hrel
    simp only [Flow.sys] at hp2 hr2
    obtain ⟨u, hu, hun, huid, hmono, hnew⟩ := mergeBody_next_dep x b b1 s s2 hb
    refine ⟨hp2.trans hp, hr2.trans hr, ⟨fun d => u (f d), ?_, ?_, ?_⟩, ?_⟩
    · rw [hu, hf, List.map_map]
      rfl
    · intro d
      show (u (f d)).name = d.name
      rw [hun, hfn]
    · intro d hd
      have h1 : f d = d := hfid d (hmono _ hd)
      show u (f d) = d
      rw [h1]
      exact huid d hd
    · intro k hk
      rcases hnew k hk with h1 | ⟨pod_obj, h2, h3⟩
      · obtain ⟨pod, hpod, pod_obj, h2, h3⟩ := hdm k h1
        exact ⟨pod, List.mem_append_left _ hpod, pod_obj, h2, h3⟩
      · refine ⟨x, by simp, pod_obj, ?_, ?_⟩
        · rw [← getPod_congr hp]; exact h2
        · rw [← getDeploymentName_congr hr]; exact h3
  · refine ⟨rfl, rfl, ⟨fun d => d, by simp, fun _ => rfl, fun _ _ => rfl⟩, ?_⟩
    intro k hk
    simp [mapGet] at hk

/-- One round of a release loop, as far as the deployments go. -/
theorem unmergeDeployment_next_dep (n : String) (dm dm1 : GoMap Bool) (s s1 : Sys)
    (h : unmergeDeployment n dm s = .next dm1 s1) :
    mapGet dm1 n false = true ∧
    ∃ u : Deployment → Deployment,
      s1.store.deployments = s.store.deployments.map u ∧ (∀ d, (u d).name = d.name) ∧
      (∀ d, mapGet dm1 d.name false = false → u d = d) ∧
      (∀ d, u d = d ∨ "merge" ∉ mapKeys (u d).labels) ∧
      (∀ d, mapGet dm1 d.name false = true → mapGet dm d.name false = false →
        "merge" ∉ mapKeys (u d).labels) ∧
      (∀ k, mapGet dm1 k false = false → mapGet dm k false = false) := by
  unfold unmergeDeployment at h
  split at h
  · rename_i hdm
    split at h
    · simp at h
    · rename_i dobj hdep
      have hname := getDeployment_ok_name hdep
      dsimp only at h
      rcases hU : s.Update { dobj with labels := mapDelete dobj.labels "merge" } with ⟨_ | e, s2⟩
      · simp only [hU, Flow.next.injEq] at h
        have hs2 := Sys.Update_none hU
        have hnomerge : "merge" ∉ mapKeys (mapDelete dobj.labels "merge") := by
          simp [mem_mapKeys_mapDelete]
        have hmono : ∀ k, mapGet (mapSet dm n true) k false = false →
            mapGet dm k false = false := by
          intro k hk
          by_cases hkn : k = n
          · subst hkn
            rw [mapGet_mapSet_same] at hk
            simp at hk
          · rw [mapGet_mapSet_ne _ _ _ _ _ hkn] at hk
            exact hk
        rw [← h.1, ← h.2, hs2]
        refine ⟨mapGet_mapSet_same _ _ _ _, fun x => if x.name = n then
            { dobj with labels := mapDelete dobj.labels "merge" } else x, ?_, ?_, ?_, ?_, ?_, hmono⟩
        · simp only [hname]
        · intro d
          by_cases hd : d.name = n
          · simp [hd, hname]
          · simp [hd]
        · intro d hd
          have : d.name ≠ n := by
            intro hdn'
            rw [hdn', mapGet_mapSet_same] at hd
            simp at hd
          simp [this]
        · intro d
          by_cases hd : d.name = n
          · right
            simp only [hd, if_true]
            exact hnomerge
          · left
            simp [hd]
        · intro d hd1 hd0
          have : d.name = n := by
            by_contra hne
            rw [mapGet_mapSet_ne _ _ _ _ _ hne, hd0] at hd1
            simp at hd1
          simp only [this, if_true]
          exact hnomerge
      · simp [hU] at h
  · rename_i hdm
    simp only [Flow.next.injEq] at h
    rw [← h.1, ← h.2]
    have hdm' : mapGet dm n false = true := by
      cases hv : mapGet dm n false with
      | true => rfl
      | false => exact absurd hv hdm
    refine ⟨hdm', fun d => d, by simp, fun _ => rfl, fun _ _ => rfl, fun _ => Or.inl rfl, ?_,
      fun _ hk => hk⟩
    intro d hd1 hd0
    rw [hd0] at hd1
    simp at hd1

theorem rollback_loop_dep (l : List String) (dm : GoMap Bool) (s0 s1 : Sys)
    (h : forLoop rollbackPodBody l [] s0 = .next dm s1) : RollbackDepInv s0.store l dm s1 := by
  have := forLoop_next_ind (fun pre dm s => RollbackDepInv s0.store pre dm s) rollbackPodBody ?_
    l [] [] dm s0 s1 ?_ h
  · simpa using this
  · intro pre x b s b1 s2 hJ hb
    obtain ⟨hp, hr, ⟨f, ⟨hf, hfn, hfid⟩, hnm⟩, hdone⟩ := hJ
    have hrel := rollbackPodBody_rel x b s
    rw [hb] at hrel
    obtain ⟨-, -, -, hp2, hr2, -⟩ := hrel
    simp only [Flow.sys] at hp2 hr2
    unfold rollbackPodBody at hb
    cases hpod : s.store.getPod x with
    | error e =>
      simp only [hpod, Flow.next.injEq] at hb
      rw [← hb.1, ← hb.2]
      refine ⟨hp, hr, ⟨f, ⟨hf, hfn, hfid⟩, hnm⟩, ?_⟩
      intro pod hpod' pod_obj hget
      rcases List.mem_append.1 hpod' with h1 | h1
      · exact hdone pod h1 pod_obj hget
      · simp only [List.mem_singleton] at h1
        subst h1
        rw [← getPod_congr hp, hpod] at hget
        simp at hget
    | ok pod_obj =>
      simp only [hpod] at hb
      rcases hdn : getDeploymentName s.store pod_obj with ⟨n, err⟩
      cases err with
      | some e => simp [hdn] at hb
      | none =>
        simp only [hdn] at hb
        obtain ⟨hset, u, hu, hun, huid, hor, hnew, hmono⟩ :=
          unmergeDeployment_next_dep n b b1 s s2 hb
        refine ⟨hp2.trans hp, hr2.trans hr, ⟨fun d => u (f d), ⟨?_, ?_, ?_⟩, ?_⟩, ?_⟩
        · rw [hu, hf, List.map_map]
          rfl
        · intro d
          show (u (f d)).name = d.name
          rw [hun, hfn]
        · intro d hd
          have h1 : f d = d := hfid d (hmono _ hd)
          show u (f d) = d
          rw [h1]
          exact huid d hd
        · intro d hd
          show "merge" ∉ mapKeys (u (f d)).labels
          cases hb0 : mapGet b d.name false with
          | true =>
            rcases hor (f d) with h1 | h1
            · rw [h1]
              exact hnm d hb0
            · exact h1
          | false =>
            have hfd : f d = d := hfid d hb0
            rw [hfd]
            exact hnew d hd hb0
        · intro pod hpod' pod_obj' hget
          rcases List.mem_append.1 hpod' with h1 | h1
          · obtain ⟨k, hk1, hk2⟩ := hdone pod h1 pod_obj' hget
            refine ⟨k, hk1, ?_⟩
            cases hv : mapGet b1 k false with
            | true => rfl
            | false =>
              rw [hmono k hv] at hk2
              simp at hk2
          · simp only [List.mem_singleton] at h1
            subst h1
            rw [← getPod_congr hp, hpod] at hget
            simp only [Except.ok.injEq] at hget
            subst hget
            refine ⟨n, ?_, hset⟩
            rw [← getDeploymentName_congr hr]
            exact hdn
  · refine ⟨rfl, rfl, ⟨fun d => d, ⟨by simp, fun _ => rfl, fun _ _ => rfl⟩, ?_⟩, by simp⟩
    intro d hd
    simp [mapGet] at hd

/-! ## Activate followed by Rollback -/

theorem find?_append_of_none {α : Type} (p : α → Bool) (a b : List α)
    (h : ∀ x ∈ b, p x = false) : (a ++ b).find? p = a.find? p := by
  have hb : b.find? p = none := by
    apply List.find?_eq_none.2
    intro x hx
    simp [h x hx]
  rw [List.find?_append, hb]
  simp

/-- A name enters the local map of a release loop only as the name just
handled. -/
theorem unmergeDeployment_next_touched (n : String) (dm dm1 : GoMap Bool) (s s1 : Sys)
    (h : unmergeDeployment n dm s = .next dm1 s1) :
    ∀ k, mapGet dm1 k false = true → mapGet dm k false = true ∨ k = n := by
  intro k hk
  unfold unmergeDeployment at h
  split at h
  · split at h
    · simp at h
    · dsimp only at h
      generalize s.Update _ = r at h
      obtain ⟨e, s2⟩ := r
      cases e with
      | some e => simp at h
      | none =>
        simp only [Flow.next.injEq] at h
        rw [← h.1] at hk
        by_cases hkn : k = n
        · exact Or.inr hkn
        · rw [mapGet_mapSet_ne _ _ _ _ _ hkn] at hk
          exact Or.inl hk
  · simp only [Flow.next.injEq] at h
    rw [← h.1] at hk
    exact Or.inl hk

/-- Every name in the local map of Rollback's loop is the deployment name of a
pod the loop has visited. -/
theorem rollback_loop_touched (l : List String) (dm : GoMap Bool) (s0 s1 : Sys)
    (h : forLoop rollbackPodBody l [] s0 = .next dm s1) :
    ∀ k, mapGet dm k false = true → ∃ pod ∈ l, ∃ pod_obj,
      s0.store.getPod pod = .ok pod_obj ∧ getDeploymentName s0.store pod_obj = (k, none) := by
  have := forLoop_next_ind
    (fun pre dm s => s.store.pods = s0.store.pods ∧ s.store.replicaSets = s0.store.replicaSets ∧
      ∀ k, mapGet dm k false = true → ∃ pod ∈ pre, ∃ pod_obj,
        s0.store.getPod pod = .ok pod_obj ∧ getDeploymentName s0.store pod_obj = (k, none))
    rollbackPodBody ?_ l [] [] dm s0 s1 ?_ h
  · simpa using this.2.2
  · intro pre x b s b1 s2 hJ hb
    obtain ⟨hp, hr, hdm⟩ := hJ
    have hrel := rollbackPodBody_rel x b s
    rw [hb] at hrel
    obtain ⟨-, -, -, hp2, hr2, -⟩ := hrel
    simp only [Flow.sys] at hp2 hr2
    refine ⟨hp2.trans hp, hr2.trans hr, ?_⟩
    have hold : ∀ k, mapGet b k false = true → ∃ pod ∈ pre ++ [x], ∃ pod_obj,
        s0.store.getPod pod = .ok pod_obj ∧ getDeploymentName s0.store pod_obj = (k, none) := by
      intro k hk
      obtain ⟨pod, hpod, pod_obj, h1, h2⟩ := hdm k hk
      exact ⟨pod, List.mem_append_left _ hpod, pod_obj, h1, h2⟩
    unfold rollbackPodBody at hb
    cases hpod : s.store.getPod x with
    | error e =>
      simp only [hpod, Flow.next.injEq] at hb
      rw [← hb.1]
      exact hold
    | ok pod_obj =>
      simp only [hpod] at hb
      rcases hdn : getDeploymentName s.store pod_obj with ⟨n, err⟩
      cases err with
      | some e => simp [hdn] at hb
      | none =>
        simp only [hdn] at hb
        intro k hk
        rcases unmergeDeployment_next_touched n b b1 s s2 hb k hk with h1 | h1
        · exact hold k h1
        · subst h1
          refine ⟨x, by simp, pod_obj, ?_, ?_⟩
          · rw [← getPod_congr hp]; exact hpod
          · rw [← getDeploymentName_congr hr]; exact hdn
  · refine ⟨rfl, rfl, ?_⟩
    intro k hk
    simp [mapGet] at hk

/-- After an Activate and a Rollback that both returned no error, a deployment
that owns no pod behind a declared service is in the store as it was. -/
theorem round_trip_untouched (ord : MapOrder) (g : Globals) (st : Store) (S : List String)
    (s1 s2 : Sys)
    (hinactive : g.merged_service_exists = false) (hintent : st.svcMergerObj = some S)
    (hact : run ord g st = (.returned none, s1)) (hactive : s1.g.merged_service_exists = true)
    (hroll : run ord s1.g { s1.store with svcMergerObj := none } = (.returned none, s2)) :
    ∀ d ∈ st.deployments,
      (∀ pods, getPodNames st S = .ok pods → ∀ pod ∈ pods, ∀ pod_obj,
        st.getPod pod.pod = .ok pod_obj → (getDeploymentName st pod_obj).1 ≠ d.name) →
      d ∈ s2.store.deployments := by
  intro d hd hnot
  have hrun : run ord g st = Activate { g := g, store := st, writes := [] } := by
    simp [run, Reconcile, hinactive]
  rw [hrun] at hact
  obtain ⟨services, pods, dmA, c1, a2, objs, hcr, hcap, hpods, hml, -, -, hs1⟩ :=
    Activate_ok _ _ hact hinactive hactive
  simp only at hcr hpods
  rw [hintent] at hcr
  simp only [Option.some.injEq] at hcr
  subst hcr
  obtain ⟨hstc, -⟩ := capture_next _ _ _ _ hcap
  have hstc' : c1.store = st := hstc
  obtain ⟨hpA, hrA, ⟨fA, hfA, hfAn, hfAid⟩, hdmA⟩ := merge_loop_dep _ _ _ _ hml
  rw [hstc'] at hpA hrA hfA hdmA
  have hpods1 : s1.g.merged_pods = pods.map (fun pod => pod.pod) := by rw [hs1]
  have hdep1 : s1.store.deployments = st.deployments.map fA := by rw [hs1]; exact hfA
  have hp1 : s1.store.pods = st.pods := by rw [hs1]; exact hpA
  have hr1 : s1.store.replicaSets = st.replicaSets := by rw [hs1]; exact hrA
  rw [run_rollback ord s1.g _ hactive rfl] at hroll
  obtain ⟨dmR, r1, mobj, hloop, -, -, -, hs2⟩ := Rollback_ok ord _ s2 hroll
  simp only at hs2
  obtain ⟨-, -, ⟨fR, ⟨hfR, hfRn, hfRid⟩, -⟩, -⟩ := rollback_loop_dep _ _ _ _ hloop
  simp only at hfR
  have htouched := rollback_loop_touched _ _ _ _ hloop
  simp only at htouched
  have hdep2 : s2.store.deployments = (st.deployments.map fA).map fR := by
    rw [hs2]
    simp only [hfR, hdep1]
  have hA : mapGet dmA d.name false = false := by
    cases hv : mapGet dmA d.name false with
    | false => rfl
    | true =>
      obtain ⟨pod, hpod, pod_obj, h1, h2⟩ := hdmA d.name hv
      have h3 := hnot pods hpods pod hpod pod_obj h1
      rw [h2] at h3
      exact absurd rfl h3
  have hR : mapGet dmR d.name false = false := by
    cases hv : mapGet dmR d.name false with
    | false => rfl
    | true =>
      obtain ⟨pod, hpod, pod_obj, h1, h2⟩ := htouched d.name hv
      rw [hpods1] at hpod
      obtain ⟨sp, hsp, rfl⟩ := List.mem_map.1 hpod
      have h1' : st.getPod sp.pod = .ok pod_obj := by
        rw [← h1]
        exact (getPod_congr hp1 _).symm
      have h2' : getDeploymentName st pod_obj = (d.name, none) := by
        rw [← h2]
        exact (@getDeploymentName_congr st { s1.store with svcMergerObj := none } hr1
          pod_obj).symm
      have h3 := hnot pods hpods sp hsp pod_obj h1'
      rw [h2'] at h3
      exact absurd rfl h3
  have hfix : fR (fA d) = d := by
    rw [hfAid d hA]
    exact hfRid d hR
  rw [hdep2]
  exact List.mem_map.2 ⟨fA d, List.mem_map.2 ⟨d, hd, rfl⟩, hfix⟩

/-- C5 as stated fails.  The scenario cluster with one more deployment, `dep-X`,
that owns no pod and whose pod template carries `merge = true`: every declared
service exists with a port, and every pod behind one is owned through a replica
set by a deployment of the store; the Activate returns no error and records the
merge, the pods are the same afterwards, the Rollback that follows returns no
error, and in the store it leaves `dep-X` still carries the `merge` label. -/
theorem round_trip_counterexample :
    Scenario.labelled.svcMergerObj = some ["A", "B", "C"] ∧
    (∀ n ∈ ["A", "B", "C"], ∃ o, Scenario.labelled.getService n = .ok o ∧ o.ports ≠ []) ∧
    (∃ pods, getPodNames Scenario.labelled ["A", "B", "C"] = .ok pods ∧
      ∀ pod ∈ pods, ∃ pod_obj n d, Scenario.labelled.getPod pod.pod = .ok pod_obj ∧
        getDeploymentName Scenario.labelled pod_obj = (n, none) ∧
        Scenario.labelled.getDeployment n = .ok d) ∧
    (run MapOrder.stored Globals.initial Scenario.labelled).1 = .returned none ∧
    Scenario.labelledMerged.g.merged_service_exists = true ∧
    Scenario.labelledMerged.store.pods = Scenario.labelled.pods ∧
    (run MapOrder.stored Scenario.labelledMerged.g
      { Scenario.labelledMerged.store with svcMergerObj := none }).1 = .returned none ∧
    ∃ d ∈ (run MapOrder.stored Scenario.labelledMerged.g
        { Scenario.labelledMerged.store with svcMergerObj := none }).2.store.deployments,
      d.name = "dep-X" ∧ "merge" ∈ mapKeys d.labels := by
  refine ⟨rfl, ?_, ⟨[⟨"pod-A", "A"⟩, ⟨"pod-B", "B"⟩, ⟨"pod-C", "C"⟩], rfl, ?_⟩, by decide, by decide, by decide, by decide,
    ⟨{ name := "dep-X", labels := [("app", "X"), ("merge", "true")] }, by decide, rfl,
      by decide⟩⟩
  · intro n hn
    simp only [List.mem_cons, List.mem_singleton, List.not_mem_nil, or_false] at hn
    rcases hn with rfl | rfl | rfl <;> exact ⟨_, rfl, by decide⟩
  · intro pod hpod
    simp only [List.mem_cons, List.mem_singleton, List.not_mem_nil, or_false] at hpod
    rcases hpod with rfl | rfl | rfl <;> exact ⟨_, _, _, rfl, rfl, rfl⟩

/-- C5, amended. Round trip: after an Activate for the declared services `S`
that returned no error and set the active flag, a Rollback on the resulting
store (the managing resource deleted, nothing else changed) that returns no
error leaves, for every name in `S`, a service of that name carrying the first
port the original service had; every other name resolves exactly as it did
before the merge, and there is no service `merged-service`; no deployment that
owns a pod behind a service of `S` carries a `merge` label; a deployment that
carries one afterwards is an object that was already in the store before the
merge, and every deployment that owns no pod behind a service of `S` is in the
store as it was, so such a deployment carries a `merge` label afterwards exactly
when it did before (none does when none did); and the package-level variables
are empty. -/
theorem round_trip (ord : MapOrder) (g : Globals) (st : Store) (S : List String) (s1 s2 : Sys)
    (hinactive : g.merged_service_exists = false) (hintent : st.svcMergerObj = some S)
    (hact : run ord g st = (.returned none, s1)) (hactive : s1.g.merged_service_exists = true)
    (hroll : run ord s1.g { s1.store with svcMergerObj := none } = (.returned none, s2)) :
    (∀ n ∈ S, ∃ o p ps, st.getService n = .ok o ∧ o.ports = p :: ps ∧
      s2.store.getService n = .ok
        { name := n, selector := [("name", n)],
          ports := [{ name := "merged-service-port", port := p.port, protocol := "TCP",
                      targetPort := 8080 }] }) ∧
    (∀ n, n ∉ S → s2.store.getService n = st.getService n) ∧
    s2.store.getService "merged-service" = .error .NotFound ∧
    (∀ pods, getPodNames st S = .ok pods → ∀ pod ∈ pods, ∀ pod_obj,
      st.getPod pod.pod = .ok pod_obj → ∀ d ∈ s2.store.deployments,
        d.name = (getDeploymentName st pod_obj).1 → "merge" ∉ mapKeys d.labels) ∧
    (∀ d ∈ s2.store.deployments, "merge" ∈ mapKeys d.labels → d ∈ st.deployments) ∧
    (∀ d ∈ st.deployments,
      (∀ pods, getPodNames st S = .ok pods → ∀ pod ∈ pods, ∀ pod_obj,
        st.getPod pod.pod = .ok pod_obj → (getDeploymentName st pod_obj).1 ≠ d.name) →
      d ∈ s2.store.deployments) ∧
    ((∀ d ∈ st.deployments, "merge" ∉ mapKeys d.labels) →
      ∀ d ∈ s2.store.deployments, "merge" ∉ mapKeys d.labels) ∧
    s2.g = { merged_service_exists := false, cur_mrgd_svcs_map := [], merged_pods := [],
             global_merged_svc_name := "", svc_port_map := [] } := by
  have huntouched := round_trip_untouched ord g st S s1 s2 hinactive hintent hact hactive hroll
  -- the Activate
  have hrun : run ord g st = Activate { g := g, store := st, writes := [] } := by
    simp [run, Reconcile, hinactive]
  rw [hrun] at hact
  obtain ⟨services, pods, dmA, c1, a2, objs, hcr, hcap, hpods, hml, -, hfree, hs1⟩ :=
    Activate_ok _ _ hact hinactive hactive
  simp only at hcr hpods hfree
  rw [hintent] at hcr
  simp only [Option.some.injEq] at hcr
  subst hcr
  obtain ⟨hstc, -, -, -, -, hk, -, hports, -⟩ := capture_next _ _ _ _ hcap
  have hstc' : c1.store = st := hstc
  obtain ⟨hpA, hrA, ⟨fA, hfA, hfAn, hfAid⟩, hdmA⟩ := merge_loop_dep _ _ _ _ hml
  rw [hstc'] at hpA hrA hfA hdmA
  have hkeys : ∀ x, x ∈ mapKeys s1.g.cur_mrgd_svcs_map ↔ x ∈ S := by
    intro x
    rw [hs1]
    simpa [Sys.fresh, mapKeys] using hk x
  have hname : s1.g.global_merged_svc_name = merged_svc.name := by rw [hs1]
  have hpods1 : s1.g.merged_pods = pods.map (fun pod => pod.pod) := by rw [hs1]
  have hsv1 : s1.store.services =
      (st.services ++ [merged_svc]).filter (fun x => decide (x.name ∉ S)) := by rw [hs1]
  have hdep1 : s1.store.deployments = st.deployments.map fA := by rw [hs1]; exact hfA
  have hp1 : s1.store.pods = st.pods := by rw [hs1]; exact hpA
  have hr1 : s1.store.replicaSets = st.replicaSets := by rw [hs1]; exact hrA
  have hport1 : s1.g.svc_port_map = c1.g.svc_port_map := by rw [hs1]
  -- the Rollback
  rw [run_rollback ord s1.g _ hactive rfl] at hroll
  obtain ⟨dmR, r1, mobj, hloop, hrel, hget, hfresh, hs2⟩ := Rollback_ok ord _ s2 hroll
  obtain ⟨-, -, hsvR, -, -, -⟩ := hrel
  simp only at hsvR hget hfresh hs2
  obtain ⟨hpR, hrR, ⟨fR, ⟨hfR, hfRn, hfRid⟩, hnm⟩, hdone⟩ := rollback_loop_dep _ _ _ _ hloop
  simp only at hpR hrR hfR hdone
  have hmname : mobj.name = merged_svc.name := by
    rw [(getService_ok_name hget).1, hname]
  have hsv2 : s2.store.services =
      ((st.services ++ [merged_svc]).filter (fun x => decide (x.name ∉ S))).filter
          (fun x => decide (x.name ≠ merged_svc.name)) ++
        (ord.visit (mapKeys s1.g.cur_mrgd_svcs_map)).map (restored_svc s1.g) := by
    rw [hs2]
    simp only [hsvR, hsv1, hmname]
  have hdep2 : s2.store.deployments = (st.deployments.map fA).map fR := by
    rw [hs2]
    simp only [hfR, hdep1]
  have hnotin : merged_svc.name ∉ S := by
    intro hin
    obtain ⟨o, -, -, h0, -⟩ := hports _ hin
    have : st.getService merged_svc.name = .ok o := h0
    rw [hfree] at this
    simp at this
  have hmergedgone : s2.store.getService "merged-service" = .error .NotFound := by
    rw [getService_error_iff, hsv2]
    intro x hx
    simp only [List.mem_append, List.mem_filter, decide_eq_true_eq, List.mem_map] at hx
    rcases hx with ⟨_, hx⟩ | ⟨n, hn, rfl⟩
    · exact hx
    · intro h
      apply hnotin
      rw [mem_visit, hkeys] at hn
      have h' : n = merged_svc.name := h
      exact h' ▸ hn
  have hdeps : ∀ d ∈ s2.store.deployments, "merge" ∈ mapKeys d.labels → d ∈ st.deployments := by
    intro x hx hmerge
    rw [hdep2] at hx
    simp only [List.mem_map, exists_exists_and_eq_and] at hx
    obtain ⟨d, hd, rfl⟩ := hx
    have hR : mapGet dmR (fA d).name false = false := by
      cases hv : mapGet dmR (fA d).name false with
      | false => rfl
      | true => exact absurd hmerge (hnm (fA d) hv)
    rw [hfRid (fA d) hR] at hmerge ⊢
    have hA : mapGet dmA d.name false = false := by
      cases hv : mapGet dmA d.name false with
      | false => rfl
      | true =>
        obtain ⟨pod, hpod, pod_obj, h1, h2⟩ := hdmA d.name hv
        have hmem : pod.pod ∈ s1.g.merged_pods := by
          rw [hpods1]
          exact List.mem_map_of_mem _ hpod
        have h1' : Store.getPod { s1.store with svcMergerObj := none } pod.pod = .ok pod_obj := by
          rw [← h1]
          exact getPod_congr hp1 _
        obtain ⟨n, h3, h4⟩ := hdone pod.pod hmem pod_obj h1'
        have h3' : getDeploymentName st pod_obj = (n, none) := by
          rw [← h3]
          exact (@getDeploymentName_congr st { s1.store with svcMergerObj := none } hr1
            pod_obj).symm
        rw [h2] at h3'
        simp only [Prod.mk.injEq, and_true] at h3'
        rw [hfAn, h3', h4] at hR
        simp at hR
    rw [hfAid d hA]
    exact hd
  have hbacking : ∀ pods', getPodNames st S = .ok pods' → ∀ pod ∈ pods', ∀ pod_obj,
      st.getPod pod.pod = .ok pod_obj → ∀ d ∈ s2.store.deployments,
        d.name = (getDeploymentName st pod_obj).1 → "merge" ∉ mapKeys d.labels := by
    intro pods' hpods' pod hpod pod_obj hgetpod x hx hxname
    rw [hpods] at hpods'
    simp only [Except.ok.injEq] at hpods'
    subst hpods'
    have hmem : pod.pod ∈ s1.g.merged_pods := by
      rw [hpods1]
      exact List.mem_map_of_mem _ hpod
    have h1' : Store.getPod { s1.store with svcMergerObj := none } pod.pod = .ok pod_obj := by
      rw [← hgetpod]
      exact getPod_congr hp1 _
    obtain ⟨n, h3, h4⟩ := hdone pod.pod hmem pod_obj h1'
    have h3' : getDeploymentName st pod_obj = (n, none) := by
      rw [← h3]
      exact (@getDeploymentName_congr st { s1.store with svcMergerObj := none } hr1
        pod_obj).symm
    rw [h3'] at hxname
    rw [hdep2] at hx
    simp only [List.mem_map, exists_exists_and_eq_and] at hx
    obtain ⟨d, -, rfl⟩ := hx
    apply hnm (fA d)
    rw [← hfRn, hxname]
    exact h4
  refine ⟨?_, ?_, hmergedgone, hbacking, hdeps, huntouched, ?_, ?_⟩
  · intro n hn
    obtain ⟨o, p, ps, h0, h1, h2⟩ := hports n hn
    refine ⟨o, p, ps, h0, h1, ?_⟩
    have hmem : n ∈ ord.visit (mapKeys s1.g.cur_mrgd_svcs_map) := by
      rw [mem_visit, hkeys]; exact hn
    have := getService_restored s2.store s1.g
      (((st.services ++ [merged_svc]).filter (fun x => decide (x.name ∉ S))).filter
        (fun x => decide (x.name ≠ merged_svc.name))) _ n hmem (by
        intro x hx
        simp only [List.mem_filter, decide_eq_true_eq] at hx
        intro hxn
        exact hx.1.2 (hxn ▸ hn))
    unfold Store.getService at this ⊢
    simp only at this
    rw [hsv2, this]
    simp only [restored_svc, hport1, h2]
  · intro n hn
    unfold Store.getService
    have hrest : ∀ x ∈ (ord.visit (mapKeys s1.g.cur_mrgd_svcs_map)).map (restored_svc s1.g),
        decide (x.name = n) = false := by
      intro x hx
      simp only [List.mem_map] at hx
      obtain ⟨k, hk, rfl⟩ := hx
      simp only [restored_svc, decide_eq_false_iff_not]
      intro h
      rw [mem_visit, hkeys] at hk
      exact hn (h ▸ hk)
    rw [hsv2, find?_append_of_none _ _ _ hrest]
    by_cases hm : n = merged_svc.name
    · have h1 : st.services.find? (fun s => decide (s.name = n)) = none := by
        apply List.find?_eq_none.2
        intro x hx
        have := (getService_error_iff st merged_svc.name).1 hfree x hx
        simpa [hm] using this
      have h2 : (((st.services ++ [merged_svc]).filter (fun x => decide (x.name ∉ S))).filter
          (fun x => decide (x.name ≠ merged_svc.name))).find? (fun s => decide (s.name = n)) =
            none := by
        apply List.find?_eq_none.2
        intro x hx
        simp only [List.mem_filter, decide_eq_true_eq] at hx
        simpa [hm] using hx.2
      rw [h1, h2]
    · rw [find?_filter_of_imp, find?_filter_of_imp, find?_append_of_none]
      · intro x hx
        simp only [List.mem_singleton] at hx
        subst hx
        simpa using fun h => hm h.symm
      · intro a _ ha
        simp only [decide_eq_true_eq] at ha ⊢
        rw [ha]
        exact hn
      · intro a _ ha
        simp only [decide_eq_true_eq] at ha ⊢
        rw [ha]
        exact hm
  · intro hnone d hd hmerge
    exact hnone d (hdeps d hd hmerge) hmerge
  · rw [hs2]
    rfl

theorem round_trip_witness :
    (∀ d ∈ (run MapOrder.stored Scenario.labelledMerged.g
        { Scenario.labelledMerged.store with svcMergerObj := none }).2.store.deployments,
      "merge" ∈ mapKeys d.labels → d ∈ Scenario.labelled.deployments) ∧
    (run MapOrder.stored Scenario.labelledMerged.g
        { Scenario.labelledMerged.store with svcMergerObj := none }).2.store.getService
      "merged-service" = .error .NotFound ∧
    (∀ d ∈ (run MapOrder.stored Scenario.labelledMerged.g
        { Scenario.labelledMerged.store with svcMergerObj := none }).2.store.deployments,
      d.name = "dep-A" → "merge" ∉ mapKeys d.labels) :=
  have h := round_trip MapOrder.stored Globals.initial Scenario.labelled ["A", "B", "C"]
    Scenario.labelledMerged _ (by decide) (by decide) (Prod.ext (by decide) rfl) (by decide)
    (Prod.ext (by decide) rfl)
  ⟨h.2.2.2.2.1, h.2.2.1,
    h.2.2.2.1 [⟨"pod-A", "A"⟩, ⟨"pod-B", "B"⟩, ⟨"pod-C", "C"⟩] rfl ⟨"pod-A", "A"⟩ (by decide)
      (Scenario.pod "A") rfl⟩

/-! ## The two maps hold the same names in every reachable state -/

theorem forLoop_rel_np {α β : Type} (R : Sys → Sys → Prop) (hrefl : ∀ s, R s s)
    (htrans : ∀ a b c, R a b → R b c → R a c) (body : α → β → Sys → Flow β)
    (hnext : ∀ x b s b1 s1, body x b s = .next b1 s1 → R s s1)
    (hexit : ∀ x b s o s1, body x b s = .exit o s1 → o ≠ .panicked → R s s1)
    (l : List α) (b : β) (s : Sys) :
    (∀ b1 s1, forLoop body l b s = .next b1 s1 → R s s1) ∧
    (∀ o s1, forLoop body l b s = .exit o s1 → o ≠ .panicked → R s s1) := by
  induction l generalizing b s with
  | nil =>
    simp only [forLoop, Flow.next.injEq, and_imp]
    refine ⟨?_, ?_⟩
    · intro b1 s1 _ hs
      rw [← hs]
      exact hrefl s
    · intro o s1 h
      simp at h
  | cons x xs ih =>
    simp only [forLoop]
    cases hbody : body x b s with
    | next b2 s2 =>
      have h1 := hnext x b s b2 s2 hbody
      obtain ⟨ih1, ih2⟩ := ih b2 s2
      exact ⟨fun b1 s1 h => htrans _ _ _ h1 (ih1 b1 s1 h),
        fun o s1 h ho => htrans _ _ _ h1 (ih2 o s1 h ho)⟩
    | exit o2 s2 =>
      refine ⟨?_, ?_⟩
      · intro b1 s1 h
        simp at h
      · intro o s1 h ho
        simp only [Flow.exit.injEq] at h
        rw [← h.2]
        exact hexit x b s o2 s2 hbody (h.1 ▸ ho)

theorem KeysAgree.set {g : Globals} (h : KeysAgree g) (k : String) (v : Int) :
    KeysAgree { g with cur_mrgd_svcs_map := mapSet g.cur_mrgd_svcs_map k 1,
                       svc_port_map := mapSet g.svc_port_map k v } := by
  intro x
  simp only [mem_mapKeys_mapSet, h x]

theorem KeysAgree.delete {g : Globals} (h : KeysAgree g) (k : String) :
    KeysAgree { g with cur_mrgd_svcs_map := mapDelete g.cur_mrgd_svcs_map k,
                       svc_port_map := mapDelete g.svc_port_map k } := by
  intro x
  simp only [mem_mapKeys_mapDelete, h x]

theorem KeysAgree.of_maps {g g' : Globals} (h : KeysAgree g)
    (h1 : g'.cur_mrgd_svcs_map = g.cur_mrgd_svcs_map) (h2 : g'.svc_port_map = g.svc_port_map) :
    KeysAgree g' := by
  intro x
  rw [h1, h2]
  exact h x

theorem captureBody_keys (svc : String) (u : Unit) (s : Sys) :
    (∀ u1 s1, captureBody svc u s = .next u1 s1 → KeysAgree s.g → KeysAgree s1.g) ∧
    (∀ o s1, captureBody svc u s = .exit o s1 → o ≠ .panicked → KeysAgree s.g → KeysAgree s1.g) := by
  constructor
  · intro u1 s1 h hk
    obtain ⟨o, p, ps, -, -, hs1⟩ := captureBody_next _ _ _ _ _ h
    rw [hs1]
    exact hk.set svc p.port
  · intro o s1 h ho hk
    unfold captureBody at h
    split at h
    · simp only [Flow.exit.injEq] at h
      rw [← h.2]
      exact hk
    · dsimp only at h
      split at h
      · simp only [Flow.exit.injEq] at h
        exact absurd h.1.symm ho
      · simp at h

theorem releaseBody_keys (svc : String) (u : Unit) (s : Sys) :
    (∀ u1 s1, releaseBody svc u s = .next u1 s1 → KeysAgree s.g → KeysAgree s1.g) ∧
    (∀ o s1, releaseBody svc u s = .exit o s1 → o ≠ .panicked → KeysAgree s.g → KeysAgree s1.g) := by
  constructor
  · intro u1 s1 h hk
    obtain ⟨s2, -, hrel, hs1⟩ := releaseBody_next _ _ _ _ _ h
    have hg : s2.g = s.g := hrel.1
    rw [hs1]
    have := hk.delete svc
    rw [← hg] at this
    exact this
  · intro o s1 h _ hk
    have hg : s1.g = s.g := by
      unfold releaseBody at h
      dsimp only at h
      rcases hc : s.Create { restored_svc s.g svc with selector := mapSet [] "name" svc }
        with ⟨_ | e, s3⟩
      · have hs3 := (Sys.Create_none hc).2
        simp only [hc] at h
        split at h
        · simp only [Flow.exit.injEq] at h
          rw [← h.2, hs3]
        · rename_i pod_list _
          have hrel := forLoop_rel _ (OnlyDeployments.refl IsUnmergeWrite)
            (OnlyDeployments.trans IsUnmergeWrite) releasePodBody releasePodBody_rel pod_list
            [] s3
          split at h
          · rename_i o2 s2 hloop
            rw [hloop] at hrel
            simp only [Flow.sys] at hrel
            simp only [Flow.exit.injEq] at h
            rw [← h.2, hrel.1, hs3]
          · simp at h
      · have hs3 := (Sys.Create_some hc).2.2
        simp only [hc, Flow.exit.injEq] at h
        rw [← h.2, hs3]
    exact hk.of_maps (by rw [hg]) (by rw [hg])

theorem absorbBody_keys (svc : String) (u : Unit) (s : Sys) :
    (∀ u1 s1, absorbBody svc u s = .next u1 s1 → KeysAgree s.g → KeysAgree s1.g) ∧
    (∀ o s1, absorbBody svc u s = .exit o s1 → o ≠ .panicked → KeysAgree s.g → KeysAgree s1.g) := by
  constructor
  · intro u1 s1 h hk
    obtain ⟨o, p, ps, -, -, hrel⟩ := absorbBody_next _ _ _ _ _ h
    have hg := hrel.1
    simp only at hg
    rw [hg]
    exact hk.set svc p.port
  · intro o s1 h ho hk
    unfold absorbBody at h
    split at h
    · simp only [Flow.exit.injEq] at h
      rw [← h.2]
      exact hk
    · dsimp only at h
      split at h
      · simp only [Flow.exit.injEq] at h
        exact absurd h.1.symm ho
      · rename_i p ps _
        split at h
        · simp only [Flow.exit.injEq] at h
          rw [← h.2]
          exact hk.set svc p.port
        · rename_i pod_list _
          have hrel := forLoop_rel _ (OnlyDeployments.refl IsMergeWrite)
            (OnlyDeployments.trans IsMergeWrite) (absorbPodBody svc) (absorbPodBody_rel svc)
            pod_list []
            { s with g := { s.g with cur_mrgd_svcs_map := mapSet s.g.cur_mrgd_svcs_map svc 1,
                                     svc_port_map := mapSet s.g.svc_port_map svc p.port } }
          split at h
          · rename_i o2 s3 hloop
            rw [hloop] at hrel
            simp only [Flow.sys] at hrel
            simp only [Flow.exit.injEq] at h
            rw [← h.2, hrel.1]
            exact hk.set svc p.port
          · simp at h

theorem keys_loop {α β : Type} (body : α → β → Sys → Flow β)
    (hb : ∀ x b s,
      (∀ b1 s1, body x b s = .next b1 s1 → KeysAgree s.g → KeysAgree s1.g) ∧
      (∀ o s1, body x b s = .exit o s1 → o ≠ .panicked → KeysAgree s.g → KeysAgree s1.g))
    (l : List α) (b : β) (s : Sys) :
    (∀ b1 s1, forLoop body l b s = .next b1 s1 → KeysAgree s.g → KeysAgree s1.g) ∧
    (∀ o s1, forLoop body l b s = .exit o s1 → o ≠ .panicked → KeysAgree s.g → KeysAgree s1.g) :=
  forLoop_rel_np (fun a b => KeysAgree a.g → KeysAgree b.g) (fun _ h => h)
    (fun _ _ _ h1 h2 h => h2 (h1 h)) body (fun x b s => (hb x b s).1) (fun x b s => (hb x b s).2)
    l b s

theorem delete_loop_g (l : List String) (u : Unit) (s : Sys) :
    (forLoop deleteBody l u s).sys.g = s.g :=
  forLoop_rel (fun a b => b.g = a.g) (fun _ => rfl) (fun _ _ _ h1 h2 => h2.trans h1) deleteBody
    deleteBody_g l u s

theorem Activate_keysAgree (s0 s' : Sys) (o : Outcome) (h : Activate s0 = (o, s'))
    (ho : o ≠ .panicked) : KeysAgree s'.g := by
  have hfresh : KeysAgree s0.fresh.g := by
    intro x
    simp [Sys.fresh, mapKeys]
  unfold Activate at h
  dsimp only at h
  change (match s0.fresh.store.getSvcMergerObj with
    | .error e => _
    | .ok services => _) = _ at h
  split at h
  · simp only [Prod.mk.injEq] at h
    rw [← h.2]
    exact hfresh
  · rename_i services _
    change (match forLoop captureBody services () s0.fresh with
      | .exit o s1 => _
      | .next _ s1 => _) = _ at h
    obtain ⟨hn, he⟩ := keys_loop captureBody captureBody_keys services () s0.fresh
    cases hcap : forLoop captureBody services () s0.fresh with
    | exit o1 s1 =>
      simp only [hcap, Prod.mk.injEq] at h
      rw [← h.2]
      exact he o1 s1 hcap (h.1 ▸ ho) hfresh
    | next u s1 =>
      have hk1 : KeysAgree s1.g := hn u s1 hcap hfresh
      simp only [hcap] at h
      split at h
      · simp only [Prod.mk.injEq] at h
        rw [← h.2]
        exact hk1
      · rename_i pods _
        have hrel := merge_loop_rel pods [] s1
        cases hml : forLoop mergeBody pods [] s1 with
        | exit o2 s2 =>
          rw [hml] at hrel
          simp only [Flow.sys] at hrel
          simp only [hml, Prod.mk.injEq] at h
          rw [← h.2, hrel.1]
          exact hk1
        | next dm s2 =>
          rw [hml] at hrel
          simp only [Flow.sys] at hrel
          have hk2 : KeysAgree s2.g := by rw [hrel.1]; exact hk1
          simp only [hml] at h
          split at h
          · simp only [Prod.mk.injEq] at h
            rw [← h.2]
            exact hk2
          · rename_i pods2 _
            have hcg := Sys.Create_g
              { s2 with g := { s2.g with merged_pods := pods2.map (fun pod => pod.pod),
                                         global_merged_svc_name := merged_svc.name } } merged_svc
            rcases hc : Sys.Create
                { s2 with g := { s2.g with merged_pods := pods2.map (fun pod => pod.pod),
                                           global_merged_svc_name := merged_svc.name } }
                merged_svc with ⟨_ | e, s4⟩
            · rw [hc] at hcg
              simp only at hcg
              simp only [hc] at h
              have hk4 : KeysAgree s4.g := hk2.of_maps (by rw [hcg]) (by rw [hcg])
              have hdg := delete_loop_g services () s4
              cases hdel : forLoop deleteBody services () s4 with
              | exit o5 s5 =>
                rw [hdel] at hdg
                simp only [Flow.sys] at hdg
                simp only [hdel, Prod.mk.injEq] at h
                rw [← h.2, hdg]
                exact hk4
              | next u5 s5 =>
                rw [hdel] at hdg
                simp only [Flow.sys] at hdg
                simp only [hdel, Prod.mk.injEq] at h
                rw [← h.2]
                exact hk4.of_maps (by simp only [hdg]) (by simp only [hdg])
            · rw [hc] at hcg
              simp only at hcg
              simp only [hc, Prod.mk.injEq] at h
              rw [← h.2]
              exact hk2.of_maps (by rw [hcg]) (by rw [hcg])

theorem Update_keysAgree (ord : MapOrder) (services : List String) (s s' : Sys) (o : Outcome)
    (h : Update ord services s = (o, s')) (ho : o ≠ .panicked) (hk : KeysAgree s.g) :
    KeysAgree s'.g := by
  unfold Update at h
  rcases hd : diff ord s.g.cur_mrgd_svcs_map services with ⟨to_delete, to_add⟩
  simp only [hd] at h
  obtain ⟨hn1, he1⟩ := keys_loop releaseBody releaseBody_keys to_delete () s
  cases h1 : forLoop releaseBody to_delete () s with
  | exit o1 s1 =>
    simp only [h1, Prod.mk.injEq] at h
    rw [← h.2]
    exact he1 o1 s1 h1 (h.1 ▸ ho) hk
  | next u1 s1 =>
    have hk1 := hn1 u1 s1 h1 hk
    simp only [h1] at h
    obtain ⟨hn2, he2⟩ := keys_loop absorbBody absorbBody_keys to_add () s1
    cases h2 : forLoop absorbBody to_add () s1 with
    | exit o2 s2 =>
      simp only [h2, Prod.mk.injEq] at h
      rw [← h.2]
      exact he2 o2 s2 h2 (h.1 ▸ ho) hk1
    | next u2 s2 =>
      have hk2 := hn2 u2 s2 h2 hk1
      simp only [h2, Store.listPods] at h
      have hdg := delete_loop_g to_add ()
        { s2 with g := { s2.g with merged_pods := s2.store.mergedPodNames } }
      simp only [Store.mergedPodNames] at hdg
      split at h
      · rename_i o3 s3 h3
        rw [h3] at hdg
        simp only [Flow.sys] at hdg
        simp only [Prod.mk.injEq] at h
        rw [← h.2]
        exact hk2.of_maps (by rw [hdg]) (by rw [hdg])
      · rename_i u3 s3 h3
        rw [h3] at hdg
        simp only [Flow.sys] at hdg
        simp only [Prod.mk.injEq] at h
        rw [← h.2]
        exact hk2.of_maps (by rw [hdg]) (by rw [hdg])

theorem Rollback_keysAgree (ord : MapOrder) (s s' : Sys) (o : Outcome)
    (h : Rollback ord s = (o, s')) (hk : KeysAgree s.g) : KeysAgree s'.g := by
  by_cases ho : o = .returned none
  · subst ho
    obtain ⟨_, _, _, _, _, _, _, hs'⟩ := Rollback_ok ord s s' h
    rw [hs']
    intro x
    simp [Globals.initial, mapKeys]
  · have := (Rollback_error ord s s' o h ho).2
    exact hk.of_maps (by rw [this]) (by rw [this])

theorem Reconcile_keysAgree (ord : MapOrder) (s s' : Sys) (o : Outcome)
    (h : Reconcile ord s = (o, s')) (ho : o ≠ .panicked) (hk : KeysAgree s.g) :
    KeysAgree s'.g := by
  unfold Reconcile at h
  split at h
  · exact Activate_keysAgree _ _ _ h ho
  · split at h
    · exact Update_keysAgree _ _ _ _ _ h ho hk
    · exact Rollback_keysAgree _ _ _ _ h hk

/-- In every reachable state `svc_port_map` and `cur_mrgd_svcs_map` hold the
same names. -/
theorem reachable_keysAgree (g : Globals) (h : Reachable g) : KeysAgree g := by
  induction h with
  | initial =>
    intro x
    simp [Globals.initial, mapKeys]
  | step ord g st o s' _ hrun ho ih =>
    exact Reconcile_keysAgree ord _ s' o hrun ho ih

/-! ## Update: the resulting maps -/

theorem forLoop_exit_inv {α β : Type} (P : Sys → Prop) (Q : Outcome → Prop)
    (body : α → β → Sys → Flow β)
    (hnext : ∀ x b s b1 s1, P s → body x b s = .next b1 s1 → P s1)
    (hexit : ∀ x b s s1 o, P s → body x b s = .exit o s1 → Q o)
    (l : List α) (b : β) (s s1 : Sys) (o : Outcome) (h0 : P s)
    (h : forLoop body l b s = .exit o s1) : Q o := by
  induction l generalizing b s with
  | nil => simp [forLoop] at h
  | cons x xs ih =>
    simp only [forLoop] at h
    cases hbody : body x b s with
    | next b2 s2 =>
      rw [hbody] at h
      exact ih b2 s2 (hnext x b s b2 s2 h0 hbody) h
    | exit o2 s2 =>
      rw [hbody] at h
      simp only [Flow.exit.injEq] at h
      rw [← h.1]
      exact hexit x b s s2 o2 h0 hbody

theorem PortsOk.of_services {st st1 : Store} (h : PortsOk st)
    (hs : st1.services = st.services) : PortsOk st1 := by
  intro n o ho
  rw [getService_congr hs] at ho
  exact h n o ho

theorem PortsOk.append {st st1 : Store} (h : PortsOk st) (l : List Service)
    (hl : ∀ x ∈ l, x.ports ≠ []) (hs : st1.services = st.services ++ l) : PortsOk st1 := by
  intro n o ho
  have hmem := (getService_ok_name ho).2
  rw [hs] at hmem
  rcases List.mem_append.1 hmem with h1 | h1
  · cases hg : st.getService n with
    | ok o0 =>
      have := getService_append_of_ok l hg
      have hc : st1.getService n = Store.getService { st with services := st.services ++ l } n :=
        getService_congr hs n
      rw [hc, this] at ho
      simp only [Except.ok.injEq] at ho
      rw [← ho]
      exact h n o0 hg
    | error e =>
      have hnf := getService_error_eq hg
      subst hnf
      exact absurd (getService_ok_name ho).1 ((getService_error_iff st n).1 hg o h1)
  · exact hl o h1

theorem captureBody_no_panic (svc : String) (u : Unit) (s s1 : Sys) (o : Outcome)
    (hp : PortsOk s.store) (h : captureBody svc u s = .exit o s1) : o ≠ .panicked := by
  unfold captureBody at h
  cases hg : s.store.getService svc with
  | error e =>
    simp only [hg, Flow.exit.injEq] at h
    rw [← h.1]
    simp
  | ok obj =>
    simp only [hg] at h
    cases hports : obj.ports with
    | nil => exact absurd hports (hp svc obj hg)
    | cons p ps => simp [hports] at h

theorem absorbBody_no_panic (svc : String) (u : Unit) (s s1 : Sys) (o : Outcome)
    (hp : PortsOk s.store) (h : absorbBody svc u s = .exit o s1) : o ≠ .panicked := by
  unfold absorbBody at h
  cases hg : s.store.getService svc with
  | error e =>
    simp only [hg, Flow.exit.injEq] at h
    rw [← h.1]
    simp
  | ok obj =>
    simp only [hg] at h
    cases hports : obj.ports with
    | nil => exact absurd hports (hp svc obj hg)
    | cons p ps =>
      simp only [hports] at h
      split at h
      · simp only [Flow.exit.injEq] at h
        rw [← h.1]
        simp
      · split at h
        · rename_i o2 s3 hloop
          simp only [Flow.exit.injEq] at h
          rw [← h.1]
          obtain ⟨e, he⟩ := forLoop_exit IsError _ (absorbPodBody_exit svc) _ _ _ _ _ hloop
          rw [he]
          simp
        · simp at h

theorem IsError.ne_panicked {o : Outcome} (h : IsError o) : o ≠ .panicked := by
  obtain ⟨e, rfl⟩ := h
  simp

theorem Activate_no_panic (s0 : Sys) (hp : PortsOk s0.store) : (Activate s0).1 ≠ .panicked := by
  generalize hres : Activate s0 = r
  obtain ⟨o, s'⟩ := r
  show o ≠ .panicked
  unfold Activate at hres
  dsimp only at hres
  change (match s0.fresh.store.getSvcMergerObj with
    | .error e => _
    | .ok services => _) = _ at hres
  split at hres
  · simp only [Prod.mk.injEq] at hres
    rw [← hres.1]
    simp
  · rename_i services _
    change (match forLoop captureBody services () s0.fresh with
      | .exit o s1 => _
      | .next _ s1 => _) = _ at hres
    cases hcap : forLoop captureBody services () s0.fresh with
    | exit o1 s1 =>
      simp only [hcap, Prod.mk.injEq] at hres
      rw [← hres.1]
      refine forLoop_exit_inv (fun s => PortsOk s.store) (fun o => o ≠ .panicked) captureBody
        ?_ ?_ services () s0.fresh s1 o1 hp hcap
      · intro x b s b1 s2 hP hb
        obtain ⟨_, _, _, _, _, hs2⟩ := captureBody_next x b b1 s s2 hb
        rw [hs2]
        exact hP
      · intro x b s s2 o2 hP hb
        exact captureBody_no_panic x b s s2 o2 hP hb
    | next u s1 =>
      simp only [hcap] at hres
      split at hres
      · simp only [Prod.mk.injEq] at hres
        rw [← hres.1]
        simp
      · rename_i pods _
        cases hml : forLoop mergeBody pods [] s1 with
        | exit o2 s2 =>
          simp only [hml, Prod.mk.injEq] at hres
          rw [← hres.1]
          rcases merge_loop_exit _ _ _ _ _ hml with h1 | ⟨h1, -⟩
          · exact h1.ne_panicked
          · rw [h1]
            simp
        | next dm s2 =>
          simp only [hml] at hres
          split at hres
          · simp only [Prod.mk.injEq] at hres
            rw [← hres.1]
            simp
          · rename_i pods2 _
            rcases hc : Sys.Create
                { s2 with g := { s2.g with merged_pods := pods2.map (fun pod => pod.pod),
                                           global_merged_svc_name := merged_svc.name } }
                merged_svc with ⟨_ | e, s4⟩
            · simp only [hc] at hres
              cases hdel : forLoop deleteBody services () s4 with
              | exit o5 s5 =>
                simp only [hdel, Prod.mk.injEq] at hres
                rw [← hres.1]
                exact (delete_exit _ _ _ _ _ hdel).1.ne_panicked
              | next u5 s5 =>
                simp only [hdel, Prod.mk.injEq] at hres
                rw [← hres.1]
                simp
            · simp only [hc, Prod.mk.injEq] at hres
              rw [← hres.1]
              simp

theorem restored_svc_ports (g : Globals) (n : String) : (restored_svc g n).ports ≠ [] := by
  simp [restored_svc]

theorem Update_no_panic (ord : MapOrder) (services : List String) (s : Sys)
    (hp : PortsOk s.store) : (Update ord services s).1 ≠ .panicked := by
  generalize hres : Update ord services s = r
  obtain ⟨o, s'⟩ := r
  show o ≠ .panicked
  unfold Update at hres
  rcases hd : diff ord s.g.cur_mrgd_svcs_map services with ⟨to_delete, to_add⟩
  simp only [hd] at hres
  cases h1 : forLoop releaseBody to_delete () s with
  | exit o1 s1 =>
    simp only [h1, Prod.mk.injEq] at hres
    rw [← hres.1]
    exact (forLoop_exit IsError releaseBody (fun x b s s1 o => (releaseBody_all x b s).2 o s1)
      _ _ _ _ _ h1).ne_panicked
  | next u1 s1 =>
    simp only [h1] at hres
    have hrel := release_next _ _ _ _ h1
    have hp1 : PortsOk s1.store := by
      obtain ⟨-, -, -, -, -, -, hsv, -⟩ := hrel
      refine hp.append _ ?_ hsv
      intro x hx
      simp only [List.mem_map] at hx
      obtain ⟨n, -, rfl⟩ := hx
      exact restored_svc_ports _ _
    cases h2 : forLoop absorbBody to_add () s1 with
    | exit o2 s2 =>
      simp only [h2, Prod.mk.injEq] at hres
      rw [← hres.1]
      refine forLoop_exit_inv (fun s => PortsOk s.store) (fun o => o ≠ .panicked) absorbBody
        ?_ ?_ to_add () s1 s2 o2 hp1 h2
      · intro x b s b1 s3 hP hb
        obtain ⟨_, _, _, _, _, hrel3⟩ := absorbBody_next x b b1 s s3 hb
        exact hP.of_services hrel3.2.2.1
      · intro x b s s3 o3 hP hb
        exact absorbBody_no_panic x b s s3 o3 hP hb
    | next u2 s2 =>
      simp only [h2, Store.listPods] at hres
      split at hres
      · rename_i o3 s3 h3
        simp only [Prod.mk.injEq] at hres
        rw [← hres.1]
        exact (delete_exit _ _ _ _ _ h3).1.ne_panicked
      · simp only [Prod.mk.injEq] at hres
        rw [← hres.1]
        simp

theorem Rollback_no_panic (ord : MapOrder) (s : Sys) : (Rollback ord s).1 ≠ .panicked := by
  by_cases h : (Rollback ord s).1 = .returned none
  · rw [h]
    simp
  · exact (Rollback_error ord s _ _ rfl h).1.ne_panicked

theorem Reconcile_no_panic (ord : MapOrder) (s : Sys) (hp : PortsOk s.store) :
    (Reconcile ord s).1 ≠ .panicked := by
  unfold Reconcile
  split
  · exact Activate_no_panic s hp
  · split
    · exact Update_no_panic ord _ s hp
    · exact Rollback_no_panic ord s

theorem reachableServed_reachable (g : Globals) (h : ReachableServed g) : Reachable g := by
  induction h with
  | initial => exact Reachable.initial
  | step ord g st _ hp ih =>
    exact Reachable.step ord g st (run ord g st).1 (run ord g st).2 ih rfl
      (Reconcile_no_panic ord _ hp)

/-! ## The invariant of the two maps -/

/-- C11. MergeState invariant: in every state reached from the initial one by
calls of `Reconcile`, ending well or not, on clusters in which every fetched
service has at least one port, every name remembered in `cur_mrgd_svcs_map` has
an entry in `svc_port_map`. -/
theorem services_have_ports (g : Globals) (h : ReachableServed g) :
    ∀ x, x ∈ mapKeys g.cur_mrgd_svcs_map → ∃ p, (x, p) ∈ g.svc_port_map := by
  intro x hx
  have hk : x ∈ mapKeys g.svc_port_map :=
    (reachable_keysAgree g (reachableServed_reachable g h) x).2 hx
  simp only [mapKeys, List.mem_map] at hk
  obtain ⟨⟨k, p⟩, hmem, hkx⟩ := hk
  simp only at hkx
  subst hkx
  exact ⟨p, hmem⟩

theorem services_have_ports_witness :
    "A" ∈ mapKeys Scenario.merged.g.cur_mrgd_svcs_map ∧
    ∃ p, ("A", p) ∈ Scenario.merged.g.svc_port_map :=
  ⟨by decide,
    services_have_ports Scenario.merged.g
      (ReachableServed.step MapOrder.stored Globals.initial Scenario.cluster
        ReachableServed.initial
        (by
          intro n o ho
          have hmem := (getService_ok_name ho).2
          simp only [Scenario.cluster, List.mem_cons, List.mem_singleton, List.not_mem_nil,
            or_false] at hmem
          rcases hmem with rfl | rfl | rfl | rfl <;> simp [Scenario.service]))
      "A" (by decide)⟩

/-! ## A pod whose deployment name is empty -/

theorem getDeployment_empty {st : Store} (h : NoEmptyDeployment st) :
    st.getDeployment "" = .error .NotFound := by
  unfold Store.getDeployment
  have : st.deployments.find? (fun d => decide (d.name = "")) = none := by
    apply List.find?_eq_none.2
    intro d hd
    simpa using h d hd
  rw [this]

theorem getDeployment_ok_mem {st : Store} {n : String} {d : Deployment}
    (h : st.getDeployment n = .ok d) : d ∈ st.deployments := by
  unfold Store.getDeployment at h
  split at h
  · rename_i x hf
    simp only [Except.ok.injEq] at h
    subst h
    exact List.mem_of_find?_eq_some hf
  · simp at h

theorem NoEmptyDeployment.update {s s1 : Sys} {d : Deployment} (h : NoEmptyDeployment s.store)
    (hd : d.name ≠ "") (hU : s.Update d = (none, s1)) : NoEmptyDeployment s1.store := by
  rw [Sys.Update_none hU]
  intro x hx
  simp only [List.mem_map] at hx
  obtain ⟨y, hy, rfl⟩ := hx
  by_cases hyn : y.name = d.name
  · simp only [hyn, if_true]
    exact hd
  · simp only [hyn, if_false]
    exact h y hy

theorem mapGet_mapSet_empty (dm : GoMap Bool) (n : String) (hn : n ≠ "")
    (h : mapGet dm "" false = false) : mapGet (mapSet dm n true) "" false = false := by
  rw [mapGet_mapSet_ne _ _ _ _ _ (fun h' => hn h'.symm)]
  exact h

/-- A round of a release loop that goes on did not meet the empty name. -/
theorem unmergeDeployment_next_nonempty (n : String) (dm dm1 : GoMap Bool) (s s1 : Sys)
    (hne : NoEmptyDeployment s.store) (hdm : mapGet dm "" false = false)
    (h : unmergeDeployment n dm s = .next dm1 s1) :
    n ≠ "" ∧ NoEmptyDeployment s1.store ∧ mapGet dm1 "" false = false := by
  unfold unmergeDeployment at h
  split at h
  · split at h
    · simp at h
    · rename_i dobj hdep
      have hname := getDeployment_ok_name hdep
      have hn : n ≠ "" := by
        rw [← hname]
        exact hne dobj (getDeployment_ok_mem hdep)
      dsimp only at h
      rcases hU : s.Update { dobj with labels := mapDelete dobj.labels "merge" } with ⟨_ | e, s2⟩
      · simp only [hU, Flow.next.injEq] at h
        rw [← h.1, ← h.2]
        exact ⟨hn, hne.update (by rw [hname]; exact hn) hU, mapGet_mapSet_empty dm n hn hdm⟩
      · simp [hU] at h
  · rename_i hdmn
    simp only [Flow.next.injEq] at h
    rw [← h.1, ← h.2]
    refine ⟨?_, hne, hdm⟩
    intro hn
    rw [hn] at hdmn
    exact hdmn hdm

theorem absorbPodBody_next_nonempty (svc : String) (pod : Pod) (dm dm1 : GoMap Bool)
    (s s1 : Sys) (hne : NoEmptyDeployment s.store) (hdm : mapGet dm "" false = false)
    (h : absorbPodBody svc pod dm s = .next dm1 s1) :
    getDeploymentName s.store pod ≠ ("", none) ∧ NoEmptyDeployment s1.store ∧
      mapGet dm1 "" false = false := by
  unfold absorbPodBody at h
  rcases hdn : getDeploymentName s.store pod with ⟨n, err⟩
  cases err with
  | some e => simp [hdn] at h
  | none =>
    simp only [hdn] at h
    split at h
    · split at h
      · simp at h
      · rename_i dobj hdep
        have hname := getDeployment_ok_name hdep
        have hn : n ≠ "" := by
          rw [← hname]
          exact hne dobj (getDeployment_ok_mem hdep)
        rcases hU : s.Update
            { dobj with labels := mapSet (mapSet dobj.labels "merge" "true") "name" svc }
          with ⟨_ | e, s2⟩
        · simp only [hU, Flow.next.injEq] at h
          rw [← h.1, ← h.2]
          refine ⟨?_, hne.update (by rw [hname]; exact hn) hU, mapGet_mapSet_empty dm n hn hdm⟩
          simpa using hn
        · simp [hU] at h
    · rename_i hdmn
      simp only [Flow.next.injEq] at h
      rw [← h.1, ← h.2]
      refine ⟨?_, hne, hdm⟩
      intro hn
      simp only [Prod.mk.injEq, and_true] at hn
      rw [hn] at hdmn
      exact hdmn hdm

theorem releasePodBody_next_nonempty (pod : Pod) (dm dm1 : GoMap Bool) (s s1 : Sys)
    (hne : NoEmptyDeployment s.store) (hdm : mapGet dm "" false = false)
    (h : releasePodBody pod dm s = .next dm1 s1) :
    getDeploymentName s.store pod ≠ ("", none) ∧ NoEmptyDeployment s1.store ∧
      mapGet dm1 "" false = false := by
  unfold releasePodBody at h
  rcases hdn : getDeploymentName s.store pod with ⟨n, err⟩
  cases err with
  | some e => simp [hdn] at h
  | none =>
    simp only [hdn] at h
    obtain ⟨hn, h2, h3⟩ := unmergeDeployment_next_nonempty n dm dm1 s s1 hne hdm h
    exact ⟨by simpa using hn, h2, h3⟩

theorem rollbackPodBody_next_nonempty (pod : String) (dm dm1 : GoMap Bool) (s s1 : Sys)
    (hne : NoEmptyDeployment s.store) (hdm : mapGet dm "" false = false)
    (h : rollbackPodBody pod dm s = .next dm1 s1) :
    (∀ pod_obj, s.store.getPod pod = .ok pod_obj →
      getDeploymentName s.store pod_obj ≠ ("", none)) ∧
    NoEmptyDeployment s1.store ∧ mapGet dm1 "" false = false := by
  unfold rollbackPodBody at h
  cases hpod : s.store.getPod pod with
  | error e =>
    simp only [hpod, Flow.next.injEq] at h
    rw [← h.1, ← h.2]
    exact ⟨by intro pod_obj hp; simp at hp, hne, hdm⟩
  | ok pod_obj =>
    simp only [hpod] at h
    rcases hdn : getDeploymentName s.store pod_obj with ⟨n, err⟩
    cases err with
    | some e => simp [hdn] at h
    | none =>
      simp only [hdn] at h
      obtain ⟨hn, h2, h3⟩ := unmergeDeployment_next_nonempty n dm dm1 s s1 hne hdm h
      refine ⟨?_, h2, h3⟩
      intro pod_obj' hp
      simp only [Except.ok.injEq] at hp
      subst hp
      rw [hdn]
      simpa using hn

theorem mergeBody_next_nonempty (pod : string_pair) (dm dm1 : GoMap Bool) (s s1 : Sys)
    (h : mergeBody pod dm s = .next dm1 s1) :
    ∀ pod_obj, s.store.getPod pod.pod = .ok pod_obj →
      (getDeploymentName s.store pod_obj).1 ≠ "" := by
  intro pod_obj hpod
  unfold mergeBody at h
  simp only [hpod] at h
  rcases hdn : getDeploymentName s.store pod_obj with ⟨n, err⟩
  simp only [hdn] at h
  split at h
  · simp at h
  · rename_i hn
    exact hn

/-! ## Loops that run to their end met no empty deployment name -/

theorem rollback_loop_nonempty (l : List String) (dm : GoMap Bool) (s0 s1 : Sys)
    (hne : NoEmptyDeployment s0.store) (h : forLoop rollbackPodBody l [] s0 = .next dm s1) :
    ∀ pod ∈ l, ∀ pod_obj, s0.store.getPod pod = .ok pod_obj →
      getDeploymentName s0.store pod_obj ≠ ("", none) := by
  have := forLoop_next_ind
    (fun pre dm s => NoEmptyDeployment s.store ∧ mapGet dm "" false = false ∧
      s.store.pods = s0.store.pods ∧ s.store.replicaSets = s0.store.replicaSets ∧
      ∀ pod ∈ pre, ∀ pod_obj, s0.store.getPod pod = .ok pod_obj →
        getDeploymentName s0.store pod_obj ≠ ("", none))
    rollbackPodBody ?_ l [] [] dm s0 s1 ?_ h
  · simpa using this.2.2.2.2
  · intro pre x b s b1 s2 ⟨hn, hdm, hp, hr, hpre⟩ hb
    have hrel := rollbackPodBody_rel x b s
    rw [hb] at hrel
    obtain ⟨-, -, -, hp2, hr2, -⟩ := hrel
    simp only [Flow.sys] at hp2 hr2
    obtain ⟨h1, h2, h3⟩ := rollbackPodBody_next_nonempty x b b1 s s2 hn hdm hb
    refine ⟨h2, h3, hp2.trans hp, hr2.trans hr, ?_⟩
    intro pod hpod pod_obj hget
    rcases List.mem_append.1 hpod with h4 | h4
    · exact hpre pod h4 pod_obj hget
    · simp only [List.mem_singleton] at h4
      subst h4
      rw [← getDeploymentName_congr hr]
      exact h1 pod_obj (by rw [getPod_congr hp]; exact hget)
  · exact ⟨hne, rfl, rfl, rfl, by simp⟩

theorem release_pods_nonempty (l : List Pod) (dm : GoMap Bool) (s0 s1 : Sys)
    (hne : NoEmptyDeployment s0.store) (h : forLoop releasePodBody l [] s0 = .next dm s1) :
    NoEmptyDeployment s1.store ∧
    ∀ pod ∈ l, getDeploymentName s0.store pod ≠ ("", none) := by
  have := forLoop_next_ind
    (fun pre dm s => NoEmptyDeployment s.store ∧ mapGet dm "" false = false ∧
      s.store.replicaSets = s0.store.replicaSets ∧
      ∀ pod ∈ pre, getDeploymentName s0.store pod ≠ ("", none))
    releasePodBody ?_ l [] [] dm s0 s1 ?_ h
  · exact ⟨this.1, by simpa using this.2.2.2⟩
  · intro pre x b s b1 s2 ⟨hn, hdm, hr, hpre⟩ hb
    have hrel := releasePodBody_rel x b s
    rw [hb] at hrel
    obtain ⟨-, -, -, -, hr2, -⟩ := hrel
    simp only [Flow.sys] at hr2
    obtain ⟨h1, h2, h3⟩ := releasePodBody_next_nonempty x b b1 s s2 hn hdm hb
    refine ⟨h2, h3, hr2.trans hr, ?_⟩
    intro pod hpod
    rcases List.mem_append.1 hpod with h4 | h4
    · exact hpre pod h4
    · simp only [List.mem_singleton] at h4
      subst h4
      rw [← getDeploymentName_congr hr]
      exact h1
  · exact ⟨hne, rfl, rfl, by simp⟩

theorem absorb_pods_nonempty (svc : String) (l : List Pod) (dm : GoMap Bool) (s0 s1 : Sys)
    (hne : NoEmptyDeployment s0.store)
    (h : forLoop (absorbPodBody svc) l [] s0 = .next dm s1) :
    NoEmptyDeployment s1.store ∧
    ∀ pod ∈ l, getDeploymentName s0.store pod ≠ ("", none) := by
  have := forLoop_next_ind
    (fun pre dm s => NoEmptyDeployment s.store ∧ mapGet dm "" false = false ∧
      s.store.replicaSets = s0.store.replicaSets ∧
      ∀ pod ∈ pre, getDeploymentName s0.store pod ≠ ("", none))
    (absorbPodBody svc) ?_ l [] [] dm s0 s1 ?_ h
  · exact ⟨this.1, by simpa using this.2.2.2⟩
  · intro pre x b s b1 s2 ⟨hn, hdm, hr, hpre⟩ hb
    have hrel := absorbPodBody_rel svc x b s
    rw [hb] at hrel
    obtain ⟨-, -, -, -, hr2, -⟩ := hrel
    simp only [Flow.sys] at hr2
    obtain ⟨h1, h2, h3⟩ := absorbPodBody_next_nonempty svc x b b1 s s2 hn hdm hb
    refine ⟨h2, h3, hr2.trans hr, ?_⟩
    intro pod hpod
    rcases List.mem_append.1 hpod with h4 | h4
    · exact hpre pod h4
    · simp only [List.mem_singleton] at h4
      subst h4
      rw [← getDeploymentName_congr hr]
      exact h1
  · exact ⟨hne, rfl, rfl, by simp⟩

theorem merge_loop_nonempty (l : List string_pair) (dm0 dm : GoMap Bool) (s0 s1 : Sys)
    (h : forLoop mergeBody l dm0 s0 = .next dm s1) :
    ∀ pod ∈ l, ∀ pod_obj, s0.store.getPod pod.pod = .ok pod_obj →
      (getDeploymentName s0.store pod_obj).1 ≠ "" := by
  have := forLoop_next_ind
    (fun pre _ s => s.store.pods = s0.store.pods ∧
      s.store.replicaSets = s0.store.replicaSets ∧
      ∀ pod ∈ pre, ∀ pod_obj, s0.store.getPod pod.pod = .ok pod_obj →
        (getDeploymentName s0.store pod_obj).1 ≠ "")
    mergeBody ?_ l [] dm0 dm s0 s1 ?_ h
  · simpa using this.2.2
  · intro pre x b s b1 s2 ⟨hp, hr, hpre⟩ hb
    have hrel := mergeBody_rel x b s
    rw [hb] at hrel
    obtain ⟨-, -, -, hp2, hr2, -⟩ := hrel
    simp only [Flow.sys] at hp2 hr2
    have h1 := mergeBody_next_nonempty x b b1 s s2 hb
    refine ⟨hp2.trans hp, hr2.trans hr, ?_⟩
    intro pod hpod pod_obj hget
    rcases List.mem_append.1 hpod with h4 | h4
    · exact hpre pod h4 pod_obj hget
    · simp only [List.mem_singleton] at h4
      subst h4
      rw [← getDeploymentName_congr hr]
      exact h1 pod_obj (by rw [getPod_congr hp]; exact hget)
  · exact ⟨rfl, rfl, by simp⟩

theorem release_selector_eq (svc : String) :
    mapSet (mapSet ([] : GoMap String) "name" svc) "merge" "true" =
      [("name", svc), ("merge", "true")] := by
  simp [mapSet, mapDelete]

theorem releaseBody_next_nonempty (svc : String) (u u1 : Unit) (s s1 : Sys)
    (hne : NoEmptyDeployment s.store) (h : releaseBody svc u s = .next u1 s1) :
    NoEmptyDeployment s1.store ∧ s1.store.pods = s.store.pods ∧
    s1.store.replicaSets = s.store.replicaSets ∧
    ∀ pod ∈ s.store.pods, matchingLabels [("name", svc), ("merge", "true")] pod.labels = true →
      getDeploymentName s.store pod ≠ ("", none) := by
  obtain ⟨s2', -, hrel', hs1'⟩ := releaseBody_next svc u u1 s s1 h
  have hp : s1.store.pods = s.store.pods := by rw [hs1']; exact hrel'.2.2.2.1
  have hr : s1.store.replicaSets = s.store.replicaSets := by rw [hs1']; exact hrel'.2.2.2.2.1
  unfold releaseBody at h
  dsimp only at h
  rcases hc : s.Create { restored_svc s.g svc with selector := mapSet [] "name" svc }
    with ⟨_ | e, s3⟩
  · simp only [hc] at h
    have hs3 := (Sys.Create_none hc).2
    have hne3 : NoEmptyDeployment s3.store := by rw [hs3]; exact hne
    have hr3 : s3.store.replicaSets = s.store.replicaSets := by rw [hs3]
    have hp3 : s3.store.pods = s.store.pods := by rw [hs3]
    simp only [Store.listPods, release_selector_eq] at h
    split at h
    · simp at h
    · rename_i dm s2 hloop
      simp only [Flow.next.injEq, true_and] at h
      obtain ⟨hne2, hall⟩ := release_pods_nonempty _ _ _ _ hne3 hloop
      refine ⟨by rw [← h]; exact hne2, hp, hr, ?_⟩
      intro pod hpod hmatch
      rw [← getDeploymentName_congr hr3]
      apply hall pod
      rw [hp3]
      exact List.mem_filter.2 ⟨hpod, hmatch⟩
  · simp [hc] at h

theorem absorbBody_next_nonempty (svc : String) (u u1 : Unit) (s s1 : Sys)
    (hne : NoEmptyDeployment s.store) (h : absorbBody svc u s = .next u1 s1) :
    NoEmptyDeployment s1.store ∧ s1.store.pods = s.store.pods ∧
    s1.store.replicaSets = s.store.replicaSets ∧ s1.store.services = s.store.services ∧
    ∀ o, s.store.getService svc = .ok o → ∀ pod ∈ s.store.pods,
      matchingLabels o.selector pod.labels = true →
        getDeploymentName s.store pod ≠ ("", none) := by
  obtain ⟨o', p', ps', -, -, hrel'⟩ := absorbBody_next svc u u1 s s1 h
  have hp : s1.store.pods = s.store.pods := hrel'.2.2.2.1
  have hr : s1.store.replicaSets = s.store.replicaSets := hrel'.2.2.2.2.1
  have hsv : s1.store.services = s.store.services := hrel'.2.2.1
  unfold absorbBody at h
  cases hg : s.store.getService svc with
  | error e => simp [hg] at h
  | ok obj =>
    simp only [hg] at h
    cases hports : obj.ports with
    | nil => simp [hports] at h
    | cons p ps =>
      simp only [hports, Store.listPods] at h
      split at h
      · simp at h
      · rename_i dm s3 hloop
        simp only [Flow.next.injEq, true_and] at h
        obtain ⟨hne3, hall⟩ := absorb_pods_nonempty svc _ _ _ _ (by exact hne) hloop
        refine ⟨by rw [← h]; exact hne3, hp, hr, hsv, ?_⟩
        intro o ho pod hpod hmatch
        simp only [Except.ok.injEq] at ho
        subst ho
        exact hall pod (List.mem_filter.2 ⟨hpod, hmatch⟩)

theorem release_loop_nonempty (l : List String) (u : Unit) (s0 s1 : Sys)
    (hne : NoEmptyDeployment s0.store) (h : forLoop releaseBody l () s0 = .next u s1) :
    NoEmptyDeployment s1.store ∧
    ∀ svc ∈ l, ∀ pod ∈ s0.store.pods,
      matchingLabels [("name", svc), ("merge", "true")] pod.labels = true →
        getDeploymentName s0.store pod ≠ ("", none) := by
  have := forLoop_next_ind
    (fun pre _ s => NoEmptyDeployment s.store ∧ s.store.pods = s0.store.pods ∧
      s.store.replicaSets = s0.store.replicaSets ∧
      ∀ svc ∈ pre, ∀ pod ∈ s0.store.pods,
        matchingLabels [("name", svc), ("merge", "true")] pod.labels = true →
          getDeploymentName s0.store pod ≠ ("", none))
    releaseBody ?_ l [] () u s0 s1 ?_ h
  · exact ⟨this.1, by simpa using this.2.2.2⟩
  · intro pre x b s b1 s2 ⟨hn, hp, hr, hpre⟩ hb
    obtain ⟨h1, h2, h3, h4⟩ := releaseBody_next_nonempty x b b1 s s2 hn hb
    refine ⟨h1, h2.trans hp, h3.trans hr, ?_⟩
    intro svc hsvc pod hpod hmatch
    rcases List.mem_append.1 hsvc with h5 | h5
    · exact hpre svc h5 pod hpod hmatch
    · simp only [List.mem_singleton] at h5
      subst h5
      rw [← getDeploymentName_congr hr]
      exact h4 pod (by rw [hp]; exact hpod) hmatch
  · exact ⟨hne, rfl, rfl, by simp⟩

theorem absorb_loop_nonempty (l : List String) (u : Unit) (s0 s1 : Sys)
    (hne : NoEmptyDeployment s0.store) (h : forLoop absorbBody l () s0 = .next u s1) :
    ∀ svc ∈ l, ∀ o, s0.store.getService svc = .ok o → ∀ pod ∈ s0.store.pods,
      matchingLabels o.selector pod.labels = true →
        getDeploymentName s0.store pod ≠ ("", none) := by
  have := forLoop_next_ind
    (fun pre _ s => NoEmptyDeployment s.store ∧ s.store.pods = s0.store.pods ∧
      s.store.replicaSets = s0.store.replicaSets ∧ s.store.services = s0.store.services ∧
      ∀ svc ∈ pre, ∀ o, s0.store.getService svc = .ok o → ∀ pod ∈ s0.store.pods,
        matchingLabels o.selector pod.labels = true →
          getDeploymentName s0.store pod ≠ ("", none))
    absorbBody ?_ l [] () u s0 s1 ?_ h
  · simpa using this.2.2.2.2
  · intro pre x b s b1 s2 ⟨hn, hp, hr, hsv, hpre⟩ hb
    obtain ⟨h1, h2, h3, h4, h5⟩ := absorbBody_next_nonempty x b b1 s s2 hn hb
    refine ⟨h1, h2.trans hp, h3.trans hr, h4.trans hsv, ?_⟩
    intro svc hsvc o ho pod hpod hmatch
    rcases List.mem_append.1 hsvc with h6 | h6
    · exact hpre svc h6 o ho pod hpod hmatch
    · simp only [List.mem_singleton] at h6
      subst h6
      rw [← getDeploymentName_congr hr]
      exact h5 o (by rw [getService_congr hsv]; exact ho) pod (by rw [hp]; exact hpod) hmatch
  · exact ⟨hne, rfl, rfl, rfl, by simp⟩

theorem Update_loops (ord : MapOrder) (services : List String) (s s' : Sys)
    (h : Update ord services s = (.returned none, s')) :
    ∃ u1 s1 u2 s2,
      forLoop releaseBody (diff ord s.g.cur_mrgd_svcs_map services).1 () s = .next u1 s1 ∧
      forLoop absorbBody (diff ord s.g.cur_mrgd_svcs_map services).2 () s1 = .next u2 s2 := by
  unfold Update at h
  rcases hd : diff ord s.g.cur_mrgd_svcs_map services with ⟨to_delete, to_add⟩
  simp only [hd] at h ⊢
  cases h1 : forLoop releaseBody to_delete () s with
  | exit o s1 =>
    simp only [h1, Prod.mk.injEq] at h
    have := forLoop_exit IsError releaseBody (fun x b s s1 o => (releaseBody_all x b s).2 o s1)
      _ _ _ _ _ h1
    exact absurd h.1 this.ne_none
  | next u1 s1 =>
    simp only [h1] at h
    cases h2 : forLoop absorbBody to_add () s1 with
    | exit o s2 =>
      simp only [h2, Prod.mk.injEq] at h
      have := forLoop_exit (fun o => o ≠ .returned none) absorbBody
        (fun x b s s1 o => (absorbBody_all x b s).2 o s1) _ _ _ _ _ h2
      exact absurd h.1 this
    | next u2 s2 => exact ⟨u1, s1, u2, s2, rfl, h2⟩

/-! ## Activate before the merged service is created -/

theorem captureBody_frame (svc : String) (u : Unit) (s : Sys) :
    (captureBody svc u s).sys.store = s.store ∧ (captureBody svc u s).sys.writes = s.writes ∧
    (captureBody svc u s).sys.g.merged_service_exists = s.g.merged_service_exists := by
  unfold captureBody
  split
  · exact ⟨rfl, rfl, rfl⟩
  · split <;> exact ⟨rfl, rfl, rfl⟩

theorem Activate_before_create (s0 s' : Sys) (o : Outcome) (h : Activate s0 = (o, s')) :
    (∃ services pods dm s1 s2, s0.store.svcMergerObj = some services ∧
      getPodNames s0.store services = .ok pods ∧ s1.store = s0.store ∧
      forLoop mergeBody pods [] s1 = .next dm s2) ∨
    (s'.g.merged_service_exists = s0.g.merged_service_exists ∧
      s'.store.services = s0.store.services ∧
      ∃ ws, s'.writes = s0.writes ++ ws ∧ ∀ w ∈ ws, IsMergeWrite w) := by
  unfold Activate at h
  dsimp only at h
  change (match s0.fresh.store.getSvcMergerObj with
    | .error e => _
    | .ok services => _) = _ at h
  have hfs : s0.fresh.store = s0.store := rfl
  cases hcr : s0.store.svcMergerObj with
  | none =>
    simp only [Store.getSvcMergerObj, hfs, hcr, Prod.mk.injEq] at h
    rw [← h.2]
    exact Or.inr ⟨rfl, rfl, [], by simp [Sys.fresh], by simp⟩
  | some services =>
    simp only [Store.getSvcMergerObj, hfs, hcr] at h
    change (match forLoop captureBody services () s0.fresh with
      | .exit o s1 => _
      | .next _ s1 => _) = _ at h
    have hfr := forLoop_rel
      (fun a b => b.store = a.store ∧ b.writes = a.writes ∧
        b.g.merged_service_exists = a.g.merged_service_exists)
      (fun _ => ⟨rfl, rfl, rfl⟩)
      (fun _ _ _ h1 h2 => ⟨h2.1.trans h1.1, h2.2.1.trans h1.2.1, h2.2.2.trans h1.2.2⟩)
      captureBody captureBody_frame services () s0.fresh
    cases hcap : forLoop captureBody services () s0.fresh with
    | exit o1 s1 =>
      rw [hcap] at hfr
      simp only [Flow.sys] at hfr
      simp only [hcap, Prod.mk.injEq] at h
      rw [← h.2]
      refine Or.inr ⟨hfr.2.2, ?_, [], ?_, by simp⟩
      · rw [hfr.1]
        rfl
      · rw [hfr.2.1]
        simp [Sys.fresh]
    | next u s1 =>
      rw [hcap] at hfr
      simp only [Flow.sys] at hfr
      obtain ⟨hst1, hw1, hf1⟩ := hfr
      simp only [hcap] at h
      rw [hst1, hfs] at h
      cases hpods : getPodNames s0.store services with
      | error e =>
        simp only [hpods, Prod.mk.injEq] at h
        rw [← h.2]
        refine Or.inr ⟨hf1, by rw [hst1]; rfl, [], ?_, by simp⟩
        rw [hw1]
        simp [Sys.fresh]
      | ok pods =>
        simp only [hpods] at h
        have hrel := merge_loop_rel pods [] s1
        cases hml : forLoop mergeBody pods [] s1 with
        | exit o2 s2 =>
          rw [hml] at hrel
          simp only [Flow.sys] at hrel
          obtain ⟨hg2, -, hsv2, -, -, ws, hws, hq⟩ := hrel
          simp only [hml, Prod.mk.injEq] at h
          rw [← h.2]
          refine Or.inr ⟨by rw [hg2]; exact hf1, ?_, ws, ?_, hq⟩
          · rw [hsv2, hst1]
            rfl
          · rw [hws, hw1]
            rfl
        | next dm s2 =>
          exact Or.inl ⟨services, pods, dm, s1, s2, rfl, hpods, hst1.trans hfs, hml⟩

/-! ## A missing deployment owner stops the transition -/

/-- C12 as stated fails.  Activate: with the pod behind B owned by nothing,
`getDeploymentName` gives the empty name with no error and `Reconcile` stops at
that pod: only the deployment of A was labelled, the merged service is not
created, no service is deleted and the merge is not recorded as active.
Rollback and Update: with such a pod in their way they fetch the deployment
with the empty name and return `NotFound`. -/
theorem empty_owner_counterexample :
    (getDeploymentName Scenario.orphan (Scenario.orphanPod "B") = ("", none) ∧
      (run MapOrder.stored Globals.initial Scenario.orphan).1 = .returned none ∧
      (run MapOrder.stored Globals.initial Scenario.orphan).2.g.merged_service_exists = false ∧
      (run MapOrder.stored Globals.initial Scenario.orphan).2.writes =
        [.updateDeployment
          { name := "dep-A", labels := [("app", "A"), ("merge", "true"), ("name", "A")] }] ∧
      (run MapOrder.stored Globals.initial Scenario.orphan).2.store.services =
        Scenario.orphan.services) ∧
    (getDeploymentName Scenario.rollbackOrphan (Scenario.orphanPod "B") = ("", none) ∧
      (run MapOrder.stored Scenario.merged.g Scenario.rollbackOrphan).1 =
        .returned (some .NotFound) ∧
      (run MapOrder.stored Scenario.merged.g Scenario.rollbackOrphan).2.g.merged_service_exists =
        true) ∧
    (getDeploymentName Scenario.extendedOrphan (Scenario.orphanPod "D") = ("", none) ∧
      (run MapOrder.stored Scenario.merged.g Scenario.extendedOrphan).1 =
        .returned (some .NotFound)) := by
  decide

/-- C12, amended. A pod whose deployment name is empty (with no error) is not
skipped; the transition stops at it.  On a cluster without a deployment of the
empty name: when such a pod backs a declared service, Activate ends without
creating the merged service, without deleting any service and without setting
`merged_service_exists`; when such a pod is among those listed for a service to
release or to add, Update does not return success; when such a pod is among
`merged_pods`, Rollback returns an error and leaves every package-level
variable as it was. -/
theorem empty_owner_stops (ord : MapOrder) (g : Globals) (st : Store)
    (hne : NoEmptyDeployment st) :
    (g.merged_service_exists = false → ∀ S pods, st.svcMergerObj = some S →
      getPodNames st S = .ok pods →
      (∃ pod ∈ pods, ∃ pod_obj, st.getPod pod.pod = .ok pod_obj ∧
        getDeploymentName st pod_obj = ("", none)) →
      (run ord g st).2.g.merged_service_exists = false ∧
      (∀ svc, Write.createService svc ∉ (run ord g st).2.writes) ∧
      (∀ svc, Write.deleteService svc ∉ (run ord g st).2.writes) ∧
      (run ord g st).2.store.services = st.services) ∧
    (g.merged_service_exists = true → ∀ B, st.svcMergerObj = some B →
      (∃ pod ∈ st.pods, getDeploymentName st pod = ("", none) ∧
        ((∃ svc ∈ (diff ord g.cur_mrgd_svcs_map B).1,
            matchingLabels [("name", svc), ("merge", "true")] pod.labels = true) ∨
          (∃ svc ∈ (diff ord g.cur_mrgd_svcs_map B).2, ∃ o, st.getService svc = .ok o ∧
            matchingLabels o.selector pod.labels = true))) →
      (run ord g st).1 ≠ .returned none) ∧
    (g.merged_service_exists = true → st.svcMergerObj = none →
      (∃ pod ∈ g.merged_pods, ∃ pod_obj, st.getPod pod = .ok pod_obj ∧
        getDeploymentName st pod_obj = ("", none)) →
      (∃ e, (run ord g st).1 = .returned (some e)) ∧ (run ord g st).2.g = g) := by
  refine ⟨?_, ?_, ?_⟩
  · -- Activate
    intro hinactive S pods hintent hpods ⟨pod, hpod, pod_obj, hget, hempty⟩
    have hrun : run ord g st = Activate { g := g, store := st, writes := [] } := by
      simp [run, Reconcile, hinactive]
    rw [hrun]
    generalize hres : Activate { g := g, store := st, writes := [] } = r
    obtain ⟨o, s'⟩ := r
    rcases Activate_before_create _ _ _ hres with
      ⟨S', pods', dm, s1, s2, h1, h2, h3, h4⟩ | ⟨hflag, hsv, ws, hws, hq⟩
    · simp only at h1 h2 h3
      rw [hintent] at h1
      simp only [Option.some.injEq] at h1
      subst h1
      rw [hpods] at h2
      simp only [Except.ok.injEq] at h2
      subst h2
      have := merge_loop_nonempty _ _ _ _ _ h4 pod hpod pod_obj (by rw [h3]; exact hget)
      rw [h3, hempty] at this
      exact absurd rfl this
    · simp only at hflag hsv hws
      refine ⟨hflag.trans hinactive, ?_, ?_, hsv⟩
      · intro svc hmem
        rw [hws] at hmem
        simp only [List.nil_append] at hmem
        obtain ⟨d, hd, -⟩ := hq _ hmem
        simp at hd
      · intro svc hmem
        rw [hws] at hmem
        simp only [List.nil_append] at hmem
        obtain ⟨d, hd, -⟩ := hq _ hmem
        simp at hd
  · -- Update
    intro hactive B hintent ⟨pod, hpod, hempty, hcase⟩ hnone
    rw [run_update ord g st B hactive hintent] at hnone
    obtain ⟨u1, s1, u2, s2, hl1, hl2⟩ :=
      Update_loops ord B _ _ (Prod.ext hnone rfl)
    simp only at hl1 hl2
    obtain ⟨hne1, hrelease⟩ := release_loop_nonempty _ _ _ _ hne hl1
    simp only at hrelease
    rcases hcase with ⟨svc, hsvc, hmatch⟩ | ⟨svc, hsvc, o, ho, hmatch⟩
    · exact hrelease svc hsvc pod hpod hmatch hempty
    · obtain ⟨-, -, -, -, hp1, hr1, hsv1, -⟩ := release_next _ _ _ _ hl1
      simp only at hp1 hr1 hsv1
      have ho1 : s1.store.getService svc = .ok o := by
        have h1 := getService_append_of_ok
          ((diff ord g.cur_mrgd_svcs_map B).1.map (restored_svc g)) ho
        rw [← h1]
        exact getService_congr hsv1 svc
      have := absorb_loop_nonempty _ _ _ _ hne1 hl2 svc hsvc o ho1 pod
        (by rw [hp1]; exact hpod) hmatch
      rw [getDeploymentName_congr hr1] at this
      exact this hempty
  · -- Rollback
    intro hactive hgone ⟨pod, hpod, pod_obj, hget, hempty⟩
    rw [run_rollback ord g st hactive hgone]
    have hnot : (Rollback ord { g := g, store := st, writes := [] }).1 ≠ .returned none := by
      intro h
      obtain ⟨dm, s1, mobj, hloop, -⟩ :=
        Rollback_ok ord _ (Rollback ord { g := g, store := st, writes := [] }).2 (Prod.ext h rfl)
      exact rollback_loop_nonempty _ _ _ _ hne hloop pod hpod pod_obj hget hempty
    exact Rollback_error ord _ _ _ rfl hnot

theorem empty_owner_stops_witness :
    ((run MapOrder.stored Globals.initial Scenario.orphan).2.g.merged_service_exists = false ∧
      (∀ svc, Write.createService svc ∉
        (run MapOrder.stored Globals.initial Scenario.orphan).2.writes) ∧
      (∀ svc, Write.deleteService svc ∉
        (run MapOrder.stored Globals.initial Scenario.orphan).2.writes) ∧
      (run MapOrder.stored Globals.initial Scenario.orphan).2.store.services =
        Scenario.orphan.services) ∧
    (run MapOrder.stored Scenario.merged.g Scenario.extendedOrphan).1 ≠ .returned none ∧
    ((∃ e, (run MapOrder.stored Scenario.merged.g Scenario.rollbackOrphan).1 =
        .returned (some e)) ∧
      (run MapOrder.stored Scenario.merged.g Scenario.rollbackOrphan).2.g = Scenario.merged.g) :=
  ⟨(empty_owner_stops MapOrder.stored Globals.initial Scenario.orphan
      (by unfold NoEmptyDeployment; decide)).1 (by decide) ["A", "B", "C"]
      [⟨"pod-A", "A"⟩, ⟨"pod-B", "B"⟩, ⟨"pod-C", "C"⟩] (by decide) rfl
      ⟨⟨"pod-B", "B"⟩, by decide, Scenario.orphanPod "B", rfl, by decide⟩,
   (empty_owner_stops MapOrder.stored Scenario.merged.g Scenario.extendedOrphan
      (by unfold NoEmptyDeployment; decide)).2.1 (by decide) ["A", "B", "C", "D"] (by decide)
      ⟨Scenario.orphanPod "D", by decide, by decide,
        Or.inr ⟨"D", by decide, Scenario.service "D" 83, rfl, by decide⟩⟩,
   (empty_owner_stops MapOrder.stored Scenario.merged.g Scenario.rollbackOrphan
      (by unfold NoEmptyDeployment; decide)).2.2 (by decide) (by decide)
      ⟨"pod-B", by decide, Scenario.orphanPod "B", rfl, by decide⟩⟩

end SvcMerger
